import Mathlib

/-!
# Asset registry chaincode (`attc/atcc.go`)

A shallow embedding of the asset contract: the `Asset` record, the ledger stub it is
run against, the JSON wire encoding, and the seven contract operations, followed by
the theorems that settle the claims of the specification.

Modelling conventions.

* A Go `string` is a sequence of bytes, valid UTF-8 or not, and so is a `[]byte`: both
  are lists of `UInt8`. A string literal of the source denotes the UTF-8 encoding of
  its text (`utf8`).
* A Go `error` is identified with its message; `nil` is the absence of an error.
* `Value int` is a Lean `Int`; the 64-bit range of Go's `int` is the predicate
  `InInt64`, which matters only where a number is decoded.
* The ledger stub, `encoding/json`, `unicode/utf8` and `fmt` are collaborators outside
  the repository; they are modelled by executable reference definitions.
* A `Stub` is the ledger as one invocation of the contract finds it. Each store call of
  the invocation can fail on its own; what fails in one invocation says nothing about
  the next, which runs on `Stub.next`.
-/

namespace Atcc

/-! ## Strings, byte slices and errors -/

/-- A Go `string`: any sequence of bytes, valid UTF-8 or not. -/
abbrev GoString := List UInt8

/-- A Go `[]byte`. -/
abbrev Bytes := List UInt8

/-- A Go `error`, identified with its message. -/
abbrev Error := GoString

/-! ## Text: `unicode/utf8` -/

/-- The code point `utf8.RuneError`, U+FFFD. -/
def runeError : Nat := 0xFFFD

/-- Library function `utf8.AppendRune`: the UTF-8 encoding of the code point `r`. Half a
surrogate pair and a number beyond U+10FFFF are encoded as U+FFFD. -/
def encodeRune (r : Nat) : List UInt8 :=
  if r < 0x80 then [UInt8.ofNat r]
  else if r < 0x800 then [UInt8.ofNat (0xC0 + r / 64), UInt8.ofNat (0x80 + r % 64)]
  else if (0xD800 ≤ r ∧ r < 0xE000) ∨ 0x10FFFF < r then [0xEF, 0xBF, 0xBD]
  else if r < 0x10000 then
    [UInt8.ofNat (0xE0 + r / 4096), UInt8.ofNat (0x80 + r / 64 % 64),
      UInt8.ofNat (0x80 + r % 64)]
  else
    [UInt8.ofNat (0xF0 + r / 262144), UInt8.ofNat (0x80 + r / 4096 % 64),
      UInt8.ofNat (0x80 + r / 64 % 64), UInt8.ofNat (0x80 + r % 64)]

/-- The UTF-8 encoding of a sequence of characters. -/
def utf8Of : List Char → GoString
  | [] => []
  | c :: cs => encodeRune c.toNat ++ utf8Of cs

/-- The value of a string literal of the source, which is UTF-8 text: the encoding of its
characters. -/
def utf8 (text : String) : GoString := utf8Of text.data

/-- An ASCII character as a byte. -/
def ch (c : Char) : UInt8 := UInt8.ofNat c.toNat

/-- A continuation byte of an encoding (between `locb` and `hicb`). -/
def isCont (b : UInt8) : Bool := decide (0x80 ≤ b.toNat) && decide (b.toNat ≤ 0xBF)

/-- The tables `first` and `acceptRanges` at a first byte that is not ASCII: the length of
the encoding it starts and the bounds its second byte must lie between; `none` for a byte
that starts no encoding. -/
def leadInfo (x : Nat) : Option (Nat × Nat × Nat) :=
  if 0xC2 ≤ x ∧ x ≤ 0xDF then some (2, 0x80, 0xBF)
  else if x = 0xE0 then some (3, 0xA0, 0xBF)
  else if x = 0xED then some (3, 0x80, 0x9F)
  else if 0xE1 ≤ x ∧ x ≤ 0xEF then some (3, 0x80, 0xBF)
  else if x = 0xF0 then some (4, 0x90, 0xBF)
  else if 0xF1 ≤ x ∧ x ≤ 0xF3 then some (4, 0x80, 0xBF)
  else if x = 0xF4 then some (4, 0x80, 0x8F)
  else none

/-- Library function `utf8.DecodeRune`: the code point encoded at the front of the input
`p` and the number of bytes of its encoding. An input that starts with no valid encoding
gives `(runeError, 1)`, the empty input `(runeError, 0)`. -/
def decodeRune (p : List UInt8) : Nat × Nat :=
  match p with
  | [] => (runeError, 0)
  | p0 :: _ =>
    if p0.toNat < 0x80 then (p0.toNat, 1)
    else
      match leadInfo p0.toNat with
      | none => (runeError, 1)
      | some (sz, lo, hi) =>
        if p.length < sz then (runeError, 1)
        else if (p.getD 1 0).toNat < lo ∨ hi < (p.getD 1 0).toNat then (runeError, 1)
        else if sz ≤ 2 then ((p0.toNat - 0xC0) * 64 + ((p.getD 1 0).toNat - 0x80), 2)
        else if isCont (p.getD 2 0) = false then (runeError, 1)
        else if sz ≤ 3 then
          (((p0.toNat - 0xE0) * 64 + ((p.getD 1 0).toNat - 0x80)) * 64 +
            ((p.getD 2 0).toNat - 0x80), 3)
        else if isCont (p.getD 3 0) = false then (runeError, 1)
        else
          ((((p0.toNat - 0xF0) * 64 + ((p.getD 1 0).toNat - 0x80)) * 64 +
            ((p.getD 2 0).toNat - 0x80)) * 64 + ((p.getD 3 0).toNat - 0x80), 4)

/-- Library function `utf8.ValidString`, from a position: no step of decoding meets a byte
that starts no valid encoding. `skip` is the number of bytes at the front that belong to
an encoding decoded already. -/
def validFrom : Nat → GoString → Bool
  | _, [] => true
  | skip + 1, _ :: rest => validFrom skip rest
  | 0, b :: rest =>
    if decodeRune (b :: rest) = (runeError, 1) then false
    else validFrom ((decodeRune (b :: rest)).2 - 1) rest

/-- A string that is valid UTF-8 (`utf8.ValidString`). -/
def ValidUTF8 (s : GoString) : Prop := validFrom 0 s = true

instance (s : GoString) : Decidable (ValidUTF8 s) := by unfold ValidUTF8; infer_instance

/-! ## The record -/

/-- The `Asset` struct; `Type_` is the field `Type`. -/
structure Asset where
  ID : GoString
  Owner : GoString
  Status : GoString
  Type_ : GoString
  Department : GoString
  Code : GoString
  Value : Int
  Date : GoString
deriving DecidableEq, Repr

/-- The zero value of `Asset` (what `var asset Asset` declares). -/
def Asset.zero : Asset := ⟨[], [], [], [], [], [], 0, []⟩

/-- The range of Go's 64-bit `int`. -/
def InInt64 (v : Int) : Prop := -9223372036854775808 ≤ v ∧ v ≤ 9223372036854775807

instance (v : Int) : Decidable (InInt64 v) := by unfold InInt64; infer_instance

/-! ## The ledger stub

The world state is a finite map from keys to values. A `Stub` is the ledger as one
invocation of the contract finds it. Each store call of the invocation can fail, and
which calls fail is unconstrained: one invocation makes each call, a kind of call on a
key, at most once (`InitLedger` writes ten distinct keys, an iterator steps once over
each key), so giving the outcome of every call by its kind and key leaves every
combination of failing and succeeding calls open. A failed call leaves the world state as
it was. What fails in one invocation says nothing about the next: the next invocation
runs on `Stub.next`, the same world state with failures of its own. -/

/-- A mutating call made on the stub. -/
inductive StubCall where
  | put (key : GoString) (value : Bytes)
  | del (key : GoString)
deriving DecidableEq, Repr

/-- Which store calls of one invocation fail, and with what error. -/
structure Faults where
  /-- the error with which `GetState` of a key fails, if it does -/
  getErr : GoString → Option Error
  /-- the error with which `PutState` of a value under a key fails, if it does -/
  putErr : GoString → Bytes → Option Error
  /-- the error with which `DelState` of a key fails, if it does -/
  delErr : GoString → Option Error
  /-- the error with which `GetStateByRange` fails, if it does -/
  rangeErr : Option Error
  /-- the error with which the step of the iterator that would return a key fails, if it
  does -/
  nextErr : GoString → Option Error

/-- No store call fails. -/
def noFaults : Faults := ⟨fun _ => none, fun _ _ => none, fun _ => none, none, fun _ => none⟩

/-- The ledger stub behind `ctx.GetStub()` during one invocation: which of its calls fail,
the world state, and the mutating calls made on it so far. -/
structure Stub extends Faults where
  /-- the world state -/
  state : AList (fun _ : GoString => Bytes)
  /-- the `PutState` and `DelState` calls made so far, failed ones included, oldest first -/
  calls : List StubCall

/-- The store with no entries in which no call fails. -/
def Stub.empty : Stub := ⟨noFaults, ∅, []⟩

/-- The stub of the next invocation: the world state as this one left it, and store calls
that fail as `faults` says, whatever failed or succeeded before. -/
def Stub.next (stub : Stub) (faults : Faults) : Stub := { stub with toFaults := faults }

/-- Stub call `GetState`: the value under `key`; Go's `nil` slice is `none`. -/
def GetState (stub : Stub) (key : GoString) : Except Error (Option Bytes) :=
  match stub.getErr key with
  | some err => .error err
  | none => .ok (stub.state.lookup key)

/-- Stub call `PutState`: bind `key` to `value`. The call is recorded; when it fails the
world state is as before. -/
def PutState (stub : Stub) (key : GoString) (value : Bytes) : Except Error Unit × Stub :=
  match stub.putErr key value with
  | some err => (.error err, { stub with calls := stub.calls ++ [.put key value] })
  | none =>
    (.ok (), { stub with state := stub.state.insert key value,
                         calls := stub.calls ++ [.put key value] })

/-- Stub call `DelState`: remove `key`. The call is recorded; when it fails the world
state is as before. -/
def DelState (stub : Stub) (key : GoString) : Except Error Unit × Stub :=
  match stub.delErr key with
  | some err => (.error err, { stub with calls := stub.calls ++ [.del key] })
  | none =>
    (.ok (), { stub with state := stub.state.erase key, calls := stub.calls ++ [.del key] })

/-- Byte-wise lexicographic order on keys. -/
def keyLe : GoString → GoString → Bool
  | [], _ => true
  | _ :: _, [] => false
  | a :: as, b :: bs => a.toNat < b.toNat || (a.toNat == b.toNat && keyLe as bs)

/-- Membership of a key in the range `[startKey, endKey)`, an empty bound being open. -/
def inRange (startKey endKey key : GoString) : Bool :=
  (startKey == [] || keyLe startKey key) && (endKey == [] || !(keyLe endKey key))

/-- What the `Next()` call of an iterator that has reached the entry `e` returns: the
entry, or the error with which this step fails. -/
def iterStep (stub : Stub) (e : Sigma fun _ : GoString => Bytes) :
    Except Error (GoString × Bytes) :=
  match stub.nextErr e.1 with
  | some err => .error err
  | none => .ok (e.1, e.2)

/-- Stub call `GetStateByRange`: the iterator over the entries whose key is in range, in
key order, as the list of what successive `Next()` calls return. Each step returns its
entry or fails on its own. -/
def GetStateByRange (stub : Stub) (startKey endKey : GoString) :
    Except Error (List (Except Error (GoString × Bytes))) :=
  match stub.rangeErr with
  | some err => .error err
  | none =>
    .ok (((stub.state.entries.filter (fun e => inRange startKey endKey e.1)).insertionSort
          (fun a b => keyLe a.1 b.1 = true)).map (iterStep stub))

/-! ## Wire encoding: `json.Marshal`

`Asset` is a struct of strings and one `int`, so `json.Marshal` emits one object with
the eight tagged field names in declaration order, without spaces; strings are written
by `appendString` with HTML escaping on, the integer by `strconv.AppendInt`. -/

/-- The double quote. -/
def quote : UInt8 := 0x22

/-- The backslash. -/
def backslash : UInt8 := 0x5C

/-- The indexing `hex[n]` into the encoder's table of digits. -/
def hexDigit (n : Nat) : UInt8 := (utf8 "0123456789abcdef").getD n (ch '0')

/-- The table `htmlSafeSet`: ASCII bytes written as they are. -/
def htmlSafe (b : UInt8) : Bool :=
  decide (0x20 ≤ b.toNat) && decide (b.toNat < 0x80) && b.toNat != 0x22 && b.toNat != 0x5C &&
    b.toNat != 0x3C && b.toNat != 0x3E && b.toNat != 0x26

/-- The ASCII case of the loop of `appendString`: what is written for a byte below 0x80.
(Backspace and form feed are written `\b` and `\f`, as Go does since 1.22; before, it
wrote them as `\u0008` and `\u000c`, which decode to the same bytes.) -/
def appendAscii (b : UInt8) : Bytes :=
  if htmlSafe b then [b]
  else if b.toNat = 0x5C ∨ b.toNat = 0x22 then [backslash, b]
  else if b.toNat = 0x08 then [backslash, ch 'b']
  else if b.toNat = 0x0C then [backslash, ch 'f']
  else if b.toNat = 0x0A then [backslash, ch 'n']
  else if b.toNat = 0x0D then [backslash, ch 'r']
  else if b.toNat = 0x09 then [backslash, ch 't']
  else [backslash, ch 'u', ch '0', ch '0', hexDigit (b.toNat / 16), hexDigit (b.toNat % 16)]

/-- The loop of `appendString` from a position of `src`: the body of the JSON string.
A byte that starts no valid encoding is written as the escape of U+FFFD, the line and
paragraph separators U+2028 and U+2029 as escapes, every other encoded code point as its
bytes. `skip` is the number of bytes at the front that belong to an encoding written
already. -/
def escapeFrom : Nat → GoString → Bytes
  | _, [] => []
  | skip + 1, _ :: rest => escapeFrom skip rest
  | 0, b :: rest =>
    if b.toNat < 0x80 then appendAscii b ++ escapeFrom 0 rest
    else if decodeRune (b :: rest) = (runeError, 1) then
      backslash :: ch 'u' :: ch 'f' :: ch 'f' :: ch 'f' :: ch 'd' :: escapeFrom 0 rest
    else if (decodeRune (b :: rest)).1 = 0x2028 ∨ (decodeRune (b :: rest)).1 = 0x2029 then
      backslash :: ch 'u' :: ch '2' :: ch '0' :: ch '2' ::
        hexDigit ((decodeRune (b :: rest)).1 % 16) ::
        escapeFrom ((decodeRune (b :: rest)).2 - 1) rest
    else
      (b :: rest).take (decodeRune (b :: rest)).2 ++
        escapeFrom ((decodeRune (b :: rest)).2 - 1) rest

/-- Library function `appendString`: `src` as a quoted JSON string appended to `dst`. -/
def appendString (dst : Bytes) (src : GoString) : Bytes :=
  dst ++ quote :: (escapeFrom 0 src ++ [quote])

/-- The decimal digits of `n`, most significant first; `fuel` bounds their number. -/
def formatBits : Nat → Nat → Bytes
  | 0, _ => []
  | fuel + 1, n =>
    if n < 10 then [UInt8.ofNat (48 + n)]
    else formatBits fuel (n / 10) ++ [UInt8.ofNat (48 + n % 10)]

/-- Library function `strconv.AppendInt(dst, v, 10)`. -/
def appendInt (dst : Bytes) (v : Int) : Bytes :=
  if v < 0 then dst ++ ch '-' :: formatBits (v.natAbs + 1) v.natAbs
  else dst ++ formatBits (v.natAbs + 1) v.natAbs

/-- A quoted field name and its colon, as the encoder precomputes it from the tag. -/
def fieldKey (name : String) : Bytes := quote :: (utf8 name ++ [quote, ch ':'])

/-- Library function `json.Marshal` at type `Asset`. It has no failing case for this
type. -/
def jsonMarshal (asset : Asset) : Except Error Bytes :=
  .ok (
    appendString (0x7B :: fieldKey "ID") asset.ID ++
    appendString (ch ',' :: fieldKey "Owner") asset.Owner ++
    appendString (ch ',' :: fieldKey "Status") asset.Status ++
    appendString (ch ',' :: fieldKey "Type") asset.Type_ ++
    appendString (ch ',' :: fieldKey "Department") asset.Department ++
    appendString (ch ',' :: fieldKey "Code") asset.Code ++
    appendInt (ch ',' :: fieldKey "Value") asset.Value ++
    appendString (ch ',' :: fieldKey "Date") asset.Date ++
    [0x7D])

/-! ## Wire encoding: `json.Unmarshal`

`json.Unmarshal` first checks that the whole input is one well-formed JSON value
(`checkValid`), then walks it and stores into the target. The model parses the input
into a `Json` tree (the syntax check) and then stores the tree into an `Asset`. -/

/-- A parsed JSON value; a number keeps its literal. -/
inductive Json where
  | null
  | bool (b : Bool)
  | num (lit : Bytes)
  | str (s : GoString)
  | arr (xs : List Json)
  | obj (kvs : List (GoString × Json))

/-- JSON white space (`isSpace`). -/
def isSpace (c : UInt8) : Bool :=
  c.toNat == 0x20 || c.toNat == 0x09 || c.toNat == 0x0D || c.toNat == 0x0A

/-- Drop leading white space. -/
def skipSpace : Bytes → Bytes
  | [] => []
  | c :: cs => if isSpace c then skipSpace cs else c :: cs

/-- The value of one hexadecimal digit, of either case. -/
def hexVal (c : UInt8) : Option Nat :=
  if 48 ≤ c.toNat ∧ c.toNat ≤ 57 then some (c.toNat - 48)
  else if 97 ≤ c.toNat ∧ c.toNat ≤ 102 then some (c.toNat - 87)
  else if 65 ≤ c.toNat ∧ c.toNat ≤ 70 then some (c.toNat - 55)
  else none

/-- Library function `getu4`: the number written by four hexadecimal digits. -/
def getu4 (a b c d : UInt8) : Option Nat :=
  match hexVal a, hexVal b, hexVal c, hexVal d with
  | some x, some y, some z, some w => some (((x * 16 + y) * 16 + z) * 16 + w)
  | _, _, _, _ => none

/-- The predicate `utf16.IsSurrogate`. -/
def isSurrogate (r : Nat) : Bool := decide (0xD800 ≤ r) && decide (r < 0xE000)

/-- Library function `utf16.DecodeRune`: the code point of a surrogate pair, U+FFFD when
the two halves are not a pair. -/
def utf16DecodeRune (r1 r2 : Nat) : Nat :=
  if 0xD800 ≤ r1 ∧ r1 < 0xDC00 ∧ 0xDC00 ≤ r2 ∧ r2 < 0xE000 then
    (r1 - 0xD800) * 1024 + (r2 - 0xDC00) + 0x10000
  else runeError

/-- The second half of a surrogate pair, when the input goes on with a `\u` escape. -/
def nextU4 : Bytes → Option Nat
  | b :: u :: h1 :: h2 :: h3 :: h4 :: _ =>
    if b.toNat = 0x5C ∧ u.toNat = 0x75 then getu4 h1 h2 h3 h4 else none
  | _ => none

/-- One escape sequence, from after its backslash (the cases of `unquote`): the code point
denoted and the number of input bytes it takes. A `\u` escape of half a surrogate pair is
joined with a following `\u` escape of the other half, and denotes U+FFFD when none
follows. -/
def unescape : Bytes → Option (Nat × Nat)
  | [] => none
  | e :: rest =>
    if e.toNat = 0x22 ∨ e.toNat = 0x5C ∨ e.toNat = 0x2F then some (e.toNat, 1)
    else if e.toNat = 0x62 then some (0x08, 1)
    else if e.toNat = 0x66 then some (0x0C, 1)
    else if e.toNat = 0x6E then some (0x0A, 1)
    else if e.toNat = 0x72 then some (0x0D, 1)
    else if e.toNat = 0x74 then some (0x09, 1)
    else if e.toNat = 0x75 then
      match rest with
      | h1 :: h2 :: h3 :: h4 :: rest4 =>
        match getu4 h1 h2 h3 h4 with
        | none => none
        | some rr =>
          if isSurrogate rr then
            match nextU4 rest4 with
            | some rr1 =>
              if utf16DecodeRune rr rr1 = runeError then some (runeError, 5)
              else some (utf16DecodeRune rr rr1, 11)
            | none => some (runeError, 5)
          else some (rr, 5)
      | _ => none
    else none

/-- A string literal, from after its opening quote (the scanner's string states together
with `unquote`): the string denoted, and the input after the closing quote. An escape
denotes the encoding of its code point; a byte that starts no valid encoding is replaced
by the encoding of U+FFFD. `skip` is the number of bytes at the front that belong to an
escape sequence or an encoding read already. -/
def scanString : Nat → Bytes → Option (GoString × Bytes)
  | _, [] => none
  | skip + 1, _ :: cs => scanString skip cs
  | 0, c :: cs =>
    if c.toNat = 0x22 then some ([], cs)
    else if c.toNat = 0x5C then
      match unescape cs with
      | none => none
      | some (r, n) => (scanString n cs).map (fun p => (encodeRune r ++ p.1, p.2))
    else if c.toNat < 0x20 then none
    else if c.toNat < 0x80 then (scanString 0 cs).map (fun p => (c :: p.1, p.2))
    else
      (scanString ((decodeRune (c :: cs)).2 - 1) cs).map
        (fun p => (encodeRune (decodeRune (c :: cs)).1 ++ p.1, p.2))

/-- A decimal digit. -/
def isDigit (c : UInt8) : Bool := decide (48 ≤ c.toNat) && decide (c.toNat ≤ 57)

/-- The longest run of digits at the front of the input, and what follows it. -/
def spanDigits : Bytes → Bytes × Bytes
  | [] => ([], [])
  | c :: cs => if isDigit c then ((spanDigits cs).1.cons c, (spanDigits cs).2) else ([], c :: cs)

/-- The integer part of a number literal: `0`, or a nonzero digit and more digits. -/
def scanIntPart : Bytes → Option (Bytes × Bytes)
  | [] => none
  | d :: cs =>
    if d.toNat = 48 then some ([d], cs)
    else if isDigit d then some (d :: (spanDigits cs).1, (spanDigits cs).2)
    else none

/-- An optional fraction: a point and at least one digit. -/
def scanFrac : Bytes → Option (Bytes × Bytes)
  | [] => some ([], [])
  | c :: cs =>
    if c.toNat = 0x2E then
      if (spanDigits cs).1 = [] then none else some (c :: (spanDigits cs).1, (spanDigits cs).2)
    else some ([], c :: cs)

/-- The digits of an exponent, after its optional sign: at least one. -/
def scanExpDigits (pre cs : Bytes) : Option (Bytes × Bytes) :=
  if (spanDigits cs).1 = [] then none else some (pre ++ (spanDigits cs).1, (spanDigits cs).2)

/-- An optional exponent: `e` or `E`, an optional sign, and at least one digit. -/
def scanExp : Bytes → Option (Bytes × Bytes)
  | [] => some ([], [])
  | c :: cs =>
    if c.toNat = 0x65 ∨ c.toNat = 0x45 then
      match cs with
      | [] => none
      | s :: ds =>
        if s.toNat = 0x2B ∨ s.toNat = 0x2D then scanExpDigits [c, s] ds
        else scanExpDigits [c] (s :: ds)
    else some ([], c :: cs)

/-- A number literal without its sign. -/
def scanUnsigned (cs : Bytes) : Option (Bytes × Bytes) :=
  match scanIntPart cs with
  | none => none
  | some (ip, r1) =>
    match scanFrac r1 with
    | none => none
    | some (fp, r2) =>
      match scanExp r2 with
      | none => none
      | some (ep, r3) => some (ip ++ fp ++ ep, r3)

/-- A number literal: the literal and the input after it. -/
def scanNumber : Bytes → Option (Bytes × Bytes)
  | [] => none
  | c :: cs =>
    if c.toNat = 0x2D then (scanUnsigned cs).map (fun r => (c :: r.1, r.2))
    else scanUnsigned (c :: cs)

/-- The input after the word `w`, when the input starts with it. -/
def stripWord : Bytes → Bytes → Option Bytes
  | [], cs => some cs
  | _ :: _, [] => none
  | w :: ws, c :: cs => if w = c then stripWord ws cs else none

/-- The scanner's bound `maxNestingDepth` on objects and arrays inside one another. -/
def maxNestingDepth : Nat := 10000

mutual
/-- One JSON value at the front of the input (which starts with no white space), and the
input after it. `depth` is the number of objects and arrays the value lies in; `fuel`
bounds the number of nested calls. -/
def parseValue : Nat → Nat → Bytes → Option (Json × Bytes)
  | 0, _, _ => none
  | _ + 1, _, [] => none
  | fuel + 1, depth, c :: cs =>
    if c.toNat = 0x7B then
      if maxNestingDepth ≤ depth then none
      else
        match skipSpace cs with
        | [] => none
        | d :: ds => if d.toNat = 0x7D then some (.obj [], ds)
                     else (parseMembers fuel (depth + 1) (d :: ds)).map (fun r => (.obj r.1, r.2))
    else if c.toNat = 0x5B then
      if maxNestingDepth ≤ depth then none
      else
        match skipSpace cs with
        | [] => none
        | d :: ds => if d.toNat = 0x5D then some (.arr [], ds)
                     else (parseElements fuel (depth + 1) (d :: ds)).map (fun r => (.arr r.1, r.2))
    else if c.toNat = 0x22 then (scanString 0 cs).map (fun r => (.str r.1, r.2))
    else if c.toNat = 0x74 then (stripWord (utf8 "rue") cs).map (fun r => (.bool true, r))
    else if c.toNat = 0x66 then (stripWord (utf8 "alse") cs).map (fun r => (.bool false, r))
    else if c.toNat = 0x6E then (stripWord (utf8 "ull") cs).map (fun r => (.null, r))
    else (scanNumber (c :: cs)).map (fun r => (.num r.1, r.2))
/-- The members of a non-empty object, from its first key to its closing brace. -/
def parseMembers : Nat → Nat → Bytes → Option (List (GoString × Json) × Bytes)
  | 0, _, _ => none
  | _ + 1, _, [] => none
  | fuel + 1, depth, q :: cs =>
    if q.toNat = 0x22 then
      match scanString 0 cs with
      | none => none
      | some (key, r1) =>
        match skipSpace r1 with
        | [] => none
        | col :: r2 =>
          if col.toNat = 0x3A then
            match parseValue fuel depth (skipSpace r2) with
            | none => none
            | some (v, r3) =>
              match skipSpace r3 with
              | [] => none
              | sep :: r4 =>
                if sep.toNat = 0x7D then some ([(key, v)], r4)
                else if sep.toNat = 0x2C then
                  (parseMembers fuel depth (skipSpace r4)).map (fun r => ((key, v) :: r.1, r.2))
                else none
          else none
    else none
/-- The elements of a non-empty array, from its first element to its closing bracket. -/
def parseElements : Nat → Nat → Bytes → Option (List Json × Bytes)
  | 0, _, _ => none
  | fuel + 1, depth, cs =>
    match parseValue fuel depth cs with
    | none => none
    | some (v, r1) =>
      match skipSpace r1 with
      | [] => none
      | sep :: r2 =>
        if sep.toNat = 0x5D then some ([v], r2)
        else if sep.toNat = 0x2C then
          (parseElements fuel depth (skipSpace r2)).map (fun r => (v :: r.1, r.2))
        else none
end

/-- The syntax check and parse of a whole input: one value between optional white space.
The fuel is the length of the input, which is never used up. -/
def parseJson (data : Bytes) : Option Json :=
  match parseValue (data.length + 1) 0 (skipSpace data) with
  | none => none
  | some (j, rest) => if skipSpace rest = [] then some j else none

/-- The digits of a decimal numeral folded into the number they write, from the
accumulator `acc`; `none` at a byte that is no digit. -/
def parseUintAux : Nat → Bytes → Option Nat
  | acc, [] => some acc
  | acc, c :: cs => if isDigit c then parseUintAux (acc * 10 + (c.toNat - 48)) cs else none

/-- Library function `strconv.ParseInt(lit, 10, 64)` on a JSON number literal: the integer
it writes, when it has digits only after its sign and fits 64 bits. -/
def parseInt64 : Bytes → Option Int
  | [] => none
  | c :: cs =>
    if c.toNat = 0x2D then
      match cs with
      | [] => none
      | _ :: _ =>
        match parseUintAux 0 cs with
        | none => none
        | some n => if n ≤ 9223372036854775808 then some (-(n : Int)) else none
    else
      match parseUintAux 0 (c :: cs) with
      | none => none
      | some n => if n ≤ 9223372036854775807 then some (n : Int) else none

/-- The JSON names of the fields of `Asset`, from the struct tags, in declaration order. -/
def fieldNames : List String :=
  ["ID", "Owner", "Status", "Type", "Department", "Code", "Value", "Date"]

/-- Case folding of a code point as far as it matters against ASCII names: the long s
(U+017F) and the Kelvin sign (U+212A) fold to an upper-case ASCII letter. -/
def foldRune (r : Nat) : Nat :=
  if r = 0x17F then 0x53 else if r = 0x212A then 0x4B else r

/-- The loop of `appendFoldedName` from a position: a lower-case ASCII letter becomes
upper-case, any other ASCII byte is kept, and an encoded code point is folded and encoded
again. `skip` is the number of bytes at the front that belong to an encoding read
already. -/
def foldFrom : Nat → GoString → GoString
  | _, [] => []
  | skip + 1, _ :: rest => foldFrom skip rest
  | 0, b :: rest =>
    if b.toNat < 0x80 then
      (if 97 ≤ b.toNat ∧ b.toNat ≤ 122 then UInt8.ofNat (b.toNat - 32) else b) ::
        foldFrom 0 rest
    else
      encodeRune (foldRune (decodeRune (b :: rest)).1) ++
        foldFrom ((decodeRune (b :: rest)).2 - 1) rest

/-- Library function `foldName`. -/
def foldName (s : GoString) : GoString := foldFrom 0 s

/-- The field an object key stores into: the field of that exact name, otherwise the
first field whose name matches up to case; `none` for an unknown key. -/
def findField (key : GoString) : Option String :=
  match fieldNames.find? (fun n => utf8 n == key) with
  | some n => some n
  | none => fieldNames.find? (fun n => foldName (utf8 n) == foldName key)

/-- The message of an `UnmarshalTypeError` raised inside a field of `Asset`. -/
def typeError (value : GoString) (field typ : String) : Error :=
  utf8 "json: cannot unmarshal " ++ value ++ utf8 " into Go struct field Asset." ++
    utf8 field ++ utf8 " of type " ++ utf8 typ

/-- The JSON kind named in a type error. -/
def Json.kind : Json → String
  | .null => "null"
  | .bool _ => "bool"
  | .num _ => "number"
  | .str _ => "string"
  | .arr _ => "array"
  | .obj _ => "object"

/-- Store a JSON value into a `string` field holding `old`: a string is stored, `null`
changes nothing, anything else is a type error. -/
def storeString (field : String) (v : Json) (old : GoString) : Except Error GoString :=
  match v with
  | .null => .ok old
  | .str s => .ok s
  | other => .error (typeError (utf8 other.kind) field "string")

/-- Store a JSON value into an `int` field holding `old`: an integer literal in range is
stored, `null` changes nothing, anything else is a type error. -/
def storeInt (field : String) (v : Json) (old : Int) : Except Error Int :=
  match v with
  | .null => .ok old
  | .num lit =>
    match parseInt64 lit with
    | some n => .ok n
    | none => .error (typeError (utf8 "number " ++ lit) field "int")
  | other => .error (typeError (utf8 other.kind) field "int")

/-- Store a JSON value into the field of `asset` with JSON name `name`. -/
def storeField (asset : Asset) (name : String) (v : Json) : Except Error Asset :=
  if name = "ID" then (storeString name v asset.ID).map (fun s => { asset with ID := s })
  else if name = "Owner" then
    (storeString name v asset.Owner).map (fun s => { asset with Owner := s })
  else if name = "Status" then
    (storeString name v asset.Status).map (fun s => { asset with Status := s })
  else if name = "Type" then
    (storeString name v asset.Type_).map (fun s => { asset with Type_ := s })
  else if name = "Department" then
    (storeString name v asset.Department).map (fun s => { asset with Department := s })
  else if name = "Code" then
    (storeString name v asset.Code).map (fun s => { asset with Code := s })
  else if name = "Value" then
    (storeInt name v asset.Value).map (fun n => { asset with Value := n })
  else (storeString name v asset.Date).map (fun s => { asset with Date := s })

/-- Store the members of an object into `asset`, in order: a later member overwrites an
earlier one, an unknown key is skipped, and the first type error is the result. -/
def storeMembers (asset : Asset) : List (GoString × Json) → Except Error Asset
  | [] => .ok asset
  | (key, v) :: rest =>
    match findField key with
    | none => storeMembers asset rest
    | some name =>
      match storeField asset name v with
      | .error err => .error err
      | .ok asset1 => storeMembers asset1 rest

/-- The message of the `SyntaxError` of an input that is not one JSON value. The text of
such an error names the offending byte and the place; one message stands for all of
them, apart from the empty input. -/
def syntaxError (data : Bytes) : Error :=
  if skipSpace data = [] then utf8 "unexpected end of JSON input"
  else utf8 "invalid character in JSON input"

/-- Library function `json.Unmarshal(data, &asset)`, `asset` being the value the target
holds before the call: the value it holds after, or the error returned. -/
def jsonUnmarshal (data : Bytes) (asset : Asset) : Except Error Asset :=
  match parseJson data with
  | none => .error (syntaxError data)
  | some (.obj kvs) => storeMembers asset kvs
  | some .null => .ok asset
  | some other =>
    .error (utf8 "json: cannot unmarshal " ++ utf8 other.kind ++
      utf8 " into Go value of type main.Asset")

/-! ## The contract

Every operation takes the stub it runs against and returns what the Go function
returns together with the stub after the call. -/

/-- The ten hard-coded seed records of `InitLedger`. -/
def seedAssets : List Asset := [
  ⟨utf8 "Склад:М2", utf8 "Склад", utf8 "Готов к продаже", utf8 "Хранение", utf8 "Склад",
    utf8 "М2", 60, utf8 "02.04.2023 09:01"⟩,
  ⟨utf8 "Склад:М3", utf8 "Склад", utf8 "Готов к продаже", utf8 "Хранение", utf8 "Склад",
    utf8 "М3", 130, utf8 "02.04.2023 09:04"⟩,
  ⟨utf8 "Склад:М2а", utf8 "Склад", utf8 "Готов к продаже", utf8 "Хранение", utf8 "Склад",
    utf8 "М2а", 20, utf8 "02.04.2023 09:08"⟩,
  ⟨utf8 "Склад:М4", utf8 "Склад", utf8 "Готов к продаже", utf8 "Хранение", utf8 "Склад",
    utf8 "М4", 80, utf8 "02.04.2023 09:09"⟩,
  ⟨utf8 "Склад:М8", utf8 "Склад", utf8 "Готов к продаже", utf8 "Хранение", utf8 "Склад",
    utf8 "М8", 190, utf8 "02.04.2023 09:15"⟩,
  ⟨utf8 "Склад:А2", utf8 "Склад", utf8 "Готов к продаже", utf8 "Хранение", utf8 "Склад",
    utf8 "А2", 340, utf8 "02.04.2023 09:32"⟩,
  ⟨utf8 "Склад:А19", utf8 "Склад", utf8 "Готов к продаже", utf8 "Хранение", utf8 "Склад",
    utf8 "А19", 540, utf8 "02.04.2023 09:45"⟩,
  ⟨utf8 "Склад:Бр1", utf8 "Склад", utf8 "Готов к продаже", utf8 "Хранение", utf8 "Склад",
    utf8 "Бр1", 10, utf8 "02.04.2023 09:52"⟩,
  ⟨utf8 "Склад:Л8", utf8 "Склад", utf8 "Готов к продаже", utf8 "Хранение", utf8 "Склад",
    utf8 "Л8", 35, utf8 "02.04.2023 09:55"⟩,
  ⟨utf8 "Склад:Ц7", utf8 "Склад", utf8 "Готов к продаже", utf8 "Хранение", utf8 "Склад",
    utf8 "Ц7", 40, utf8 "02.04.2023 09:58"⟩]

/-- The loop of `InitLedger` over the records still to be written. -/
def initLoop (ctx : Stub) : List Asset → Except Error Unit × Stub
  | [] => (.ok (), ctx)
  | asset :: rest =>
    match jsonMarshal asset with
    | .error err => (.error err, ctx)
    | .ok assetJSON =>
      match PutState ctx asset.ID assetJSON with
      | (.error err, ctx1) => (.error (utf8 "failed to put to world state. " ++ err), ctx1)
      | (.ok _, ctx1) => initLoop ctx1 rest

/-- Contract operation `InitLedger`. -/
def InitLedger (ctx : Stub) : Except Error Unit × Stub :=
  initLoop ctx seedAssets

/-- Contract operation `AssetExists`. -/
def AssetExists (ctx : Stub) (id : GoString) : Except Error Bool × Stub :=
  match GetState ctx id with
  | .error err => (.error (utf8 "failed to read from world state: " ++ err), ctx)
  | .ok assetJSON => (.ok assetJSON.isSome, ctx)

/-- Contract operation `CreateAsset`. -/
def CreateAsset (ctx : Stub) (Owner Status Type_ Department Code : GoString) (Value : Int)
    (Date : GoString) : Except Error Unit × Stub :=
  let id := Owner ++ utf8 ":" ++ Code
  match AssetExists ctx id with
  | (.error err, ctx1) => (.error err, ctx1)
  | (.ok true, ctx1) => (.error (utf8 "the asset " ++ id ++ utf8 " already exists"), ctx1)
  | (.ok false, ctx1) =>
    if Type_ = utf8 "Сделка" ∧ Status ≠ utf8 "Первичная договоренность" then
      (.error (utf8 "статус актива " ++ id ++ utf8 " не соответсвует правилам"), ctx1)
    else
      match jsonMarshal ⟨id, Owner, Status, Type_, Department, Code, Value, Date⟩ with
      | .error err => (.error err, ctx1)
      | .ok assetJSON => PutState ctx1 id assetJSON

/-- Contract operation `ReadAsset`. -/
def ReadAsset (ctx : Stub) (id : GoString) : Except Error Asset × Stub :=
  match GetState ctx id with
  | .error err => (.error (utf8 "failed to read from world state: " ++ err), ctx)
  | .ok none => (.error (utf8 "the asset " ++ id ++ utf8 " does not exist"), ctx)
  | .ok (some assetJSON) =>
    match jsonUnmarshal assetJSON Asset.zero with
    | .error err => (.error err, ctx)
    | .ok asset => (.ok asset, ctx)

/-- Contract operation `UpdateAsset`. -/
def UpdateAsset (ctx : Stub) (Owner Status Type_ Department Code : GoString) (Value : Int)
    (Date : GoString) : Except Error Unit × Stub :=
  let id := Owner ++ utf8 ":" ++ Code
  match AssetExists ctx id with
  | (.error err, ctx1) => (.error err, ctx1)
  | (.ok false, ctx1) => (.error (utf8 "the asset " ++ id ++ utf8 " does not exist"), ctx1)
  | (.ok true, ctx1) =>
    match jsonMarshal ⟨id, Owner, Status, Type_, Department, Code, Value, Date⟩ with
    | .error err => (.error err, ctx1)
    | .ok assetJSON => PutState ctx1 id assetJSON

/-- Contract operation `DeleteAsset`. -/
def DeleteAsset (ctx : Stub) (id : GoString) : Except Error Unit × Stub :=
  match AssetExists ctx id with
  | (.error err, ctx1) => (.error err, ctx1)
  | (.ok false, ctx1) => (.error (utf8 "the asset " ++ id ++ utf8 " does not exist"), ctx1)
  | (.ok true, ctx1) => DelState ctx1 id

/-- The loop of `GetAllAssets` over the iterator: `assets` is the slice built so far. -/
def scanLoop : List (Except Error (GoString × Bytes)) → List Asset → Except Error (List Asset)
  | [], assets => .ok assets
  | .error err :: _, _ => .error err
  | .ok queryResponse :: more, assets =>
    match jsonUnmarshal queryResponse.2 Asset.zero with
    | .error err => .error err
    | .ok asset => scanLoop more (assets ++ [asset])

/-- Contract operation `GetAllAssets`. -/
def GetAllAssets (ctx : Stub) : Except Error (List Asset) × Stub :=
  match GetStateByRange ctx (utf8 "") (utf8 "") with
  | .error err => (.error err, ctx)
  | .ok resultsIterator => (scanLoop resultsIterator [], ctx)

/-! ## Auxiliary definitions for the proofs -/

/-- An ASCII byte that stands for itself inside a JSON string. -/
def plain (c : UInt8) : Bool :=
  c.toNat != 0x22 && c.toNat != 0x5C && !decide (c.toNat < 0x20) && decide (c.toNat < 0x80)

/-- A string made into valid UTF-8, from a position: every byte that starts no valid
encoding is replaced by the encoding of U+FFFD, every valid encoding is kept. `skip` is
the number of bytes at the front that belong to an encoding kept already. -/
def replaceInvalidFrom : Nat → GoString → GoString
  | _, [] => []
  | skip + 1, _ :: rest => replaceInvalidFrom skip rest
  | 0, b :: rest =>
    if decodeRune (b :: rest) = (runeError, 1) then
      encodeRune runeError ++ replaceInvalidFrom 0 rest
    else
      (b :: rest).take (decodeRune (b :: rest)).2 ++
        replaceInvalidFrom ((decodeRune (b :: rest)).2 - 1) rest

/-- The string that comes back when `s` is written by `json.Marshal` and read by
`json.Unmarshal`: `s` with every byte that starts no valid encoding replaced by the
encoding of U+FFFD. -/
def replaceInvalid (s : GoString) : GoString := replaceInvalidFrom 0 s

/-- A record with its seven strings made into valid UTF-8. -/
def Asset.replaceInvalid (asset : Asset) : Asset :=
  ⟨Atcc.replaceInvalid asset.ID, Atcc.replaceInvalid asset.Owner, Atcc.replaceInvalid asset.Status,
    Atcc.replaceInvalid asset.Type_, Atcc.replaceInvalid asset.Department,
    Atcc.replaceInvalid asset.Code, asset.Value, Atcc.replaceInvalid asset.Date⟩

/-- A record whose seven strings are valid UTF-8. -/
def Asset.Valid (asset : Asset) : Prop :=
  ValidUTF8 asset.ID ∧ ValidUTF8 asset.Owner ∧ ValidUTF8 asset.Status ∧
    ValidUTF8 asset.Type_ ∧ ValidUTF8 asset.Department ∧ ValidUTF8 asset.Code ∧
    ValidUTF8 asset.Date

instance (asset : Asset) : Decidable asset.Valid := by unfold Asset.Valid; infer_instance

/-- The members of the object that `json.Marshal` writes for `asset`, as
`json.Unmarshal` reads them. -/
def assetMembers (asset : Asset) : List (GoString × Json) :=
  [(utf8 "ID", .str (replaceInvalid asset.ID)), (utf8 "Owner", .str (replaceInvalid asset.Owner)),
   (utf8 "Status", .str (replaceInvalid asset.Status)),
   (utf8 "Type", .str (replaceInvalid asset.Type_)),
   (utf8 "Department", .str (replaceInvalid asset.Department)),
   (utf8 "Code", .str (replaceInvalid asset.Code)),
   (utf8 "Value", .num (appendInt [] asset.Value)),
   (utf8 "Date", .str (replaceInvalid asset.Date))]

/-- What `json.Marshal` writes for `asset`. -/
def encode (asset : Asset) : Bytes :=
  match jsonMarshal asset with
  | .ok bytes => bytes
  | .error _ => []

/-- What `json.Unmarshal` into a fresh `Asset` yields for `data`, the zero value when it
fails. -/
def decodeD (data : Bytes) : Asset :=
  match jsonUnmarshal data Asset.zero with
  | .ok asset => asset
  | .error _ => Asset.zero

/-- The entries of the world state in the order a scan of the whole namespace visits
them. -/
def scanOrder (ctx : Stub) : List (Sigma fun _ : GoString => Bytes) :=
  (ctx.state.entries.filter (fun e => inRange (utf8 "") (utf8 "") e.1)).insertionSort
    (fun a b => keyLe a.1 b.1 = true)

/-- An entry whose step of the iterator does not fail and whose value decodes. -/
def entryGood (ctx : Stub) (e : Sigma fun _ : GoString => Bytes) : Prop :=
  ctx.nextErr e.1 = none ∧ ∃ asset, jsonUnmarshal e.2 Asset.zero = .ok asset

/-- The range scan of the invocation opens and no step of its iterator fails. -/
def scanRuns (ctx : Stub) : Prop :=
  ctx.rangeErr = none ∧ ∀ e ∈ ctx.state.entries, ctx.nextErr e.1 = none

/-- The `PutState` call that writes `asset` under its ID. -/
def putCall (asset : Asset) : StubCall := .put asset.ID (encode asset)

/-- The world state after the records of `l` have been written into `s`, in order. -/
def writeAll (s : AList (fun _ : GoString => Bytes)) (l : List Asset) :
    AList (fun _ : GoString => Bytes) :=
  l.foldl (fun s a => s.insert a.ID (encode a)) s

/-- A step of the iterator that returns an entry whose value decodes to `asset`. -/
def stepDecodes (step : Except Error (GoString × Bytes)) (asset : Asset) : Prop :=
  ∃ queryResponse, step = .ok queryResponse ∧
    jsonUnmarshal queryResponse.2 Asset.zero = .ok asset

/-- The stubs reached from a store with no entries by a finite sequence of invocations of
`InitLedger`, `CreateAsset`, `UpdateAsset` and `DeleteAsset`, successful or not, each
with store failures of its own, the `Owner` and `Code` arguments being valid UTF-8 and the
`Value` arguments Go `int`s. -/
inductive Reachable : Stub → Prop where
  | start (ctx : Stub) (h : ctx.state = ∅) : Reachable ctx
  | next (ctx : Stub) (faults : Faults) (h : Reachable ctx) : Reachable (ctx.next faults)
  | initLedger (ctx : Stub) (h : Reachable ctx) : Reachable (InitLedger ctx).2
  | createAsset (ctx : Stub) (Owner Status Type_ Department Code : GoString) (Value : Int)
      (Date : GoString) (hv : InInt64 Value) (ho : ValidUTF8 Owner) (hc : ValidUTF8 Code)
      (h : Reachable ctx) :
      Reachable (CreateAsset ctx Owner Status Type_ Department Code Value Date).2
  | updateAsset (ctx : Stub) (Owner Status Type_ Department Code : GoString) (Value : Int)
      (Date : GoString) (hv : InInt64 Value) (ho : ValidUTF8 Owner) (hc : ValidUTF8 Code)
      (h : Reachable ctx) :
      Reachable (UpdateAsset ctx Owner Status Type_ Department Code Value Date).2
  | deleteAsset (ctx : Stub) (id : GoString) (h : Reachable ctx) :
      Reachable (DeleteAsset ctx id).2

/-- The key/ID invariant of a world state: every value decodes to a record whose ID is the
key it is stored under and is its own `Owner:Code`. -/
def KeyIdInvariant (s : AList (fun _ : GoString => Bytes)) : Prop :=
  ∀ k v, s.lookup k = some v →
    ∃ a, jsonUnmarshal v Asset.zero = .ok a ∧ a.ID = k ∧ a.ID = a.Owner ++ utf8 ":" ++ a.Code

/-! ## Concrete stores used as examples -/

/-- The error of the failing calls of the examples. -/
def boom : Error := utf8 "boom"

/-- Every `GetState` fails with `boom`; no other call fails. -/
def readsFail : Faults := { noFaults with getErr := fun _ => some boom }

/-- Every `PutState` fails with `boom`; no other call fails. -/
def writesFail : Faults := { noFaults with putErr := fun _ _ => some boom }

/-- `GetStateByRange` fails with `boom`; no other call fails. -/
def scanFails : Faults := { noFaults with rangeErr := some boom }

/-- Every step of an iterator fails with `boom`; no other call fails. -/
def stepsFail : Faults := { noFaults with nextErr := fun _ => some boom }

/-- The write under the key of the third seed record fails with `boom`; no other call
fails. -/
def thirdWriteFails : Faults :=
  { noFaults with putErr := fun key _ => if key = utf8 "Склад:М2а" then some boom else none }

/-- A world state holding the value `x`, which is no encoding of a record, under `a:b`. -/
def occupiedState : AList (fun _ : GoString => Bytes) :=
  (∅ : AList (fun _ : GoString => Bytes)).insert (utf8 "a:b") (utf8 "x")

/-- A store holding a value under `a:b` in which no call fails. -/
def occupiedStub : Stub := ⟨noFaults, occupiedState, []⟩

/-- A store holding a value under `a:b` in which every read fails with `boom`. -/
def unreadableStub : Stub := ⟨readsFail, occupiedState, []⟩

/-- A store with no entries in which every read fails with `boom`. -/
def unreadableEmptyStub : Stub := ⟨readsFail, ∅, []⟩

/-- A store holding a value under `a:b` in which every write fails with `boom`. -/
def unwritableStub : Stub := ⟨writesFail, occupiedState, []⟩

/-- A store with no entries in which every write fails with `boom`. -/
def unwritableEmptyStub : Stub := ⟨writesFail, ∅, []⟩

/-- A store with no entries in which opening a range scan fails with `boom`. -/
def unscannableStub : Stub := ⟨scanFails, ∅, []⟩

/-- A store holding an empty, non-nil value under `a:b` in which no call fails. -/
def emptyValueStub : Stub :=
  ⟨noFaults, (∅ : AList (fun _ : GoString => Bytes)).insert (utf8 "a:b") [], []⟩

/-- A store with no entries in which the write under the key of the third seed record fails
with `boom` and no other call fails. -/
def failThirdStub : Stub := ⟨thirdWriteFails, ∅, []⟩

/-- The record with id `a:b` of the examples. -/
def sampleAsset : Asset :=
  ⟨utf8 "a:b", utf8 "a", utf8 "s", utf8 "t", utf8 "d", utf8 "b", 1, utf8 "x"⟩

/-- A store holding the encoding of a record under `a:b` in which no call fails. -/
def sampleStub : Stub :=
  ⟨noFaults, (∅ : AList (fun _ : GoString => Bytes)).insert (utf8 "a:b") (encode sampleAsset),
    []⟩

/-- A store holding the encoding of a record under `a:b` in which opening a range scan
fails with `boom` and no other call fails. -/
def unscannableOccupiedStub : Stub :=
  ⟨scanFails, (∅ : AList (fun _ : GoString => Bytes)).insert (utf8 "a:b") (encode sampleAsset),
    []⟩

/-- The Go string `"a\xff"`: the letter `a` and the byte 0xFF, which is not valid UTF-8. -/
def invalidText : GoString := [0x61, 0xFF]

/-- The Go string `"a\ufffd"`: the letter `a` and the encoding of U+FFFD. -/
def replacedText : GoString := [0x61, 0xEF, 0xBF, 0xBD]

/-- A store with no entries in which every read fails with `boom`, except the read of
`abc`. -/
def onlyAbcReadableStub : Stub :=
  ⟨{ noFaults with getErr := fun key => if key = utf8 "abc" then none else some boom }, ∅, []⟩

/-! ## Bytes -/

theorem toNat_lt (b : UInt8) : b.toNat < 256 := b.toBitVec.isLt

theorem toNat_ofNat (n : Nat) (h : n < 256) : (UInt8.ofNat n).toNat = n := by
  simp [UInt8.ofNat, UInt8.toNat, Nat.mod_eq_of_lt h]

theorem ofNat_toNat (b : UInt8) : UInt8.ofNat b.toNat = b := by
  apply UInt8.ext
  rw [toNat_ofNat _ (toNat_lt b)]

theorem byte_eq (n : Nat) (b : UInt8) (h : n = b.toNat) : UInt8.ofNat n = b := by
  rw [h, ofNat_toNat]

theorem leadInfo_cases (x : Nat) :
    leadInfo x = none ∨
    (leadInfo x = some (2, 0x80, 0xBF) ∧ 0xC2 ≤ x ∧ x ≤ 0xDF) ∨
    (leadInfo x = some (3, 0xA0, 0xBF) ∧ x = 0xE0) ∨
    (leadInfo x = some (3, 0x80, 0x9F) ∧ x = 0xED) ∨
    (leadInfo x = some (3, 0x80, 0xBF) ∧ 0xE1 ≤ x ∧ x ≤ 0xEF ∧ x ≠ 0xED) ∨
    (leadInfo x = some (4, 0x90, 0xBF) ∧ x = 0xF0) ∨
    (leadInfo x = some (4, 0x80, 0xBF) ∧ 0xF1 ≤ x ∧ x ≤ 0xF3) ∨
    (leadInfo x = some (4, 0x80, 0x8F) ∧ x = 0xF4) := by
  unfold leadInfo
  split_ifs <;> simp <;> omega

theorem decodeRune_two (b b1 : UInt8) (tail : List UInt8)
    (h : leadInfo b.toNat = some (2, 0x80, 0xBF)) (hb : 0xC2 ≤ b.toNat ∧ b.toNat ≤ 0xDF)
    (h1 : 0x80 ≤ b1.toNat ∧ b1.toNat ≤ 0xBF) :
    decodeRune (b :: b1 :: tail) = ((b.toNat - 0xC0) * 64 + (b1.toNat - 0x80), 2) := by
  have hb' : ¬ b.toNat < 0x80 := by omega
  have h2 : ¬ (b1.toNat < 0x80 ∨ 0xBF < b1.toNat) := by omega
  simp [decodeRune, hb', h, h2]

theorem isCont_iff (b : UInt8) : isCont b = false ↔ (b.toNat < 0x80 ∨ 0xBF < b.toNat) := by
  simp [isCont]
  omega

/-- What `decodeRune` finds at a byte that is not ASCII: nothing valid, or the encoding
`x` of a code point, which it decodes whatever follows and which `encodeRune` writes. -/
theorem decodeRune_cases (b : UInt8) (rest : List UInt8) (hb : 0x80 ≤ b.toNat) :
    decodeRune (b :: rest) = (runeError, 1) ∨
    ∃ x tail r, b :: rest = x ++ tail ∧ 2 ≤ x.length ∧ 0x80 ≤ r ∧ encodeRune r = x ∧
      ∀ y, decodeRune (x ++ y) = (r, x.length) := by
  have hb' : ¬ b.toNat < 0x80 := by omega
  have hlt := toNat_lt b
  have two : ∀ lo hi, leadInfo b.toNat = some (2, lo, hi) → 0x80 ≤ lo → hi ≤ 0xBF →
      0xC2 ≤ b.toNat → b.toNat ≤ 0xDF →
      decodeRune (b :: rest) = (runeError, 1) ∨
      ∃ x tail r, b :: rest = x ++ tail ∧ 2 ≤ x.length ∧ 0x80 ≤ r ∧ encodeRune r = x ∧
        ∀ y, decodeRune (x ++ y) = (r, x.length) := by
    intro lo hi h hlo hhi hb1 hb2
    cases rest with
    | nil => left; simp [decodeRune, hb', h]
    | cons b1 tail =>
      by_cases h1 : b1.toNat < lo ∨ hi < b1.toNat
      · left; simp [decodeRune, hb', h, h1]
      · right
        refine ⟨[b, b1], tail, (b.toNat - 0xC0) * 64 + (b1.toNat - 0x80), rfl, by simp,
          by omega, ?_, ?_⟩
        · generalize hr : (b.toNat - 0xC0) * 64 + (b1.toNat - 0x80) = r
          have e1 : UInt8.ofNat (0xC0 + r / 64) = b := byte_eq _ _ (by omega)
          have e2 : UInt8.ofNat (0x80 + r % 64) = b1 := byte_eq _ _ (by omega)
          unfold encodeRune
          rw [if_neg (by omega), if_pos (by omega), e1, e2]
        · intro y
          simp [decodeRune, hb', h, h1]
  have three : ∀ lo hi, leadInfo b.toNat = some (3, lo, hi) → 0x80 ≤ lo → hi ≤ 0xBF →
      0xE0 ≤ b.toNat → b.toNat ≤ 0xEF → (b.toNat = 0xE0 → 0xA0 ≤ lo) →
      (b.toNat = 0xED → hi ≤ 0x9F) →
      decodeRune (b :: rest) = (runeError, 1) ∨
      ∃ x tail r, b :: rest = x ++ tail ∧ 2 ≤ x.length ∧ 0x80 ≤ r ∧ encodeRune r = x ∧
        ∀ y, decodeRune (x ++ y) = (r, x.length) := by
    intro lo hi h hlo hhi hb1 hb2 he0 hed
    rcases rest with _ | ⟨b1, _ | ⟨b2, tail⟩⟩
    · left; simp [decodeRune, hb', h]
    · left; simp [decodeRune, hb', h]
    · by_cases h1 : b1.toNat < lo ∨ hi < b1.toNat
      · left; simp [decodeRune, hb', h, h1]
      · by_cases h2 : isCont b2 = false
        · left; simp [decodeRune, hb', h, h1, h2]
        · right
          have h2' := (isCont_iff b2).not.1 h2
          refine ⟨[b, b1, b2], tail,
            ((b.toNat - 0xE0) * 64 + (b1.toNat - 0x80)) * 64 + (b2.toNat - 0x80), rfl,
            by simp, by omega, ?_, ?_⟩
          · generalize hr :
              ((b.toNat - 0xE0) * 64 + (b1.toNat - 0x80)) * 64 + (b2.toNat - 0x80) = r
            have e1 : UInt8.ofNat (0xE0 + r / 4096) = b := byte_eq _ _ (by omega)
            have e2 : UInt8.ofNat (0x80 + r / 64 % 64) = b1 := byte_eq _ _ (by omega)
            have e3 : UInt8.ofNat (0x80 + r % 64) = b2 := byte_eq _ _ (by omega)
            unfold encodeRune
            rw [if_neg (by omega), if_neg (by omega), if_neg (by omega), if_pos (by omega),
              e1, e2, e3]
          · intro y
            simp [decodeRune, hb', h, h1, h2]
  have four : ∀ lo hi, leadInfo b.toNat = some (4, lo, hi) → 0x80 ≤ lo → hi ≤ 0xBF →
      0xF0 ≤ b.toNat → b.toNat ≤ 0xF4 → (b.toNat = 0xF0 → 0x90 ≤ lo) →
      (b.toNat = 0xF4 → hi ≤ 0x8F) →
      decodeRune (b :: rest) = (runeError, 1) ∨
      ∃ x tail r, b :: rest = x ++ tail ∧ 2 ≤ x.length ∧ 0x80 ≤ r ∧ encodeRune r = x ∧
        ∀ y, decodeRune (x ++ y) = (r, x.length) := by
    intro lo hi h hlo hhi hb1 hb2 hf0 hf4
    rcases rest with _ | ⟨b1, _ | ⟨b2, _ | ⟨b3, tail⟩⟩⟩
    · left; simp [decodeRune, hb', h]
    · left; simp [decodeRune, hb', h]
    · left; simp [decodeRune, hb', h]
    · by_cases h1 : b1.toNat < lo ∨ hi < b1.toNat
      · left; simp [decodeRune, hb', h, h1]
      · by_cases h2 : isCont b2 = false
        · left; simp [decodeRune, hb', h, h1, h2]
        · by_cases h3 : isCont b3 = false
          · left; simp [decodeRune, hb', h, h1, h2, h3]
          · right
            have h2' := (isCont_iff b2).not.1 h2
            have h3' := (isCont_iff b3).not.1 h3
            refine ⟨[b, b1, b2, b3], tail,
              (((b.toNat - 0xF0) * 64 + (b1.toNat - 0x80)) * 64 + (b2.toNat - 0x80)) * 64 +
                (b3.toNat - 0x80), rfl, by simp, by omega, ?_, ?_⟩
            · generalize hr :
                (((b.toNat - 0xF0) * 64 + (b1.toNat - 0x80)) * 64 + (b2.toNat - 0x80)) * 64 +
                  (b3.toNat - 0x80) = r
              have e1 : UInt8.ofNat (0xF0 + r / 262144) = b := byte_eq _ _ (by omega)
              have e2 : UInt8.ofNat (0x80 + r / 4096 % 64) = b1 := byte_eq _ _ (by omega)
              have e3 : UInt8.ofNat (0x80 + r / 64 % 64) = b2 := byte_eq _ _ (by omega)
              have e4 : UInt8.ofNat (0x80 + r % 64) = b3 := byte_eq _ _ (by omega)
              unfold encodeRune
              rw [if_neg (by omega), if_neg (by omega), if_neg (by omega), if_neg (by omega),
                e1, e2, e3, e4]
            · intro y
              simp [decodeRune, hb', h, h1, h2, h3]
  rcases leadInfo_cases b.toNat with h | ⟨h, hx⟩ | ⟨h, hx⟩ | ⟨h, hx⟩ | ⟨h, hx⟩ | ⟨h, hx⟩ |
    ⟨h, hx⟩ | ⟨h, hx⟩
  · left; simp [decodeRune, hb', h]
  · exact two _ _ h (by omega) (by omega) (by omega) (by omega)
  · exact three _ _ h (by omega) (by omega) (by omega) (by omega) (by omega) (by omega)
  · exact three _ _ h (by omega) (by omega) (by omega) (by omega) (by omega) (by omega)
  · exact three _ _ h (by omega) (by omega) (by omega) (by omega) (by omega) (by omega)
  · exact four _ _ h (by omega) (by omega) (by omega) (by omega) (by omega) (by omega)
  · exact four _ _ h (by omega) (by omega) (by omega) (by omega) (by omega) (by omega)
  · exact four _ _ h (by omega) (by omega) (by omega) (by omega) (by omega) (by omega)

/-! ## UTF-8 -/

theorem escapeFrom_skip (n : Nat) (s : GoString) : escapeFrom n s = escapeFrom 0 (s.drop n) := by
  induction n generalizing s with
  | zero => rfl
  | succ n ih =>
    cases s with
    | nil => simp [escapeFrom]
    | cons c cs => simp only [escapeFrom, List.drop_succ_cons]; exact ih cs

theorem scanString_skip (n : Nat) (s : Bytes) : scanString n s = scanString 0 (s.drop n) := by
  induction n generalizing s with
  | zero => rfl
  | succ n ih =>
    cases s with
    | nil => simp [scanString]
    | cons c cs => simp only [scanString, List.drop_succ_cons]; exact ih cs

theorem validFrom_skip (n : Nat) (s : GoString) : validFrom n s = validFrom 0 (s.drop n) := by
  induction n generalizing s with
  | zero => rfl
  | succ n ih =>
    cases s with
    | nil => simp [validFrom]
    | cons c cs => simp only [validFrom, List.drop_succ_cons]; exact ih cs

theorem replaceInvalidFrom_skip (n : Nat) (s : GoString) :
    replaceInvalidFrom n s = replaceInvalidFrom 0 (s.drop n) := by
  induction n generalizing s with
  | zero => rfl
  | succ n ih =>
    cases s with
    | nil => simp [replaceInvalidFrom]
    | cons c cs => simp only [replaceInvalidFrom, List.drop_succ_cons]; exact ih cs

/-- The first byte of an encoding of two bytes or more is not ASCII. -/
theorem encoding_head (x : List UInt8) (r : Nat) (hlen : 2 ≤ x.length)
    (hdec : ∀ y, decodeRune (x ++ y) = (r, x.length)) :
    ∃ b t, x = b :: t ∧ 0x80 ≤ b.toNat := by
  cases x with
  | nil => simp at hlen
  | cons b t =>
    refine ⟨b, t, rfl, ?_⟩
    by_contra hb
    have h := hdec []
    simp only [List.append_nil, decodeRune, if_pos (not_le.1 hb), Prod.mk.injEq] at h
    rw [← h.2] at hlen
    omega

theorem utf8_induction_step (P : GoString → Prop) (hnil : P [])
    (hascii : ∀ b rest, b.toNat < 0x80 → P rest → P (b :: rest))
    (hbad : ∀ b rest, 0x80 ≤ b.toNat → decodeRune (b :: rest) = (runeError, 1) → P rest →
      P (b :: rest))
    (hgood : ∀ b t tail r, 0x80 ≤ b.toNat → 1 ≤ t.length → 0x80 ≤ r →
      encodeRune r = b :: t → (∀ y, decodeRune (b :: (t ++ y)) = (r, t.length + 1)) →
      P tail → P (b :: (t ++ tail)))
    (n : Nat) (ih : ∀ m < n, ∀ s : GoString, s.length = m → P s) (s : GoString)
    (hn : s.length = n) : P s := by
  cases s with
  | nil => exact hnil
  | cons b rest =>
    by_cases hb : b.toNat < 0x80
    · exact hascii b rest hb (ih rest.length (by rw [← hn]; simp) rest rfl)
    · rcases decodeRune_cases b rest (by omega) with h | ⟨x, tail, r, hs, hlen, hr, henc, hdec⟩
      · exact hbad b rest (by omega) h (ih rest.length (by rw [← hn]; simp) rest rfl)
      · obtain ⟨b1, t, hx, hb1⟩ := encoding_head x r hlen hdec
        subst hx
        simp only [List.cons_append, List.cons.injEq] at hs
        obtain ⟨rfl, rfl⟩ := hs
        refine hgood b t tail r hb1 (by simpa using hlen) hr henc ?_
          (ih tail.length (by rw [← hn]; simp; omega) tail rfl)
        intro y
        simpa using hdec y

/-- Induction over a string, one decoding step at a time: an ASCII byte, a byte that
starts no valid encoding, or the encoding of a code point. -/
theorem utf8_induction (P : GoString → Prop) (hnil : P [])
    (hascii : ∀ b rest, b.toNat < 0x80 → P rest → P (b :: rest))
    (hbad : ∀ b rest, 0x80 ≤ b.toNat → decodeRune (b :: rest) = (runeError, 1) → P rest →
      P (b :: rest))
    (hgood : ∀ b t tail r, 0x80 ≤ b.toNat → 1 ≤ t.length → 0x80 ≤ r →
      encodeRune r = b :: t → (∀ y, decodeRune (b :: (t ++ y)) = (r, t.length + 1)) →
      P tail → P (b :: (t ++ tail)))
    (s : GoString) : P s := by
  have key : ∀ n (s : GoString), s.length = n → P s := by
    intro n
    induction n using Nat.strong_induction_on with
    | _ n ih =>
      intro s hn
      exact utf8_induction_step P hnil hascii hbad hgood n ih s hn
  exact key _ s rfl

theorem decodeRune_ascii (b : UInt8) (rest : List UInt8) (h : b.toNat < 0x80) :
    decodeRune (b :: rest) = (b.toNat, 1) := by
  simp [decodeRune, h]

theorem decodeRune_ascii_ne (b : UInt8) (rest : List UInt8) (h : b.toNat < 0x80) :
    decodeRune (b :: rest) ≠ (runeError, 1) := by
  rw [decodeRune_ascii b rest h]
  intro hc
  have := (Prod.mk.injEq _ _ _ _ ▸ hc : b.toNat = runeError ∧ 1 = 1).1
  unfold runeError at this
  omega

theorem validFrom_ascii (b : UInt8) (rest : GoString) (h : b.toNat < 0x80) :
    validFrom 0 (b :: rest) = validFrom 0 rest := by
  rw [validFrom, if_neg (decodeRune_ascii_ne b rest h), decodeRune_ascii b rest h]
  rfl

theorem validFrom_bad (b : UInt8) (rest : GoString)
    (h : decodeRune (b :: rest) = (runeError, 1)) : validFrom 0 (b :: rest) = false := by
  rw [validFrom, if_pos h]

theorem validFrom_good (b : UInt8) (t tail : GoString) (r : Nat) (ht : 1 ≤ t.length)
    (hdec : ∀ y, decodeRune (b :: (t ++ y)) = (r, t.length + 1)) :
    validFrom 0 (b :: (t ++ tail)) = validFrom 0 tail := by
  have hne : decodeRune (b :: (t ++ tail)) ≠ (runeError, 1) := by
    rw [hdec tail]
    intro hc
    have := (Prod.mk.injEq _ _ _ _ ▸ hc : r = runeError ∧ t.length + 1 = 1).2
    omega
  rw [validFrom, if_neg hne, hdec tail, validFrom_skip]
  simp

theorem replaceInvalidFrom_ascii (b : UInt8) (rest : GoString) (h : b.toNat < 0x80) :
    replaceInvalidFrom 0 (b :: rest) = b :: replaceInvalidFrom 0 rest := by
  rw [replaceInvalidFrom, if_neg (decodeRune_ascii_ne b rest h), decodeRune_ascii b rest h]
  rfl

theorem replaceInvalidFrom_bad (b : UInt8) (rest : GoString)
    (h : decodeRune (b :: rest) = (runeError, 1)) :
    replaceInvalidFrom 0 (b :: rest) = encodeRune runeError ++ replaceInvalidFrom 0 rest := by
  rw [replaceInvalidFrom, if_pos h]

theorem replaceInvalidFrom_good (b : UInt8) (t tail : GoString) (r : Nat) (ht : 1 ≤ t.length)
    (hdec : ∀ y, decodeRune (b :: (t ++ y)) = (r, t.length + 1)) :
    replaceInvalidFrom 0 (b :: (t ++ tail)) = b :: (t ++ replaceInvalidFrom 0 tail) := by
  have hne : decodeRune (b :: (t ++ tail)) ≠ (runeError, 1) := by
    rw [hdec tail]
    intro hc
    have := (Prod.mk.injEq _ _ _ _ ▸ hc : r = runeError ∧ t.length + 1 = 1).2
    omega
  rw [replaceInvalidFrom, if_neg hne, hdec tail, replaceInvalidFrom_skip]
  simp

/-- A valid string is what it is made into. -/
theorem replaceInvalid_of_valid (s : GoString) (h : ValidUTF8 s) : replaceInvalid s = s := by
  unfold ValidUTF8 at h
  unfold replaceInvalid
  revert h
  refine utf8_induction (fun s => validFrom 0 s = true → replaceInvalidFrom 0 s = s) ?_ ?_ ?_ ?_ s
  · intro _; rfl
  · intro b rest hb ih h
    rw [validFrom_ascii b rest hb] at h
    rw [replaceInvalidFrom_ascii b rest hb, ih h]
  · intro b rest _ hbad _ h
    rw [validFrom_bad b rest hbad] at h
    cases h
  · intro b t tail r _ ht _ _ hdec ih h
    rw [validFrom_good b t tail r ht hdec] at h
    rw [replaceInvalidFrom_good b t tail r ht hdec, ih h]

theorem decodeRune_three (b b1 b2 : UInt8) (y : List UInt8) (h0 : b.toNat = 0xEF)
    (h1 : b1.toNat = 0xBF) (h2 : b2.toNat = 0xBD) :
    decodeRune (b :: b1 :: b2 :: y) = (runeError, 3) := by
  have hl : leadInfo 0xEF = some (3, 0x80, 0xBF) := by decide
  simp [decodeRune, h0, h1, h2, hl, isCont, runeError]

theorem decodeRune_replacement (y : List UInt8) :
    decodeRune (0xEF :: 0xBF :: 0xBD :: y) = (runeError, 3) :=
  decodeRune_three _ _ _ y rfl rfl rfl

/-- Only a valid string is what it is made into. -/
theorem valid_of_replaceInvalid (s : GoString) (h : replaceInvalid s = s) : ValidUTF8 s := by
  unfold ValidUTF8
  unfold replaceInvalid at h
  revert h
  refine utf8_induction (fun s => replaceInvalidFrom 0 s = s → validFrom 0 s = true) ?_ ?_ ?_ ?_ s
  · intro _; rfl
  · intro b rest hb ih h
    rw [replaceInvalidFrom_ascii b rest hb] at h
    rw [validFrom_ascii b rest hb]
    exact ih (List.cons.inj h).2
  · intro b rest _ hbad _ h
    rw [replaceInvalidFrom_bad b rest hbad] at h
    have he : encodeRune runeError = [0xEF, 0xBF, 0xBD] := by decide
    rw [he] at h
    rcases rest with _ | ⟨b1, _ | ⟨b2, y⟩⟩
    · simp at h
    · simp at h
    · simp only [List.cons_append, List.nil_append, List.cons.injEq] at h
      obtain ⟨h0, h1, h2, -⟩ := h
      rw [← h0, ← h1, ← h2, decodeRune_replacement] at hbad
      cases hbad
  · intro b t tail r _ ht _ _ hdec ih h
    rw [replaceInvalidFrom_good b t tail r ht hdec] at h
    rw [validFrom_good b t tail r ht hdec]
    exact ih (List.append_cancel_left (List.cons.inj h).2)

theorem replaceInvalid_eq_iff (s : GoString) : replaceInvalid s = s ↔ ValidUTF8 s :=
  ⟨valid_of_replaceInvalid s, replaceInvalid_of_valid s⟩

/-- Valid strings joined are valid. -/
theorem valid_append (a b : GoString) (ha : ValidUTF8 a) (hb : ValidUTF8 b) :
    ValidUTF8 (a ++ b) := by
  unfold ValidUTF8 at ha hb ⊢
  revert ha
  refine utf8_induction (fun a => validFrom 0 a = true → validFrom 0 (a ++ b) = true)
    ?_ ?_ ?_ ?_ a
  · intro _; exact hb
  · intro c rest hc ih h
    rw [validFrom_ascii c rest hc] at h
    rw [List.cons_append, validFrom_ascii c _ hc]
    exact ih h
  · intro c rest _ hbad _ h
    rw [validFrom_bad c rest hbad] at h
    cases h
  · intro c t tail r _ ht _ _ hdec ih h
    rw [validFrom_good c t tail r ht hdec] at h
    rw [List.cons_append, List.append_assoc, validFrom_good c t (tail ++ b) r ht hdec]
    exact ih h

theorem decodeRune_three_of (b b1 b2 : UInt8) (y : List UInt8) (lo hi : Nat)
    (h : leadInfo b.toNat = some (3, lo, hi)) (hb : 0x80 ≤ b.toNat)
    (h1 : lo ≤ b1.toNat ∧ b1.toNat ≤ hi) (h2 : 0x80 ≤ b2.toNat ∧ b2.toNat ≤ 0xBF) :
    decodeRune (b :: b1 :: b2 :: y) =
      (((b.toNat - 0xE0) * 64 + (b1.toNat - 0x80)) * 64 + (b2.toNat - 0x80), 3) := by
  have hb' : ¬ b.toNat < 0x80 := by omega
  have h1' : ¬ (b1.toNat < lo ∨ hi < b1.toNat) := by omega
  have h2' : ¬ isCont b2 = false := by
    rw [isCont_iff]
    omega
  simp [decodeRune, hb', h, h1', h2']

theorem decodeRune_four_of (b b1 b2 b3 : UInt8) (y : List UInt8) (lo hi : Nat)
    (h : leadInfo b.toNat = some (4, lo, hi)) (hb : 0x80 ≤ b.toNat)
    (h1 : lo ≤ b1.toNat ∧ b1.toNat ≤ hi) (h2 : 0x80 ≤ b2.toNat ∧ b2.toNat ≤ 0xBF)
    (h3 : 0x80 ≤ b3.toNat ∧ b3.toNat ≤ 0xBF) :
    decodeRune (b :: b1 :: b2 :: b3 :: y) =
      ((((b.toNat - 0xF0) * 64 + (b1.toNat - 0x80)) * 64 + (b2.toNat - 0x80)) * 64 +
        (b3.toNat - 0x80), 4) := by
  have hb' : ¬ b.toNat < 0x80 := by omega
  have h1' : ¬ (b1.toNat < lo ∨ hi < b1.toNat) := by omega
  have h2' : ¬ isCont b2 = false := by
    rw [isCont_iff]
    omega
  have h3' : ¬ isCont b3 = false := by
    rw [isCont_iff]
    omega
  simp [decodeRune, hb', h, h1', h2', h3']

/-- The encoding of a code point that is no half of a surrogate pair and at most U+10FFFF
is valid UTF-8. -/
theorem valid_encodeRune (r : Nat) (hr : r < 0xD800 ∨ (0xDFFF < r ∧ r < 0x110000)) :
    ValidUTF8 (encodeRune r) := by
  unfold ValidUTF8
  by_cases h1 : r < 0x80
  · have e : encodeRune r = [UInt8.ofNat r] := by unfold encodeRune; rw [if_pos h1]
    rw [e, validFrom_ascii _ _ (by rw [toNat_ofNat r (by omega)]; exact h1)]
    rfl
  by_cases h2 : r < 0x800
  · have e : encodeRune r = [UInt8.ofNat (0xC0 + r / 64), UInt8.ofNat (0x80 + r % 64)] := by
      unfold encodeRune; rw [if_neg h1, if_pos h2]
    have t0 : (UInt8.ofNat (0xC0 + r / 64)).toNat = 0xC0 + r / 64 := toNat_ofNat _ (by omega)
    have t1 : (UInt8.ofNat (0x80 + r % 64)).toNat = 0x80 + r % 64 := toNat_ofNat _ (by omega)
    rw [e]
    have hl : leadInfo (UInt8.ofNat (0xC0 + r / 64)).toNat = some (2, 0x80, 0xBF) := by
      rw [t0]; unfold leadInfo; rw [if_pos (by omega)]
    exact (validFrom_good _ [_] [] _ (by simp) (fun y =>
      decodeRune_two _ _ y hl (by omega) (by omega))).trans rfl
  have h3 : ¬ ((0xD800 ≤ r ∧ r < 0xE000) ∨ 0x10FFFF < r) := by omega
  by_cases h4 : r < 0x10000
  · have e : encodeRune r = [UInt8.ofNat (0xE0 + r / 4096), UInt8.ofNat (0x80 + r / 64 % 64),
        UInt8.ofNat (0x80 + r % 64)] := by
      unfold encodeRune; rw [if_neg h1, if_neg h2, if_neg h3, if_pos h4]
    have t0 : (UInt8.ofNat (0xE0 + r / 4096)).toNat = 0xE0 + r / 4096 :=
      toNat_ofNat _ (by omega)
    have t1 : (UInt8.ofNat (0x80 + r / 64 % 64)).toNat = 0x80 + r / 64 % 64 :=
      toNat_ofNat _ (by omega)
    have t2 : (UInt8.ofNat (0x80 + r % 64)).toNat = 0x80 + r % 64 := toNat_ofNat _ (by omega)
    rw [e]
    rcases leadInfo_cases (0xE0 + r / 4096) with h | ⟨h, hx⟩ | ⟨h, hx⟩ | ⟨h, hx⟩ | ⟨h, hx⟩ |
      ⟨h, hx⟩ | ⟨h, hx⟩ | ⟨h, hx⟩
    · unfold leadInfo at h
      split_ifs at h
      omega
    · omega
    · exact (validFrom_good _ [_, _] [] _ (by simp) (fun y =>
        decodeRune_three_of _ _ _ y _ _ (by rw [t0]; exact h) (by omega) (by omega)
          (by omega))).trans rfl
    · exact (validFrom_good _ [_, _] [] _ (by simp) (fun y =>
        decodeRune_three_of _ _ _ y _ _ (by rw [t0]; exact h) (by omega) (by omega)
          (by omega))).trans rfl
    · exact (validFrom_good _ [_, _] [] _ (by simp) (fun y =>
        decodeRune_three_of _ _ _ y _ _ (by rw [t0]; exact h) (by omega) (by omega)
          (by omega))).trans rfl
    · omega
    · omega
    · omega
  · have e : encodeRune r = [UInt8.ofNat (0xF0 + r / 262144),
        UInt8.ofNat (0x80 + r / 4096 % 64), UInt8.ofNat (0x80 + r / 64 % 64),
        UInt8.ofNat (0x80 + r % 64)] := by
      unfold encodeRune; rw [if_neg h1, if_neg h2, if_neg h3, if_neg h4]
    have t0 : (UInt8.ofNat (0xF0 + r / 262144)).toNat = 0xF0 + r / 262144 :=
      toNat_ofNat _ (by omega)
    have t1 : (UInt8.ofNat (0x80 + r / 4096 % 64)).toNat = 0x80 + r / 4096 % 64 :=
      toNat_ofNat _ (by omega)
    have t2 : (UInt8.ofNat (0x80 + r / 64 % 64)).toNat = 0x80 + r / 64 % 64 :=
      toNat_ofNat _ (by omega)
    have t3 : (UInt8.ofNat (0x80 + r % 64)).toNat = 0x80 + r % 64 := toNat_ofNat _ (by omega)
    rw [e]
    rcases leadInfo_cases (0xF0 + r / 262144) with h | ⟨h, hx⟩ | ⟨h, hx⟩ | ⟨h, hx⟩ | ⟨h, hx⟩ |
      ⟨h, hx⟩ | ⟨h, hx⟩ | ⟨h, hx⟩
    · unfold leadInfo at h
      split_ifs at h
      omega
    · omega
    · omega
    · omega
    · omega
    · exact (validFrom_good _ [_, _, _] [] _ (by simp) (fun y =>
        decodeRune_four_of _ _ _ _ y _ _ (by rw [t0]; exact h) (by omega) (by omega)
          (by omega) (by omega))).trans rfl
    · exact (validFrom_good _ [_, _, _] [] _ (by simp) (fun y =>
        decodeRune_four_of _ _ _ _ y _ _ (by rw [t0]; exact h) (by omega) (by omega)
          (by omega) (by omega))).trans rfl
    · exact (validFrom_good _ [_, _, _] [] _ (by simp) (fun y =>
        decodeRune_four_of _ _ _ _ y _ _ (by rw [t0]; exact h) (by omega) (by omega)
          (by omega) (by omega))).trans rfl

/-- Every string literal is valid UTF-8. -/
theorem utf8_valid (text : String) : ValidUTF8 (utf8 text) := by
  unfold utf8
  induction text.data with
  | nil => rfl
  | cons c cs ih =>
    refine valid_append _ _ (valid_encodeRune c.toNat ?_) ih
    have h := c.valid
    simp only [Char.toNat, UInt32.isValidChar, Nat.isValidChar] at h ⊢
    omega

/-! ## The wire encoding round-trips -/

theorem hexVal_hexDigit (n : Nat) (h : n < 16) : hexVal (hexDigit n) = some n := by
  interval_cases n <;> rfl

theorem encodeRune_ascii (b : UInt8) (h : b.toNat < 0x80) : encodeRune b.toNat = [b] := by
  unfold encodeRune
  rw [if_pos h, ofNat_toNat]

theorem scanString_cons_plain (c : UInt8) (cs : Bytes) (h1 : c.toNat ≠ 0x22)
    (h2 : c.toNat ≠ 0x5C) (h3 : ¬ c.toNat < 0x20) (h4 : c.toNat < 0x80) :
    scanString 0 (c :: cs) = (scanString 0 cs).map (fun r => (c :: r.1, r.2)) := by
  simp [scanString, h1, h2, h3, h4]

theorem scanString_esc (cs : Bytes) (r n : Nat) (h : unescape cs = some (r, n)) :
    scanString 0 (backslash :: cs) =
      (scanString n cs).map (fun p => (encodeRune r ++ p.1, p.2)) := by
  have hb : backslash.toNat = 0x5C := rfl
  simp [scanString, hb, h]

theorem unescape_u4 (a b c d : UInt8) (rest : Bytes) (n : Nat) (h : getu4 a b c d = some n)
    (hs : isSurrogate n = false) :
    unescape (ch 'u' :: a :: b :: c :: d :: rest) = some (n, 5) := by
  have hu : (ch 'u').toNat = 0x75 := rfl
  simp [unescape, hu, h, hs]

theorem scanString_simple (e : UInt8) (r : Nat) (tail : Bytes)
    (h : unescape (e :: tail) = some (r, 1)) :
    scanString 0 (backslash :: e :: tail) =
      (scanString 0 tail).map (fun p => (encodeRune r ++ p.1, p.2)) := by
  rw [scanString_esc _ r 1 h]
  simp [scanString]

theorem scanString_u4 (a b c d : UInt8) (tail : Bytes) (n : Nat)
    (h : getu4 a b c d = some n) (hs : isSurrogate n = false) :
    scanString 0 (backslash :: ch 'u' :: a :: b :: c :: d :: tail) =
      (scanString 0 tail).map (fun p => (encodeRune n ++ p.1, p.2)) := by
  rw [scanString_esc _ n 5 (unescape_u4 _ _ _ _ _ _ h hs)]
  simp [scanString]

theorem scanString_appendAscii (c : UInt8) (tail : Bytes) (hc : c.toNat < 0x80) :
    scanString 0 (appendAscii c ++ tail) =
      (scanString 0 tail).map (fun r => (c :: r.1, r.2)) := by
  have henc := encodeRune_ascii c hc
  have key : ∀ (e : UInt8) (r : Nat), r = c.toNat → unescape (e :: tail) = some (r, 1) →
      scanString 0 (backslash :: e :: tail) =
        (scanString 0 tail).map (fun r => (c :: r.1, r.2)) := by
    intro e r hr h
    rw [scanString_simple e r tail h, hr, henc]
    rfl
  unfold appendAscii
  split_ifs with h2 h3 h4 h5 h6 h7 h8
  · simp [htmlSafe] at h2
    exact scanString_cons_plain c tail (by omega) (by omega) (by omega) hc
  · apply key c c.toNat rfl
    have : c.toNat = 34 ∨ c.toNat = 92 ∨ c.toNat = 47 := by omega
    simp [unescape, this]
  · exact key _ 0x08 h4.symm rfl
  · exact key _ 0x0C h5.symm rfl
  · exact key _ 0x0A h6.symm rfl
  · exact key _ 0x0D h7.symm rfl
  · exact key _ 0x09 h8.symm rfl
  · have hg : getu4 (ch '0') (ch '0') (hexDigit (c.toNat / 16)) (hexDigit (c.toNat % 16)) =
        some c.toNat := by
      have e1 : hexVal (ch '0') = some 0 := rfl
      simp only [getu4, e1, hexVal_hexDigit (c.toNat / 16) (by omega),
        hexVal_hexDigit (c.toNat % 16) (by omega)]
      congr 1
      omega
    have hs : isSurrogate c.toNat = false := by
      simp [isSurrogate]; omega
    show scanString 0 (backslash :: ch 'u' :: ch '0' :: ch '0' :: _ :: _ :: tail) = _
    rw [scanString_u4 _ _ _ _ _ _ hg hs, henc]
    rfl

/-- The escape written for a byte that starts no valid encoding reads as U+FFFD. -/
theorem scanString_replacement (tail : Bytes) :
    scanString 0 (backslash :: ch 'u' :: ch 'f' :: ch 'f' :: ch 'f' :: ch 'd' :: tail) =
      (scanString 0 tail).map (fun p => (encodeRune runeError ++ p.1, p.2)) :=
  scanString_u4 _ _ _ _ tail runeError rfl rfl

/-- The bytes of an encoded code point, written as they are, read as they are. -/
theorem scanString_raw (b : UInt8) (t tail : Bytes) (r : Nat) (hb : 0x80 ≤ b.toNat)
    (henc : encodeRune r = b :: t)
    (hdec : ∀ y, decodeRune (b :: (t ++ y)) = (r, t.length + 1)) :
    scanString 0 (b :: (t ++ tail)) =
      (scanString 0 tail).map (fun p => (b :: (t ++ p.1), p.2)) := by
  have h1 : b.toNat ≠ 0x22 := by omega
  have h2 : b.toNat ≠ 0x5C := by omega
  have h3 : ¬ b.toNat < 0x20 := by omega
  have h4 : ¬ b.toNat < 0x80 := by omega
  rw [scanString]
  simp only [h1, h2, h3, h4, if_false, hdec tail, henc, Nat.add_sub_cancel]
  rw [scanString_skip]
  simp

/-- The escape written for U+2028 or U+2029 reads as the code point. -/
theorem scanString_separator (r : Nat) (tail : Bytes) (hr : r = 0x2028 ∨ r = 0x2029) :
    scanString 0 (backslash :: ch 'u' :: ch '2' :: ch '0' :: ch '2' :: hexDigit (r % 16) ::
        tail) =
      (scanString 0 tail).map (fun p => (encodeRune r ++ p.1, p.2)) := by
  rcases hr with rfl | rfl
  · exact scanString_u4 _ _ _ _ tail _ rfl rfl
  · exact scanString_u4 _ _ _ _ tail _ rfl rfl

theorem escapeFrom_ascii (b : UInt8) (rest : GoString) (h : b.toNat < 0x80) :
    escapeFrom 0 (b :: rest) = appendAscii b ++ escapeFrom 0 rest := by
  rw [escapeFrom, if_pos h]

theorem escapeFrom_bad (b : UInt8) (rest : GoString) (hb : 0x80 ≤ b.toNat)
    (h : decodeRune (b :: rest) = (runeError, 1)) :
    escapeFrom 0 (b :: rest) =
      backslash :: ch 'u' :: ch 'f' :: ch 'f' :: ch 'f' :: ch 'd' :: escapeFrom 0 rest := by
  rw [escapeFrom, if_neg (by omega), if_pos h]

theorem escapeFrom_good (b : UInt8) (t tail : GoString) (r : Nat) (hb : 0x80 ≤ b.toNat)
    (ht : 1 ≤ t.length) (hdec : ∀ y, decodeRune (b :: (t ++ y)) = (r, t.length + 1)) :
    escapeFrom 0 (b :: (t ++ tail)) =
      if r = 0x2028 ∨ r = 0x2029 then
        backslash :: ch 'u' :: ch '2' :: ch '0' :: ch '2' :: hexDigit (r % 16) ::
          escapeFrom 0 tail
      else b :: (t ++ escapeFrom 0 tail) := by
  have hne : decodeRune (b :: (t ++ tail)) ≠ (runeError, 1) := by
    rw [hdec tail]
    intro hc
    have := (Prod.mk.injEq _ _ _ _ ▸ hc : r = runeError ∧ t.length + 1 = 1).2
    omega
  rw [escapeFrom, if_neg (by omega), if_neg hne, hdec tail]
  simp only [Nat.add_sub_cancel]
  rw [escapeFrom_skip]
  simp

/-- What `appendString` writes for a string reads back as the string made valid. -/
theorem scanString_escapeFrom (s : GoString) (rest : Bytes) :
    scanString 0 (escapeFrom 0 s ++ quote :: rest) = some (replaceInvalid s, rest) := by
  unfold replaceInvalid
  refine utf8_induction (fun s => scanString 0 (escapeFrom 0 s ++ quote :: rest) =
    some (replaceInvalidFrom 0 s, rest)) ?_ ?_ ?_ ?_ s
  · have hq : quote.toNat = 0x22 := rfl
    simp [escapeFrom, scanString, hq, replaceInvalidFrom]
  · intro b tl hb ih
    rw [escapeFrom_ascii b tl hb, List.append_assoc, scanString_appendAscii b _ hb, ih,
      replaceInvalidFrom_ascii b tl hb]
    rfl
  · intro b tl hb hbad ih
    rw [escapeFrom_bad b tl hb hbad, replaceInvalidFrom_bad b tl hbad]
    simp only [List.cons_append]
    rw [scanString_replacement, ih]
    rfl
  · intro b t tail r hb ht _ henc hdec ih
    rw [escapeFrom_good b t tail r hb ht hdec, replaceInvalidFrom_good b t tail r ht hdec]
    split_ifs with hr
    · simp only [List.cons_append]
      rw [scanString_separator r _ hr, ih, henc]
      rfl
    · simp only [List.cons_append, List.append_assoc]
      rw [scanString_raw b t _ r hb henc hdec, ih]
      rfl

theorem digit_toNat (d : Nat) (h : d < 10) : (UInt8.ofNat (48 + d)).toNat = 48 + d :=
  toNat_ofNat _ (by omega)

theorem isDigit_digit (d : Nat) (h : d < 10) : isDigit (UInt8.ofNat (48 + d)) = true := by
  simp [isDigit, digit_toNat d h]; omega

/-- Enough fuel: `formatBits` writes a first digit, which is `0` only for the number 0,
and digits only. -/
theorem formatBits_shape (fuel n : Nat) (h : n < fuel) :
    ∃ d ds, formatBits fuel n = d :: ds ∧ isDigit d = true ∧ (n ≠ 0 → d.toNat ≠ 48) ∧
      (n = 0 → ds = []) ∧ ∀ c ∈ ds, isDigit c = true := by
  induction fuel generalizing n with
  | zero => omega
  | succ f ih =>
    unfold formatBits
    split_ifs with h10
    · refine ⟨_, [], rfl, isDigit_digit n h10, ?_, fun _ => rfl, by simp⟩
      intro hn; rw [digit_toNat n h10]; omega
    · obtain ⟨d, ds, he, hd, hz, _, hall⟩ := ih (n / 10) (by omega)
      refine ⟨d, ds ++ [UInt8.ofNat (48 + n % 10)], by rw [he]; rfl, hd, ?_, by omega, ?_⟩
      · intro _; exact hz (by omega)
      · intro c hc
        rcases List.mem_append.1 hc with hc | hc
        · exact hall c hc
        · rw [List.mem_singleton.1 hc]; exact isDigit_digit _ (by omega)

theorem parseUintAux_append (xs ys : Bytes) (acc : Nat) :
    parseUintAux acc (xs ++ ys) = (parseUintAux acc xs).bind (fun a => parseUintAux a ys) := by
  induction xs generalizing acc with
  | nil => simp [parseUintAux]
  | cons c cs ih =>
    simp only [List.cons_append, parseUintAux]
    split_ifs
    · exact ih _
    · rfl

theorem parseUintAux_formatBits (fuel n : Nat) (h : n < fuel) :
    ∃ k, ∀ acc, parseUintAux acc (formatBits fuel n) = some (acc * 10 ^ k + n) := by
  induction fuel generalizing n with
  | zero => omega
  | succ f ih =>
    unfold formatBits
    split_ifs with h10
    · refine ⟨1, fun acc => ?_⟩
      simp [parseUintAux, isDigit_digit n h10, digit_toNat n h10]
    · obtain ⟨k, hk⟩ := ih (n / 10) (by omega)
      refine ⟨k + 1, fun acc => ?_⟩
      rw [parseUintAux_append, hk]
      simp [parseUintAux, isDigit_digit (n % 10) (by omega), digit_toNat (n % 10) (by omega)]
      rw [pow_succ]
      have := Nat.div_add_mod n 10
      nlinarith

theorem parseUint_formatBits (n : Nat) :
    parseUintAux 0 (formatBits (n + 1) n) = some n := by
  obtain ⟨k, hk⟩ := parseUintAux_formatBits (n + 1) n (by omega)
  rw [hk]; simp

theorem spanDigits_append (ds : Bytes) (sep : UInt8) (rest : Bytes)
    (hds : ∀ c ∈ ds, isDigit c = true) (hsep : isDigit sep = false) :
    spanDigits (ds ++ sep :: rest) = (ds, sep :: rest) := by
  induction ds with
  | nil => simp [spanDigits, hsep]
  | cons c cs ih =>
    have hc := hds c (by simp)
    have := ih (fun x hx => hds x (by simp [hx]))
    simp [spanDigits, hc, this]

theorem scanUnsigned_formatBits (n : Nat) (rest : Bytes) :
    scanUnsigned (formatBits (n + 1) n ++ ch ',' :: rest) =
      some (formatBits (n + 1) n, ch ',' :: rest) := by
  obtain ⟨d, ds, he, hd, hz, hz0, hall⟩ := formatBits_shape (n + 1) n (by omega)
  have hsep : isDigit (ch ',') = false := rfl
  have hc : (ch ',').toNat = 44 := rfl
  have hint : scanIntPart (d :: (ds ++ ch ',' :: rest)) = some (d :: ds, ch ',' :: rest) := by
    by_cases hn : n = 0
    · have : d.toNat = 48 := by
        have := he; rw [hn] at this
        have h0 : formatBits (0 + 1) 0 = [ch '0'] := rfl
        rw [h0] at this
        injection this with h1 _
        rw [← h1]; rfl
      simp [scanIntPart, this, hz0 hn]
    · simp [scanIntPart, hz hn, hd, spanDigits_append ds (ch ',') rest hall hsep]
  rw [he, List.cons_append]
  simp [scanUnsigned, hint, scanFrac, scanExp, hc]

theorem appendInt_eq (dst : Bytes) (v : Int) : appendInt dst v = dst ++ appendInt [] v := by
  unfold appendInt
  split_ifs <;> simp

theorem scanNumber_appendInt (v : Int) (rest : Bytes) :
    scanNumber (appendInt [] v ++ ch ',' :: rest) = some (appendInt [] v, ch ',' :: rest) := by
  unfold appendInt
  split_ifs with hv
  · have hm : (ch '-').toNat = 0x2D := rfl
    simp [scanNumber, hm, scanUnsigned_formatBits]
  · obtain ⟨d, ds, he, hd, -, -, -⟩ := formatBits_shape (v.natAbs + 1) v.natAbs (by omega)
    have h := scanUnsigned_formatBits v.natAbs rest
    rw [he] at h ⊢
    have hd2 : d.toNat ≠ 0x2D := by
      simp [isDigit] at hd; omega
    simp [scanNumber, hd2]
    simpa using h

theorem appendInt_head (v : Int) :
    ∃ c cs, appendInt [] v = c :: cs ∧ (c.toNat = 0x2D ∨ isDigit c = true) := by
  unfold appendInt
  split_ifs with hv
  · exact ⟨ch '-', _, rfl, Or.inl rfl⟩
  · obtain ⟨d, ds, he, hd, -, -, -⟩ := formatBits_shape (v.natAbs + 1) v.natAbs (by omega)
    exact ⟨d, ds, by rw [he]; rfl, Or.inr hd⟩

theorem parseValue_appendInt (fuel depth : Nat) (v : Int) (rest : Bytes) :
    parseValue (fuel + 1) depth (appendInt [] v ++ ch ',' :: rest) =
      some (.num (appendInt [] v), ch ',' :: rest) := by
  have hnum := scanNumber_appendInt v rest
  obtain ⟨c, cs, hcs, hc⟩ := appendInt_head v
  rw [hcs] at hnum ⊢
  have hc2 : c.toNat = 45 ∨ (48 ≤ c.toNat ∧ c.toNat ≤ 57) := by
    rcases hc with hc | hc
    · exact Or.inl hc
    · right; simpa [isDigit] using hc
  have n1 : c.toNat ≠ 0x7B := by omega
  have n2 : c.toNat ≠ 0x5B := by omega
  have n3 : c.toNat ≠ 0x22 := by omega
  have n4 : c.toNat ≠ 0x74 := by omega
  have n5 : c.toNat ≠ 0x66 := by omega
  have n6 : c.toNat ≠ 0x6E := by omega
  rw [List.cons_append] at hnum ⊢
  simp [parseValue, n1, n2, n3, n4, n5, n6, hnum]

theorem parseInt64_appendInt (v : Int) (hv : InInt64 v) :
    parseInt64 (appendInt [] v) = some v := by
  obtain ⟨hlo, hhi⟩ := hv
  obtain ⟨d, ds, he, hd, -, -, -⟩ := formatBits_shape (v.natAbs + 1) v.natAbs (by omega)
  have hp := parseUint_formatBits v.natAbs
  have hd2 : d.toNat ≠ 0x2D := by
    simp [isDigit] at hd; omega
  unfold appendInt
  split_ifs with hneg
  · have hm : (ch '-').toNat = 0x2D := rfl
    rw [he] at hp
    simp only [List.nil_append, parseInt64, hm, if_true, he, hp]
    have : v.natAbs ≤ 9223372036854775808 := by omega
    rw [if_pos this]
    congr 1
    omega
  · rw [he] at hp
    simp only [List.nil_append, he, parseInt64, hd2, if_false, hp]
    have : v.natAbs ≤ 9223372036854775807 := by omega
    rw [if_pos this]
    congr 1
    omega

theorem scanString_plain (k : Bytes) (rest : Bytes) (hk : ∀ c ∈ k, plain c = true) :
    scanString 0 (k ++ quote :: rest) = some (k, rest) := by
  induction k with
  | nil =>
    have hq : quote.toNat = 0x22 := rfl
    simp [scanString, hq]
  | cons c cs ih =>
    have hc := hk c (by simp)
    simp [plain] at hc
    rw [List.cons_append, scanString_cons_plain c _ hc.1.1.1 hc.1.1.2 (by omega) hc.2,
      ih (fun x hx => hk x (by simp [hx]))]
    rfl

theorem skipSpace_quote (rest : Bytes) : skipSpace (quote :: rest) = quote :: rest := rfl

theorem parseValue_string (fuel depth : Nat) (s : GoString) (rest : Bytes) :
    parseValue (fuel + 1) depth (quote :: (escapeFrom 0 s ++ quote :: rest)) =
      some (.str (replaceInvalid s), rest) := by
  have hq : quote.toNat = 0x22 := rfl
  simp [parseValue, hq, scanString_escapeFrom]

theorem skipSpace_appendInt (v : Int) (rest : Bytes) :
    skipSpace (appendInt [] v ++ rest) = appendInt [] v ++ rest := by
  obtain ⟨c, cs, he, hc⟩ := appendInt_head v
  have hsp : isSpace c = false := by
    have hc2 : c.toNat = 45 ∨ (48 ≤ c.toNat ∧ c.toNat ≤ 57) := by
      rcases hc with hc | hc
      · exact Or.inl hc
      · right; simpa [isDigit] using hc
    simp [isSpace]; omega
  rw [he, List.cons_append]
  simp [skipSpace, hsp]

/-- A member with a string value, followed by a comma and another member. -/
theorem parseMembers_string (fuel depth : Nat) (name : String) (s : GoString) (rest : Bytes)
    (hk : ∀ c ∈ utf8 name, plain c = true) (hrest : skipSpace rest = rest) :
    parseMembers (fuel + 2) depth
        (fieldKey name ++ quote :: (escapeFrom 0 s ++ quote :: ch ',' :: rest)) =
      (parseMembers (fuel + 1) depth rest).map
        (fun r => ((utf8 name, Json.str (replaceInvalid s)) :: r.1, r.2)) := by
  have hq : quote.toNat = 0x22 := rfl
  have hcol : skipSpace (ch ':' :: quote :: (escapeFrom 0 s ++ quote :: ch ',' :: rest)) =
      ch ':' :: quote :: (escapeFrom 0 s ++ quote :: ch ',' :: rest) := rfl
  have hcom : skipSpace (ch ',' :: rest) = ch ',' :: rest := rfl
  have h1 : (ch ':').toNat = 0x3A := rfl
  have h2 : (ch ',').toNat = 0x2C := rfl
  simp only [fieldKey, List.cons_append, List.append_assoc, List.nil_append]
  rw [parseMembers]
  simp only [hq, if_true, scanString_plain _ _ hk, hcol, h1, skipSpace_quote,
    parseValue_string, hcom, h2, hrest]
  simp

/-- A member with a number value, followed by a comma and another member. -/
theorem parseMembers_number (fuel depth : Nat) (name : String) (v : Int) (rest : Bytes)
    (hk : ∀ c ∈ utf8 name, plain c = true) (hrest : skipSpace rest = rest) :
    parseMembers (fuel + 2) depth (fieldKey name ++ (appendInt [] v ++ ch ',' :: rest)) =
      (parseMembers (fuel + 1) depth rest).map
        (fun r => ((utf8 name, Json.num (appendInt [] v)) :: r.1, r.2)) := by
  have hq : quote.toNat = 0x22 := rfl
  have hcol : skipSpace (ch ':' :: (appendInt [] v ++ ch ',' :: rest)) =
      ch ':' :: (appendInt [] v ++ ch ',' :: rest) := rfl
  have hcom : skipSpace (ch ',' :: rest) = ch ',' :: rest := rfl
  have h1 : (ch ':').toNat = 0x3A := rfl
  have h2 : (ch ',').toNat = 0x2C := rfl
  simp only [fieldKey, List.cons_append, List.append_assoc, List.nil_append]
  rw [parseMembers]
  simp only [hq, if_true, scanString_plain _ _ hk, hcol, h1, skipSpace_appendInt,
    parseValue_appendInt, hcom, h2, hrest]
  simp

/-- The last member, with a string value, and the closing brace. -/
theorem parseMembers_last (fuel depth : Nat) (name : String) (s : GoString) (rest : Bytes)
    (hk : ∀ c ∈ utf8 name, plain c = true) :
    parseMembers (fuel + 2) depth
        (fieldKey name ++ quote :: (escapeFrom 0 s ++ quote :: 0x7D :: rest)) =
      some ([(utf8 name, Json.str (replaceInvalid s))], rest) := by
  have hq : quote.toNat = 0x22 := rfl
  have hcol : skipSpace (ch ':' :: quote :: (escapeFrom 0 s ++ quote :: 0x7D :: rest)) =
      ch ':' :: quote :: (escapeFrom 0 s ++ quote :: 0x7D :: rest) := rfl
  have hcom : skipSpace ((0x7D : UInt8) :: rest) = 0x7D :: rest := rfl
  have h1 : (ch ':').toNat = 0x3A := rfl
  have h2 : (0x7D : UInt8).toNat = 0x7D := rfl
  simp only [fieldKey, List.cons_append, List.append_assoc, List.nil_append]
  rw [parseMembers]
  simp only [hq, if_true, scanString_plain _ _ hk, hcol, h1, skipSpace_quote,
    parseValue_string, hcom, h2]

theorem skipSpace_fieldKey (name : String) (rest : Bytes) :
    skipSpace (fieldKey name ++ rest) = fieldKey name ++ rest := rfl

theorem parseValue_marshal (fuel : Nat) (asset : Asset) (bytes : Bytes)
    (h : jsonMarshal asset = .ok bytes) :
    parseValue (fuel + 10) 0 bytes = some (.obj (assetMembers asset), []) := by
  simp only [jsonMarshal, Except.ok.injEq] at h
  subst h
  have hb : (0x7B : UInt8).toNat = 0x7B := rfl
  have hq : quote.toNat ≠ 0x7D := by decide
  have hd : ¬ maxNestingDepth ≤ 0 := by decide
  rw [appendInt_eq (ch ',' :: fieldKey "Value")]
  simp only [appendString, List.append_assoc, List.cons_append, List.nil_append]
  rw [parseValue]
  have hsk : ∀ rest, skipSpace (fieldKey "ID" ++ rest) =
      quote :: (utf8 "ID" ++ [quote, ch ':'] ++ rest) := fun _ => rfl
  simp only [hb, if_true, hsk, hq, if_false, hd]
  have hback : ∀ rest, quote :: (utf8 "ID" ++ [quote, ch ':'] ++ rest) = fieldKey "ID" ++ rest :=
    fun _ => rfl
  rw [hback]
  rw [parseMembers_string _ _ "ID" _ _ (by decide) (skipSpace_fieldKey _ _),
    parseMembers_string _ _ "Owner" _ _ (by decide) (skipSpace_fieldKey _ _),
    parseMembers_string _ _ "Status" _ _ (by decide) (skipSpace_fieldKey _ _),
    parseMembers_string _ _ "Type" _ _ (by decide) (skipSpace_fieldKey _ _),
    parseMembers_string _ _ "Department" _ _ (by decide) (skipSpace_fieldKey _ _),
    parseMembers_string _ _ "Code" _ _ (by decide) (skipSpace_fieldKey _ _),
    parseMembers_number _ _ "Value" _ _ (by decide) (skipSpace_fieldKey _ _),
    parseMembers_last _ _ "Date" _ _ (by decide)]
  rfl

theorem length_marshal (asset : Asset) (bytes : Bytes) (h : jsonMarshal asset = .ok bytes) :
    9 ≤ bytes.length := by
  simp only [jsonMarshal, Except.ok.injEq] at h
  subst h
  simp [appendString, fieldKey]
  omega

theorem parseJson_marshal (asset : Asset) (bytes : Bytes) (h : jsonMarshal asset = .ok bytes) :
    parseJson bytes = some (.obj (assetMembers asset)) := by
  have hlen := length_marshal asset bytes h
  obtain ⟨f, hf⟩ : ∃ f, bytes.length + 1 = f + 10 := ⟨bytes.length - 9, by omega⟩
  have hsk : skipSpace bytes = bytes := by
    simp only [jsonMarshal, Except.ok.injEq] at h
    subst h
    rfl
  simp [parseJson, hsk, hf, parseValue_marshal f asset bytes h, skipSpace]

theorem storeMembers_assetMembers (asset : Asset) (hv : InInt64 asset.Value) :
    storeMembers Asset.zero (assetMembers asset) = .ok asset.replaceInvalid := by
  have f1 : findField (utf8 "ID") = some "ID" := by decide
  have f2 : findField (utf8 "Owner") = some "Owner" := by decide
  have f3 : findField (utf8 "Status") = some "Status" := by decide
  have f4 : findField (utf8 "Type") = some "Type" := by decide
  have f5 : findField (utf8 "Department") = some "Department" := by decide
  have f6 : findField (utf8 "Code") = some "Code" := by decide
  have f7 : findField (utf8 "Value") = some "Value" := by decide
  have f8 : findField (utf8 "Date") = some "Date" := by decide
  simp [assetMembers, storeMembers, f1, f2, f3, f4, f5, f6, f7, f8, storeField, storeString,
    storeInt, parseInt64_appendInt _ hv, Asset.zero, Except.map, Asset.replaceInvalid]

/-- Decoding what `json.Marshal` wrote for a record yields the record with its strings made
valid UTF-8. -/
theorem unmarshal_marshal_replaceInvalid (asset : Asset) (bytes : Bytes) (hv : InInt64 asset.Value)
    (h : jsonMarshal asset = .ok bytes) :
    jsonUnmarshal bytes Asset.zero = .ok asset.replaceInvalid := by
  simp [jsonUnmarshal, parseJson_marshal asset bytes h, storeMembers_assetMembers asset hv]

theorem Asset.replaceInvalid_eq_self (asset : Asset) (h : asset.Valid) :
    asset.replaceInvalid = asset := by
  obtain ⟨h1, h2, h3, h4, h5, h6, h7⟩ := h
  unfold Asset.replaceInvalid
  rw [Atcc.replaceInvalid_of_valid _ h1, Atcc.replaceInvalid_of_valid _ h2,
    Atcc.replaceInvalid_of_valid _ h3, Atcc.replaceInvalid_of_valid _ h4,
    Atcc.replaceInvalid_of_valid _ h5, Atcc.replaceInvalid_of_valid _ h6,
    Atcc.replaceInvalid_of_valid _ h7]

theorem Asset.valid_of_replaceInvalid_eq (asset : Asset) (h : asset.replaceInvalid = asset) :
    asset.Valid := by
  cases asset with
  | mk i o s t d c v dt =>
    simp only [Asset.replaceInvalid, Asset.mk.injEq, true_and] at h
    obtain ⟨h1, h2, h3, h4, h5, h6, h7⟩ := h
    exact ⟨Atcc.valid_of_replaceInvalid _ h1, Atcc.valid_of_replaceInvalid _ h2,
      Atcc.valid_of_replaceInvalid _ h3, Atcc.valid_of_replaceInvalid _ h4,
      Atcc.valid_of_replaceInvalid _ h5, Atcc.valid_of_replaceInvalid _ h6,
      Atcc.valid_of_replaceInvalid _ h7⟩

/-- Decoding what `json.Marshal` wrote for a record of valid strings yields the record. -/
theorem unmarshal_marshal (asset : Asset) (bytes : Bytes) (hv : InInt64 asset.Value)
    (hs : asset.Valid) (h : jsonMarshal asset = .ok bytes) :
    jsonUnmarshal bytes Asset.zero = .ok asset := by
  rw [unmarshal_marshal_replaceInvalid asset bytes hv h, Asset.replaceInvalid_eq_self asset hs]

/-! ## The operations, case by case -/

@[simp]
theorem Stub.next_state (ctx : Stub) (faults : Faults) :
    (ctx.next faults).state = ctx.state := rfl

@[simp]
theorem Stub.next_calls (ctx : Stub) (faults : Faults) :
    (ctx.next faults).calls = ctx.calls := rfl

@[simp]
theorem Stub.next_toFaults (ctx : Stub) (faults : Faults) :
    (ctx.next faults).toFaults = faults := rfl

theorem Stub.next_self (ctx : Stub) : ctx.next ctx.toFaults = ctx := rfl

theorem AssetExists_of_getErr (ctx : Stub) (id : GoString) (e : Error)
    (h : ctx.getErr id = some e) :
    AssetExists ctx id = (.error (utf8 "failed to read from world state: " ++ e), ctx) := by
  simp [-List.append_assoc, AssetExists, GetState, h]

theorem AssetExists_of_read (ctx : Stub) (id : GoString) (h : ctx.getErr id = none) :
    AssetExists ctx id = (.ok (ctx.state.lookup id).isSome, ctx) := by
  simp [-List.append_assoc, AssetExists, GetState, h]

/-- A successful `CreateAsset`: the read succeeded and found nothing, the status rule
held, and the one write bound the id to the encoding of the new record. -/
theorem CreateAsset_ok (ctx : Stub) (Owner Status Type_ Department Code : GoString)
    (Value : Int) (Date : GoString)
    (h : (CreateAsset ctx Owner Status Type_ Department Code Value Date).1 = .ok ()) :
    ctx.getErr (Owner ++ utf8 ":" ++ Code) = none ∧
    ctx.state.lookup (Owner ++ utf8 ":" ++ Code) = none ∧
    ¬ (Type_ = utf8 "Сделка" ∧ Status ≠ utf8 "Первичная договоренность") ∧
    ∃ bytes, jsonMarshal ⟨Owner ++ utf8 ":" ++ Code, Owner, Status, Type_, Department, Code,
        Value, Date⟩ = .ok bytes ∧
      (CreateAsset ctx Owner Status Type_ Department Code Value Date).2 =
        { ctx with state := ctx.state.insert (Owner ++ utf8 ":" ++ Code) bytes,
                   calls := ctx.calls ++ [.put (Owner ++ utf8 ":" ++ Code) bytes] } := by
  cases hg : ctx.getErr (Owner ++ utf8 ":" ++ Code) with
  | some e => simp [-List.append_assoc, CreateAsset, AssetExists_of_getErr _ _ _ hg] at h
  | none =>
    cases hl : ctx.state.lookup (Owner ++ utf8 ":" ++ Code) with
    | some v => simp [-List.append_assoc, CreateAsset, AssetExists_of_read _ _ hg, hl] at h
    | none =>
      by_cases hr : Type_ = utf8 "Сделка" ∧ Status ≠ utf8 "Первичная договоренность"
      · simp [-List.append_assoc, CreateAsset, AssetExists_of_read _ _ hg, hl, hr] at h
      · refine ⟨rfl, rfl, hr, _, rfl, ?_⟩
        simp only [CreateAsset, AssetExists_of_read _ _ hg, hl, Option.isSome_none, hr,
          if_false, jsonMarshal, PutState] at h ⊢
        split at h
        · simp at h
        · rename_i hp
          simp [hp]

/-- A successful `UpdateAsset`: the read succeeded and found a value, and the one write
bound the id to the encoding of the new record. -/
theorem UpdateAsset_ok (ctx : Stub) (Owner Status Type_ Department Code : GoString)
    (Value : Int) (Date : GoString)
    (h : (UpdateAsset ctx Owner Status Type_ Department Code Value Date).1 = .ok ()) :
    ctx.getErr (Owner ++ utf8 ":" ++ Code) = none ∧
    (ctx.state.lookup (Owner ++ utf8 ":" ++ Code)).isSome = true ∧
    ∃ bytes, jsonMarshal ⟨Owner ++ utf8 ":" ++ Code, Owner, Status, Type_, Department, Code,
        Value, Date⟩ = .ok bytes ∧
      (UpdateAsset ctx Owner Status Type_ Department Code Value Date).2 =
        { ctx with state := ctx.state.insert (Owner ++ utf8 ":" ++ Code) bytes,
                   calls := ctx.calls ++ [.put (Owner ++ utf8 ":" ++ Code) bytes] } := by
  cases hg : ctx.getErr (Owner ++ utf8 ":" ++ Code) with
  | some e => simp [-List.append_assoc, UpdateAsset, AssetExists_of_getErr _ _ _ hg] at h
  | none =>
    cases hl : ctx.state.lookup (Owner ++ utf8 ":" ++ Code) with
    | none => simp [-List.append_assoc, UpdateAsset, AssetExists_of_read _ _ hg, hl] at h
    | some v =>
      refine ⟨rfl, rfl, _, rfl, ?_⟩
      simp only [UpdateAsset, AssetExists_of_read _ _ hg, hl, Option.isSome_some,
        jsonMarshal, PutState] at h ⊢
      split at h
      · simp at h
      · rename_i hp
        simp [hp]

/-- A successful `DeleteAsset`: the read succeeded and found a value, and the one delete
removed the id. -/
theorem DeleteAsset_ok (ctx : Stub) (id : GoString) (h : (DeleteAsset ctx id).1 = .ok ()) :
    ctx.getErr id = none ∧ (ctx.state.lookup id).isSome = true ∧
      (DeleteAsset ctx id).2 =
        { ctx with state := ctx.state.erase id, calls := ctx.calls ++ [.del id] } := by
  cases hg : ctx.getErr id with
  | some e => simp [-List.append_assoc, DeleteAsset, AssetExists_of_getErr _ _ _ hg] at h
  | none =>
    cases hl : ctx.state.lookup id with
    | none => simp [-List.append_assoc, DeleteAsset, AssetExists_of_read _ _ hg, hl] at h
    | some v =>
      refine ⟨rfl, rfl, ?_⟩
      simp only [DeleteAsset, AssetExists_of_read _ _ hg, hl, Option.isSome_some,
        DelState] at h ⊢
      split at h
      · simp at h
      · rename_i hp
        simp [hp]

theorem encode_eq (asset : Asset) : jsonMarshal asset = .ok (encode asset) := rfl

/-- What is stored decodes to the record with its strings made valid UTF-8. -/
theorem unmarshal_encode (asset : Asset) (hv : InInt64 asset.Value) :
    jsonUnmarshal (encode asset) Asset.zero = .ok asset.replaceInvalid :=
  unmarshal_marshal_replaceInvalid asset (encode asset) hv (encode_eq asset)

theorem decodeD_encode (asset : Asset) (hv : InInt64 asset.Value) (hs : asset.Valid) :
    decodeD (encode asset) = asset := by
  simp [decodeD, unmarshal_marshal asset (encode asset) hv hs (encode_eq asset)]

/-- Reading a key that holds the encoding of a record, when the read does not fail,
returns the record with its strings made valid UTF-8. -/
theorem ReadAsset_of_encode (ctx : Stub) (id : GoString) (asset : Asset)
    (hg : ctx.getErr id = none) (hl : ctx.state.lookup id = some (encode asset))
    (hv : InInt64 asset.Value) :
    ReadAsset ctx id = (.ok asset.replaceInvalid, ctx) := by
  simp [-List.append_assoc, ReadAsset, GetState, hg, hl, unmarshal_encode asset hv]

/-- The record that `CreateAsset` and `UpdateAsset` build from their arguments is valid
when the arguments are. -/
theorem record_valid (Owner Status Type_ Department Code : GoString) (Value : Int)
    (Date : GoString) (h1 : ValidUTF8 Owner) (h2 : ValidUTF8 Status) (h3 : ValidUTF8 Type_)
    (h4 : ValidUTF8 Department) (h5 : ValidUTF8 Code) (h6 : ValidUTF8 Date) :
    Asset.Valid ⟨Owner ++ utf8 ":" ++ Code, Owner, Status, Type_, Department, Code, Value,
      Date⟩ :=
  ⟨valid_append _ _ (valid_append _ _ h1 (by decide)) h5, h1, h2, h3, h4, h5, h6⟩

/-- When nothing stands in its way, `CreateAsset` is its write. -/
theorem CreateAsset_of_absent (ctx : Stub) (Owner Status Type_ Department Code : GoString)
    (Value : Int) (Date : GoString)
    (hread : ctx.getErr (Owner ++ utf8 ":" ++ Code) = none)
    (habsent : ctx.state.lookup (Owner ++ utf8 ":" ++ Code) = none)
    (hrule : ¬ (Type_ = utf8 "Сделка" ∧ Status ≠ utf8 "Первичная договоренность")) :
    CreateAsset ctx Owner Status Type_ Department Code Value Date =
      PutState ctx (Owner ++ utf8 ":" ++ Code) (encode ⟨Owner ++ utf8 ":" ++ Code, Owner,
        Status, Type_, Department, Code, Value, Date⟩) := by
  simp only [CreateAsset, AssetExists_of_read _ _ hread, habsent, Option.isSome_none, hrule,
    if_false, encode_eq]

/-- When nothing stands in its way, `CreateAsset` succeeds. -/
theorem CreateAsset_succeeds (ctx : Stub) (Owner Status Type_ Department Code : GoString)
    (Value : Int) (Date : GoString)
    (hread : ctx.getErr (Owner ++ utf8 ":" ++ Code) = none)
    (habsent : ctx.state.lookup (Owner ++ utf8 ":" ++ Code) = none)
    (hrule : ¬ (Type_ = utf8 "Сделка" ∧ Status ≠ utf8 "Первичная договоренность"))
    (hwrite : ∀ value, ctx.putErr (Owner ++ utf8 ":" ++ Code) value = none) :
    (CreateAsset ctx Owner Status Type_ Department Code Value Date).1 = .ok () := by
  simp only [CreateAsset, AssetExists_of_read _ _ hread, habsent, Option.isSome_none, hrule,
    if_false, jsonMarshal, PutState, hwrite]

/-- On a store whose read of the derived id finds a value, `CreateAsset` is rejected. -/
theorem CreateAsset_of_present (ctx : Stub) (Owner Status Type_ Department Code : GoString)
    (Value : Int) (Date : GoString) (v : Bytes)
    (hread : ctx.getErr (Owner ++ utf8 ":" ++ Code) = none)
    (hpresent : ctx.state.lookup (Owner ++ utf8 ":" ++ Code) = some v) :
    CreateAsset ctx Owner Status Type_ Department Code Value Date =
      (.error (utf8 "the asset " ++ (Owner ++ utf8 ":" ++ Code) ++ utf8 " already exists"),
        ctx) := by
  simp [-List.append_assoc, CreateAsset, AssetExists_of_read _ _ hread, hpresent]

/-- On a store whose read of the derived id finds a value, `UpdateAsset` is its write. -/
theorem UpdateAsset_of_present (ctx : Stub) (Owner Status Type_ Department Code : GoString)
    (Value : Int) (Date : GoString) (v : Bytes)
    (hread : ctx.getErr (Owner ++ utf8 ":" ++ Code) = none)
    (hpresent : ctx.state.lookup (Owner ++ utf8 ":" ++ Code) = some v) :
    UpdateAsset ctx Owner Status Type_ Department Code Value Date =
      PutState ctx (Owner ++ utf8 ":" ++ Code) (encode ⟨Owner ++ utf8 ":" ++ Code, Owner,
        Status, Type_, Department, Code, Value, Date⟩) := by
  simp only [UpdateAsset, AssetExists_of_read _ _ hread, hpresent, Option.isSome_some,
    encode_eq]

/-- A `PutState` that does not fail. -/
theorem PutState_of_write (ctx : Stub) (key : GoString) (value : Bytes)
    (h : ctx.putErr key value = none) :
    PutState ctx key value =
      (.ok (), { ctx with state := ctx.state.insert key value,
                          calls := ctx.calls ++ [.put key value] }) := by
  simp [PutState, h]

/-- When nothing stands in its way, `UpdateAsset` succeeds. -/
theorem UpdateAsset_succeeds (ctx : Stub) (Owner Status Type_ Department Code : GoString)
    (Value : Int) (Date : GoString) (prior : Bytes)
    (hread : ctx.getErr (Owner ++ utf8 ":" ++ Code) = none)
    (hprior : ctx.state.lookup (Owner ++ utf8 ":" ++ Code) = some prior)
    (hwrite : ∀ value, ctx.putErr (Owner ++ utf8 ":" ++ Code) value = none) :
    (UpdateAsset ctx Owner Status Type_ Department Code Value Date).1 = .ok () := by
  simp only [UpdateAsset, AssetExists_of_read _ _ hread, hprior, Option.isSome_some,
    jsonMarshal, PutState, hwrite]

/-- After a successful `CreateAsset` the id holds the encoding of the record built from the
arguments. -/
theorem CreateAsset_stored (ctx : Stub) (Owner Status Type_ Department Code : GoString)
    (Value : Int) (Date : GoString)
    (h : (CreateAsset ctx Owner Status Type_ Department Code Value Date).1 = .ok ()) :
    (CreateAsset ctx Owner Status Type_ Department Code Value Date).2.state.lookup
        (Owner ++ utf8 ":" ++ Code) =
      some (encode ⟨Owner ++ utf8 ":" ++ Code, Owner, Status, Type_, Department, Code, Value,
        Date⟩) := by
  obtain ⟨-, -, -, bytes, hm, hs⟩ := CreateAsset_ok _ _ _ _ _ _ _ _ h
  rw [hs]
  rw [encode_eq] at hm
  cases hm
  exact AList.lookup_insert _

/-- After a successful `UpdateAsset` the id holds the encoding of the record built from the
arguments. -/
theorem UpdateAsset_stored (ctx : Stub) (Owner Status Type_ Department Code : GoString)
    (Value : Int) (Date : GoString)
    (h : (UpdateAsset ctx Owner Status Type_ Department Code Value Date).1 = .ok ()) :
    (UpdateAsset ctx Owner Status Type_ Department Code Value Date).2.state.lookup
        (Owner ++ utf8 ":" ++ Code) =
      some (encode ⟨Owner ++ utf8 ":" ++ Code, Owner, Status, Type_, Department, Code, Value,
        Date⟩) := by
  obtain ⟨-, -, bytes, hm, hs⟩ := UpdateAsset_ok _ _ _ _ _ _ _ _ h
  rw [hs]
  rw [encode_eq] at hm
  cases hm
  exact AList.lookup_insert _

/-- After a successful `DeleteAsset` the id holds nothing. -/
theorem DeleteAsset_removed (ctx : Stub) (id : GoString)
    (h : (DeleteAsset ctx id).1 = .ok ()) : (DeleteAsset ctx id).2.state.lookup id = none := by
  obtain ⟨-, -, hs⟩ := DeleteAsset_ok _ _ h
  rw [hs]
  exact AList.lookup_erase _ _

/-! ## Listing -/

theorem utf8_empty : utf8 "" = [] := rfl

theorem mem_scanOrder (ctx : Stub) (e : Sigma fun _ : GoString => Bytes) :
    e ∈ scanOrder ctx ↔ e ∈ ctx.state.entries := by
  simp [scanOrder, List.mem_insertionSort, inRange, utf8_empty]

theorem scanOrder_perm (ctx : Stub) : (scanOrder ctx).Perm ctx.state.entries := by
  unfold scanOrder
  refine (List.perm_insertionSort _ _).trans ?_
  rw [List.filter_eq_self.2]
  intro e _
  simp [inRange, utf8_empty]

theorem scanOrder_next (ctx : Stub) (faults : Faults) :
    scanOrder (ctx.next faults) = scanOrder ctx := rfl

/-- The loop of `GetAllAssets` succeeds exactly when every step returns an entry that
decodes, and then returns the decoded values in order. -/
theorem scanLoop_ok_iff (ctx : Stub) (es : List (Sigma fun _ : GoString => Bytes))
    (acc r : List Asset) :
    scanLoop (es.map (iterStep ctx)) acc = .ok r ↔
      (∀ e ∈ es, entryGood ctx e) ∧ r = acc ++ es.map (fun e => decodeD e.2) := by
  induction es generalizing acc with
  | nil => simp [scanLoop, eq_comm]
  | cons e es ih =>
    cases hg : ctx.nextErr e.1 with
    | some err => simp [scanLoop, iterStep, hg, entryGood]
    | none =>
      cases hd : jsonUnmarshal e.2 Asset.zero with
      | error err => simp [scanLoop, iterStep, hg, hd, entryGood]
      | ok asset =>
        have hstep : iterStep ctx e = .ok (e.1, e.2) := by simp [iterStep, hg]
        simp only [List.map_cons, hstep, scanLoop, hd, ih, List.mem_cons, forall_eq_or_imp,
          entryGood, decodeD, List.append_assoc, List.singleton_append]
        simp [hg]

/-- The function `GetAllAssets` succeeds exactly when the scan opens and, for every entry
of the world state, the step of the iterator does not fail and the value decodes; it then
returns the decoded entries in scan order. -/
theorem GetAllAssets_ok_iff (ctx : Stub) (r : List Asset) :
    (GetAllAssets ctx).1 = .ok r ↔
      ctx.rangeErr = none ∧ (∀ e ∈ ctx.state.entries, entryGood ctx e) ∧
        r = (scanOrder ctx).map (fun e => decodeD e.2) := by
  unfold GetAllAssets GetStateByRange
  cases hr : ctx.rangeErr with
  | some err => simp
  | none =>
    have h := scanLoop_ok_iff ctx (scanOrder ctx) [] r
    simp only [scanOrder, List.nil_append] at h
    simp only [h, true_and]
    constructor
    · rintro ⟨h1, h2⟩
      exact ⟨fun e he => h1 e ((mem_scanOrder ctx e).2 he), by simpa [scanOrder] using h2⟩
    · rintro ⟨h1, h2⟩
      exact ⟨fun e he => h1 e ((mem_scanOrder ctx e).1 he), by simpa [scanOrder] using h2⟩

theorem GetAllAssets_length (ctx : Stub) (r : List Asset) (h : (GetAllAssets ctx).1 = .ok r) :
    r.length = ctx.state.entries.length := by
  obtain ⟨-, -, hr⟩ := (GetAllAssets_ok_iff ctx r).1 h
  rw [hr, List.length_map, (scanOrder_perm ctx).length_eq]

/-- Where `GetAllAssets` succeeds, every value of the world state decodes. -/
theorem GetAllAssets_decodes (ctx : Stub) (r : List Asset) (h : (GetAllAssets ctx).1 = .ok r) :
    ∀ e ∈ ctx.state.entries, ∃ asset, jsonUnmarshal e.2 Asset.zero = .ok asset :=
  fun e he => (((GetAllAssets_ok_iff ctx r).1 h).2.1 e he).2

/-- Where the scan runs and every value decodes, `GetAllAssets` succeeds. -/
theorem GetAllAssets_of_scanRuns (ctx : Stub) (hrun : scanRuns ctx)
    (hdec : ∀ e ∈ ctx.state.entries, ∃ asset, jsonUnmarshal e.2 Asset.zero = .ok asset) :
    ∃ r, (GetAllAssets ctx).1 = .ok r :=
  ⟨_, (GetAllAssets_ok_iff ctx _).2 ⟨hrun.1, fun e he => ⟨hrun.2 e he, hdec e he⟩, rfl⟩⟩

/-- Where `GetAllAssets` succeeds, the scan ran. -/
theorem scanRuns_of_GetAllAssets (ctx : Stub) (r : List Asset)
    (h : (GetAllAssets ctx).1 = .ok r) : scanRuns ctx :=
  ⟨((GetAllAssets_ok_iff ctx r).1 h).1, fun e he => (((GetAllAssets_ok_iff ctx r).1 h).2.1 e he).1⟩

/-- After a successful `CreateAsset`, a listing that succeeds is one longer than a listing
that succeeded before, and the listing succeeds whenever its scan runs. -/
theorem GetAllAssets_after_create (ctx : Stub) (l : List Asset)
    (hall : (GetAllAssets ctx).1 = .ok l) (faults : Faults)
    (Owner Status Type_ Department Code : GoString) (Value : Int) (Date : GoString)
    (hv : InInt64 Value)
    (h : (CreateAsset (ctx.next faults) Owner Status Type_ Department Code Value Date).1 =
      .ok ())
    (faults1 : Faults) :
    (∀ l1, (GetAllAssets ((CreateAsset (ctx.next faults) Owner Status Type_ Department Code
        Value Date).2.next faults1)).1 = .ok l1 → l1.length = l.length + 1) ∧
    (scanRuns ((CreateAsset (ctx.next faults) Owner Status Type_ Department Code Value
        Date).2.next faults1) →
      ∃ l1, (GetAllAssets ((CreateAsset (ctx.next faults) Owner Status Type_ Department Code
        Value Date).2.next faults1)).1 = .ok l1) := by
  have hdec := GetAllAssets_decodes ctx l hall
  obtain ⟨-, hl, -, bytes, hm, hs⟩ := CreateAsset_ok _ _ _ _ _ _ _ _ h
  have hlen := GetAllAssets_length ctx l hall
  have hent : ((CreateAsset (ctx.next faults) Owner Status Type_ Department Code Value
      Date).2.next faults1).state.entries =
      ⟨Owner ++ utf8 ":" ++ Code, bytes⟩ :: ctx.state.entries := by
    rw [hs]; exact AList.insert_entries_of_neg (AList.lookup_eq_none.1 hl)
  constructor
  · intro l1 hl1
    rw [GetAllAssets_length _ l1 hl1, hent, hlen]
    rfl
  · intro hrun
    refine GetAllAssets_of_scanRuns _ hrun ?_
    intro e he
    rw [hent] at he
    rcases List.mem_cons.1 he with he | he
    · subst he
      exact ⟨_, unmarshal_marshal_replaceInvalid _ bytes hv hm⟩
    · exact hdec e he

/-- After a successful `DeleteAsset`, a listing that succeeds is one shorter than a listing
that succeeded before, and the listing succeeds whenever its scan runs. -/
theorem GetAllAssets_after_delete (ctx : Stub) (l : List Asset)
    (hall : (GetAllAssets ctx).1 = .ok l) (faults : Faults) (id : GoString)
    (h : (DeleteAsset (ctx.next faults) id).1 = .ok ()) (faults1 : Faults) :
    (∀ l1, (GetAllAssets ((DeleteAsset (ctx.next faults) id).2.next faults1)).1 = .ok l1 →
      l1.length + 1 = l.length) ∧
    (scanRuns ((DeleteAsset (ctx.next faults) id).2.next faults1) →
      ∃ l1, (GetAllAssets ((DeleteAsset (ctx.next faults) id).2.next faults1)).1 = .ok l1) := by
  have hdec := GetAllAssets_decodes ctx l hall
  obtain ⟨-, hl, hs⟩ := DeleteAsset_ok _ _ h
  have hlen := GetAllAssets_length ctx l hall
  have hmem : id ∈ ctx.state.entries.keys := AList.lookup_isSome.1 hl
  have hent : ((DeleteAsset (ctx.next faults) id).2.next faults1).state.entries =
      ctx.state.entries.kerase id := by
    rw [hs]; rfl
  obtain ⟨b, l1, l2, -, he1, he2⟩ := List.exists_of_kerase hmem
  constructor
  · intro r hr1
    rw [GetAllAssets_length _ r hr1, hent, hlen, he2, he1]
    simp
    omega
  · intro hrun
    refine GetAllAssets_of_scanRuns _ hrun ?_
    intro e he
    rw [hent] at he
    exact hdec e ((List.kerase_sublist id _).subset he)

/-! ## Seeding -/

theorem writeAll_cons (s : AList (fun _ : GoString => Bytes)) (a : Asset) (l : List Asset) :
    writeAll s (a :: l) = writeAll (s.insert a.ID (encode a)) l := rfl

theorem writeAll_append (s : AList (fun _ : GoString => Bytes)) (l1 l2 : List Asset) :
    writeAll s (l1 ++ l2) = writeAll (writeAll s l1) l2 := by
  simp [writeAll, List.foldl_append]

/-- A key that no record of `l` is written under keeps its value. -/
theorem lookup_writeAll_of_not_mem (s : AList (fun _ : GoString => Bytes)) (l : List Asset)
    (k : GoString) (hk : k ∉ l.map Asset.ID) : (writeAll s l).lookup k = s.lookup k := by
  induction l generalizing s with
  | nil => rfl
  | cons a rest ih =>
    rw [List.map_cons, List.mem_cons, not_or] at hk
    rw [writeAll_cons, ih _ hk.2, AList.lookup_insert_ne hk.1]

/-- The key of a record of `l` holds the encoding of that record, the ids being distinct. -/
theorem lookup_writeAll_of_mem (s : AList (fun _ : GoString => Bytes)) (l : List Asset)
    (hnd : (l.map Asset.ID).Nodup) (a : Asset) (ha : a ∈ l) :
    (writeAll s l).lookup a.ID = some (encode a) := by
  induction l generalizing s with
  | nil => simp at ha
  | cons b rest ih =>
    rw [List.map_cons, List.nodup_cons] at hnd
    rw [writeAll_cons]
    rcases List.mem_cons.1 ha with h | h
    · subst h
      rw [lookup_writeAll_of_not_mem _ _ _ hnd.1, AList.lookup_insert]
    · exact ih _ hnd.2 h

/-- The loop of `InitLedger` when no write fails: every record is written, in order. -/
theorem initLoop_all (ctx : Stub) (l : List Asset)
    (h : ∀ b ∈ l, ctx.putErr b.ID (encode b) = none) :
    initLoop ctx l =
      (.ok (), { ctx with state := writeAll ctx.state l,
                          calls := ctx.calls ++ l.map putCall }) := by
  induction l generalizing ctx with
  | nil => simp [initLoop, writeAll]
  | cons a rest ih =>
    have hm := encode_eq a
    have hp := h a (List.mem_cons_self _ _)
    rw [initLoop]
    simp only [hm, PutState, hp]
    rw [ih]
    · simp [writeAll_cons, putCall]
    · exact fun b hb => h b (List.mem_cons_of_mem _ hb)

/-- The loop of `InitLedger` when the write of the record after `pre` is the first to fail:
the records of `pre` are written, the failing write is the last call made. -/
theorem initLoop_fail (ctx : Stub) (pre : List Asset) (a : Asset) (post : List Asset)
    (e : Error) (hpre : ∀ b ∈ pre, ctx.putErr b.ID (encode b) = none)
    (hfail : ctx.putErr a.ID (encode a) = some e) :
    initLoop ctx (pre ++ a :: post) =
      (.error (utf8 "failed to put to world state. " ++ e),
        { ctx with state := writeAll ctx.state pre,
                   calls := ctx.calls ++ (pre ++ [a]).map putCall }) := by
  induction pre generalizing ctx with
  | nil =>
    have hm := encode_eq a
    simp [initLoop, hm, PutState, hfail, writeAll, putCall]
  | cons b rest ih =>
    have hm := encode_eq b
    have hp := hpre b (List.mem_cons_self _ _)
    rw [List.cons_append, initLoop]
    simp only [hm, PutState, hp]
    rw [ih]
    · simp [writeAll_cons, putCall]
    · exact fun c hc => hpre c (List.mem_cons_of_mem _ hc)
    · exact hfail

/-- Whatever happens, the loop of `InitLedger` has written the records of a prefix of its
list, in order. -/
theorem initLoop_state_prefix (ctx : Stub) (l : List Asset) :
    ∃ pre, pre <+: l ∧ (initLoop ctx l).2.state = writeAll ctx.state pre := by
  induction l generalizing ctx with
  | nil => exact ⟨[], List.prefix_refl _, rfl⟩
  | cons a rest ih =>
    have hm := encode_eq a
    cases hp : ctx.putErr a.ID (encode a) with
    | some e =>
      refine ⟨[], List.nil_prefix, ?_⟩
      rw [initLoop]
      simp only [hm, PutState, hp]
      rfl
    | none =>
      obtain ⟨pre, hpre, hst⟩ := ih
        { ctx with state := ctx.state.insert a.ID (encode a),
                   calls := ctx.calls ++ [.put a.ID (encode a)] }
      refine ⟨a :: pre, List.cons_prefix_cons.2 ⟨rfl, hpre⟩, ?_⟩
      rw [initLoop]
      simp only [hm, PutState, hp]
      rw [hst]
      rfl

/-- A successful run of the loop of `InitLedger` has written every record, in order. -/
theorem initLoop_ok (ctx : Stub) (l : List Asset) (h : (initLoop ctx l).1 = .ok ()) :
    (initLoop ctx l).2.state = writeAll ctx.state l := by
  induction l generalizing ctx with
  | nil => rfl
  | cons a rest ih =>
    have hm := encode_eq a
    cases hp : ctx.putErr a.ID (encode a) with
    | some e => simp [initLoop, hm, PutState, hp] at h
    | none =>
      simp only [initLoop, hm, PutState, hp] at h ⊢
      exact ih _ h

theorem foldl_insert_perm (l : List Asset) (s : AList (fun _ : GoString => Bytes))
    (hnd : (l.map Asset.ID).Nodup) (hnew : ∀ a ∈ l, a.ID ∉ s) :
    (writeAll s l).entries.Perm
      (l.map (fun a => (⟨a.ID, encode a⟩ : Sigma fun _ : GoString => Bytes)) ++ s.entries) := by
  induction l generalizing s with
  | nil => exact List.Perm.refl _
  | cons a rest ih =>
    rw [List.map_cons, List.nodup_cons] at hnd
    have hrest : ∀ b ∈ rest, b.ID ∉ s.insert a.ID (encode a) := by
      intro b hb hmem
      rcases (AList.mem_insert s).1 hmem with h | h
      · exact hnd.1 (h ▸ List.mem_map_of_mem _ hb)
      · exact hnew b (List.mem_cons_of_mem _ hb) h
    rw [writeAll_cons]
    refine (ih _ hnd.2 hrest).trans ?_
    rw [AList.insert_entries_of_neg (hnew a (List.mem_cons_self _ _))]
    exact List.perm_middle

theorem map_decodeD_encode (l : List Asset) (hval : ∀ a ∈ l, InInt64 a.Value ∧ a.Valid) :
    (l.map (fun a => (⟨a.ID, encode a⟩ : Sigma fun _ : GoString => Bytes))).map
      (fun e => decodeD e.2) = l := by
  induction l with
  | nil => rfl
  | cons a rest ih =>
    rw [List.map_cons, List.map_cons, ih (fun b hb => hval b (List.mem_cons_of_mem _ hb))]
    congr 1
    exact decodeD_encode a (hval a (List.mem_cons_self _ _)).1 (hval a (List.mem_cons_self _ _)).2

/-- After the loop of `InitLedger` has written valid records of distinct ids into a store
with no entries, a listing whose scan runs is those records. -/
theorem GetAllAssets_after_initLoop (ctx : Stub) (l : List Asset) (hempty : ctx.state = ∅)
    (hinit : (initLoop ctx l).1 = .ok ()) (faults : Faults)
    (hrun : scanRuns ((initLoop ctx l).2.next faults)) (hnd : (l.map Asset.ID).Nodup)
    (hval : ∀ a ∈ l, InInt64 a.Value ∧ a.Valid) :
    ∃ r, (GetAllAssets ((initLoop ctx l).2.next faults)).1 = .ok r ∧ r.Perm l := by
  have hs := initLoop_ok ctx l hinit
  have hperm : ((initLoop ctx l).2.next faults).state.entries.Perm
      (l.map (fun a => (⟨a.ID, encode a⟩ : Sigma fun _ : GoString => Bytes))) := by
    have := foldl_insert_perm l ctx.state hnd
      (by rw [hempty]; intro a _; exact AList.not_mem_empty _)
    rw [← hs, hempty, AList.empty_entries, List.append_nil] at this
    exact this
  refine ⟨_, (GetAllAssets_ok_iff _ _).2 ⟨hrun.1, ?_, rfl⟩, ?_⟩
  · intro e he
    obtain ⟨a, ha, rfl⟩ := List.mem_map.1 (hperm.subset he)
    exact ⟨hrun.2 _ he, _, unmarshal_encode a (hval a ha).1⟩
  · have h1 := ((scanOrder_perm ((initLoop ctx l).2.next faults)).trans hperm).map
      (fun e => decodeD e.2)
    rwa [map_decodeD_encode l hval] at h1

/-- The loop of `GetAllAssets` returns the error of the first step that fails, when the
steps before it return entries that decode. -/
theorem scanLoop_step_error (ctx : Stub) (pre : List (Sigma fun _ : GoString => Bytes))
    (x : Sigma fun _ : GoString => Bytes) (post : List (Sigma fun _ : GoString => Bytes))
    (e : Error) (acc : List Asset) (hpre : ∀ y ∈ pre, entryGood ctx y)
    (hx : ctx.nextErr x.1 = some e) :
    scanLoop ((pre ++ x :: post).map (iterStep ctx)) acc = .error e := by
  induction pre generalizing acc with
  | nil => simp [scanLoop, iterStep, hx]
  | cons y rest ih =>
    obtain ⟨hg, a, ha⟩ := hpre y (List.mem_cons_self _ _)
    have hstep : iterStep ctx y = .ok (y.1, y.2) := by simp [iterStep, hg]
    simp only [List.cons_append, List.map_cons, hstep, scanLoop, ha]
    exact ih _ (fun z hz => hpre z (List.mem_cons_of_mem _ hz))

/-- The loop of `GetAllAssets` returns the error of the first value that does not decode,
when the steps before it return entries that decode and its own step does not fail. -/
theorem scanLoop_decode_error (ctx : Stub) (pre : List (Sigma fun _ : GoString => Bytes))
    (x : Sigma fun _ : GoString => Bytes) (post : List (Sigma fun _ : GoString => Bytes))
    (e : Error) (acc : List Asset) (hpre : ∀ y ∈ pre, entryGood ctx y)
    (hx : ctx.nextErr x.1 = none) (hd : jsonUnmarshal x.2 Asset.zero = .error e) :
    scanLoop ((pre ++ x :: post).map (iterStep ctx)) acc = .error e := by
  induction pre generalizing acc with
  | nil => simp [scanLoop, iterStep, hx, hd]
  | cons y rest ih =>
    obtain ⟨hg, a, ha⟩ := hpre y (List.mem_cons_self _ _)
    have hstep : iterStep ctx y = .ok (y.1, y.2) := by simp [iterStep, hg]
    simp only [List.cons_append, List.map_cons, hstep, scanLoop, ha]
    exact ih _ (fun z hz => hpre z (List.mem_cons_of_mem _ hz))

theorem GetAllAssets_eq_scanLoop (ctx : Stub) (h : ctx.rangeErr = none) :
    (GetAllAssets ctx).1 = scanLoop ((scanOrder ctx).map (iterStep ctx)) [] := by
  simp [GetAllAssets, GetStateByRange, h, scanOrder]

/-! ## Frame and atomicity -/

/-- What a `PutState` call leaves behind. -/
theorem PutState_cases (ctx : Stub) (key : GoString) (value : Bytes) :
    (∃ e, PutState ctx key value =
        (.error e, { ctx with calls := ctx.calls ++ [.put key value] })) ∨
      PutState ctx key value =
        (.ok (), { ctx with state := ctx.state.insert key value,
                            calls := ctx.calls ++ [.put key value] }) := by
  unfold PutState
  cases ctx.putErr key value with
  | some e => exact Or.inl ⟨e, rfl⟩
  | none => exact Or.inr rfl

/-- What a `DelState` call leaves behind. -/
theorem DelState_cases (ctx : Stub) (key : GoString) :
    (∃ e, DelState ctx key = (.error e, { ctx with calls := ctx.calls ++ [.del key] })) ∨
      DelState ctx key =
        (.ok (), { ctx with state := ctx.state.erase key,
                            calls := ctx.calls ++ [.del key] }) := by
  unfold DelState
  cases ctx.delErr key with
  | some e => exact Or.inl ⟨e, rfl⟩
  | none => exact Or.inr rfl

/-- The three ways `CreateAsset` ends: rejected before any store mutation, a failed write,
or one successful write. -/
theorem CreateAsset_cases (ctx : Stub) (Owner Status Type_ Department Code : GoString)
    (Value : Int) (Date : GoString) :
    (∃ e, CreateAsset ctx Owner Status Type_ Department Code Value Date = (.error e, ctx)) ∨
    (∃ e, CreateAsset ctx Owner Status Type_ Department Code Value Date =
      (.error e, { ctx with calls := ctx.calls ++ [.put (Owner ++ utf8 ":" ++ Code)
        (encode ⟨Owner ++ utf8 ":" ++ Code, Owner, Status, Type_, Department, Code, Value,
          Date⟩)] })) ∨
    CreateAsset ctx Owner Status Type_ Department Code Value Date =
      (.ok (), { ctx with
        state := ctx.state.insert (Owner ++ utf8 ":" ++ Code)
          (encode ⟨Owner ++ utf8 ":" ++ Code, Owner, Status, Type_, Department, Code, Value,
            Date⟩),
        calls := ctx.calls ++ [.put (Owner ++ utf8 ":" ++ Code)
          (encode ⟨Owner ++ utf8 ":" ++ Code, Owner, Status, Type_, Department, Code, Value,
            Date⟩)] }) := by
  cases hg : ctx.getErr (Owner ++ utf8 ":" ++ Code) with
  | some e =>
    exact Or.inl ⟨_, by
      simp [-List.append_assoc, CreateAsset, AssetExists_of_getErr _ _ _ hg]; rfl⟩
  | none =>
    cases hl : ctx.state.lookup (Owner ++ utf8 ":" ++ Code) with
    | some v => exact Or.inl ⟨_, CreateAsset_of_present ctx _ _ _ _ _ _ _ v hg hl⟩
    | none =>
      by_cases hr : Type_ = utf8 "Сделка" ∧ Status ≠ utf8 "Первичная договоренность"
      · exact Or.inl ⟨_, by
          simp [-List.append_assoc, CreateAsset, AssetExists_of_read _ _ hg, hl, hr]; rfl⟩
      · rw [CreateAsset_of_absent ctx _ _ _ _ _ _ _ hg hl hr]
        exact Or.inr (PutState_cases _ _ _)

/-- The three ways `UpdateAsset` ends. -/
theorem UpdateAsset_cases (ctx : Stub) (Owner Status Type_ Department Code : GoString)
    (Value : Int) (Date : GoString) :
    (∃ e, UpdateAsset ctx Owner Status Type_ Department Code Value Date = (.error e, ctx)) ∨
    (∃ e, UpdateAsset ctx Owner Status Type_ Department Code Value Date =
      (.error e, { ctx with calls := ctx.calls ++ [.put (Owner ++ utf8 ":" ++ Code)
        (encode ⟨Owner ++ utf8 ":" ++ Code, Owner, Status, Type_, Department, Code, Value,
          Date⟩)] })) ∨
    UpdateAsset ctx Owner Status Type_ Department Code Value Date =
      (.ok (), { ctx with
        state := ctx.state.insert (Owner ++ utf8 ":" ++ Code)
          (encode ⟨Owner ++ utf8 ":" ++ Code, Owner, Status, Type_, Department, Code, Value,
            Date⟩),
        calls := ctx.calls ++ [.put (Owner ++ utf8 ":" ++ Code)
          (encode ⟨Owner ++ utf8 ":" ++ Code, Owner, Status, Type_, Department, Code, Value,
            Date⟩)] }) := by
  cases hg : ctx.getErr (Owner ++ utf8 ":" ++ Code) with
  | some e =>
    exact Or.inl ⟨_, by
      simp [-List.append_assoc, UpdateAsset, AssetExists_of_getErr _ _ _ hg]; rfl⟩
  | none =>
    cases hl : ctx.state.lookup (Owner ++ utf8 ":" ++ Code) with
    | none =>
      exact Or.inl ⟨_, by
        simp [-List.append_assoc, UpdateAsset, AssetExists_of_read _ _ hg, hl]; rfl⟩
    | some v =>
      rw [UpdateAsset_of_present ctx _ _ _ _ _ _ _ v hg hl]
      exact Or.inr (PutState_cases _ _ _)

/-- The three ways `DeleteAsset` ends. -/
theorem DeleteAsset_cases (ctx : Stub) (id : GoString) :
    (∃ e, DeleteAsset ctx id = (.error e, ctx)) ∨
    (∃ e, DeleteAsset ctx id = (.error e, { ctx with calls := ctx.calls ++ [.del id] })) ∨
    DeleteAsset ctx id =
      (.ok (), { ctx with state := ctx.state.erase id, calls := ctx.calls ++ [.del id] }) := by
  cases hg : ctx.getErr id with
  | some e =>
    exact Or.inl ⟨_, by
      simp [-List.append_assoc, DeleteAsset, AssetExists_of_getErr _ _ _ hg]; rfl⟩
  | none =>
    cases hl : ctx.state.lookup id with
    | none =>
      exact Or.inl ⟨_, by
        simp [-List.append_assoc, DeleteAsset, AssetExists_of_read _ _ hg, hl]; rfl⟩
    | some v =>
      have hrun : DeleteAsset ctx id = DelState ctx id := by
        simp only [DeleteAsset, AssetExists_of_read _ _ hg, hl, Option.isSome_some]
      rw [hrun]
      exact Or.inr (DelState_cases _ _)

theorem ReadAsset_stub (ctx : Stub) (id : GoString) : (ReadAsset ctx id).2 = ctx := by
  unfold ReadAsset
  split
  · rfl
  · rfl
  · split <;> rfl

theorem AssetExists_stub (ctx : Stub) (id : GoString) : (AssetExists ctx id).2 = ctx := by
  unfold AssetExists
  split <;> rfl

theorem GetAllAssets_stub (ctx : Stub) : (GetAllAssets ctx).2 = ctx := by
  unfold GetAllAssets
  split <;> rfl

/-- The loop of `GetAllAssets` returns a list exactly when every step returns an entry that
decodes; the list then holds, after what was there, the decoded values in order. -/
theorem scanLoop_ok_iff_forall2 (it : List (Except Error (GoString × Bytes)))
    (acc r : List Asset) :
    scanLoop it acc = .ok r ↔ ∃ r1, r = acc ++ r1 ∧ List.Forall₂ stepDecodes it r1 := by
  induction it generalizing acc with
  | nil =>
    simp only [scanLoop, Except.ok.injEq, List.forall₂_nil_left_iff]
    constructor
    · intro h; exact ⟨[], by simp [h], rfl⟩
    · rintro ⟨r1, h, rfl⟩; simp [h]
  | cons x rest ih =>
    cases x with
    | error err =>
      simp only [scanLoop]
      constructor
      · intro h; cases h
      · rintro ⟨r1, -, h⟩
        cases h with
        | cons hx _ => obtain ⟨q, hq, -⟩ := hx; cases hq
    | ok q =>
      cases hd : jsonUnmarshal q.2 Asset.zero with
      | error err =>
        simp only [scanLoop, hd]
        constructor
        · intro h; cases h
        · rintro ⟨r1, -, h⟩
          cases h with
          | cons hx _ =>
            obtain ⟨q1, hq, hq2⟩ := hx
            cases hq
            rw [hd] at hq2
            cases hq2
      | ok a =>
        simp only [scanLoop, hd, ih]
        constructor
        · rintro ⟨r1, h, hf⟩
          exact ⟨a :: r1, by simp [h], List.Forall₂.cons ⟨q, rfl, hd⟩ hf⟩
        · rintro ⟨r1, h, hf⟩
          cases hf with
          | cons hx hrest =>
            obtain ⟨q1, hq, hq2⟩ := hx
            cases hq
            rw [hd] at hq2
            cases hq2
            exact ⟨_, by simp [h], hrest⟩

theorem forall2_stepDecodes_of_all (it : List (Except Error (GoString × Bytes)))
    (h : ∀ x ∈ it, ∃ a, stepDecodes x a) : ∃ r, List.Forall₂ stepDecodes it r := by
  induction it with
  | nil => exact ⟨[], List.Forall₂.nil⟩
  | cons x rest ih =>
    obtain ⟨a, ha⟩ := h x (List.mem_cons_self _ _)
    obtain ⟨r, hr⟩ := ih (fun y hy => h y (List.mem_cons_of_mem _ hy))
    exact ⟨a :: r, List.Forall₂.cons ha hr⟩

theorem all_of_forall2_stepDecodes (it : List (Except Error (GoString × Bytes)))
    (r : List Asset) (h : List.Forall₂ stepDecodes it r) : ∀ x ∈ it, ∃ a, stepDecodes x a := by
  induction h with
  | nil => intro x hx; cases hx
  | cons hx _ ih =>
    intro y hy
    rcases List.mem_cons.1 hy with rfl | hy
    · exact ⟨_, hx⟩
    · exact ih y hy

/-! ## The key/ID invariant -/

theorem KeyIdInvariant_insert (s : AList (fun _ : GoString => Bytes)) (a : Asset)
    (hs : KeyIdInvariant s) (hv : InInt64 a.Value) (ho : ValidUTF8 a.Owner)
    (hc : ValidUTF8 a.Code) (hid : a.ID = a.Owner ++ utf8 ":" ++ a.Code) :
    KeyIdInvariant (s.insert a.ID (encode a)) := by
  intro k v hk
  by_cases hka : k = a.ID
  · subst hka
    rw [AList.lookup_insert] at hk
    cases hk
    have hi : ValidUTF8 a.ID := by
      rw [hid]
      exact valid_append _ _ (valid_append _ _ ho (by decide)) hc
    refine ⟨a.replaceInvalid, unmarshal_encode a hv, ?_, ?_⟩
    · exact replaceInvalid_of_valid _ hi
    · show replaceInvalid a.ID = replaceInvalid a.Owner ++ utf8 ":" ++ replaceInvalid a.Code
      rw [replaceInvalid_of_valid _ hi, replaceInvalid_of_valid _ ho,
        replaceInvalid_of_valid _ hc, hid]
  · rw [AList.lookup_insert_ne hka] at hk
    exact hs k v hk

theorem KeyIdInvariant_erase (s : AList (fun _ : GoString => Bytes)) (id : GoString)
    (hs : KeyIdInvariant s) : KeyIdInvariant (s.erase id) := by
  intro k v hk
  by_cases hka : k = id
  · subst hka
    rw [AList.lookup_erase] at hk
    cases hk
  · rw [AList.lookup_erase_ne hka] at hk
    exact hs k v hk

theorem KeyIdInvariant_writeAll (s : AList (fun _ : GoString => Bytes)) (l : List Asset)
    (hs : KeyIdInvariant s)
    (hl : ∀ a ∈ l, InInt64 a.Value ∧ ValidUTF8 a.Owner ∧ ValidUTF8 a.Code ∧
      a.ID = a.Owner ++ utf8 ":" ++ a.Code) :
    KeyIdInvariant (writeAll s l) := by
  induction l generalizing s with
  | nil => exact hs
  | cons a rest ih =>
    rw [writeAll_cons]
    obtain ⟨hv, ho, hc, hid⟩ := hl a (List.mem_cons_self _ _)
    exact ih _ (KeyIdInvariant_insert s a hs hv ho hc hid)
      (fun b hb => hl b (List.mem_cons_of_mem _ hb))

/-! ## Seeding twice -/

theorem kerase_insert_entries (t : AList (fun _ : GoString => Bytes)) (a b : GoString)
    (v : Bytes) (hab : a ≠ b) :
    List.kerase a (t.insert b v).entries = ⟨b, v⟩ :: List.kerase b (List.kerase a t.entries) := by
  rw [AList.insert_entries, List.kerase_cons_ne hab, List.kerase_comm]

/-- Two world states that agree off the key `a` still agree off `a` after the same records,
none of them under `a`, are written into both. -/
theorem kerase_writeAll_congr (l : List Asset) (a : GoString)
    (t1 t2 : AList (fun _ : GoString => Bytes)) (ha : a ∉ l.map Asset.ID)
    (h : List.kerase a t1.entries = List.kerase a t2.entries) :
    List.kerase a (writeAll t1 l).entries = List.kerase a (writeAll t2 l).entries := by
  induction l generalizing t1 t2 with
  | nil => exact h
  | cons b rest ih =>
    rw [List.map_cons, List.mem_cons, not_or] at ha
    rw [writeAll_cons, writeAll_cons]
    apply ih _ _ ha.2
    rw [kerase_insert_entries _ _ _ _ ha.1, kerase_insert_entries _ _ _ _ ha.1, h]

/-- Writing records of distinct ids a second time changes nothing. -/
theorem writeAll_writeAll (l : List Asset) (s : AList (fun _ : GoString => Bytes))
    (hnd : (l.map Asset.ID).Nodup) : writeAll (writeAll s l) l = writeAll s l := by
  induction l using List.reverseRecOn generalizing s with
  | nil => rfl
  | append_singleton l1 a ih =>
    rw [List.map_append, List.nodup_append] at hnd
    obtain ⟨hnd1, -, hdisj⟩ := hnd
    have ha : a.ID ∉ l1.map Asset.ID := fun hmem => hdisj hmem (by simp)
    have hlast : ∀ t, writeAll t (l1 ++ [a]) = (writeAll t l1).insert a.ID (encode a) :=
      fun t => by rw [writeAll_append]; rfl
    rw [hlast s, hlast]
    apply AList.ext
    rw [AList.insert_entries, AList.insert_entries]
    congr 1
    rw [kerase_writeAll_congr l1 a.ID ((writeAll s l1).insert a.ID (encode a)) (writeAll s l1)
      ha (by rw [AList.insert_entries]; exact List.kerase_cons_eq rfl), ih s hnd1]

/-! ## The derivation of the id -/

/-- Splitting at the first separator is unambiguous. -/
theorem append_sep_inj (sep : UInt8) (l1 l2 c1 c2 : List UInt8) (h1 : sep ∉ l1)
    (h2 : sep ∉ l2) (h : l1 ++ sep :: c1 = l2 ++ sep :: c2) : l1 = l2 ∧ c1 = c2 := by
  induction l1 generalizing l2 with
  | nil =>
    cases l2 with
    | nil => simpa using h
    | cons x l2 =>
      simp only [List.nil_append, List.cons_append, List.cons.injEq] at h
      exact absurd (h.1 ▸ List.mem_cons_self _ _) h2
  | cons y l1 ih =>
    cases l2 with
    | nil =>
      simp only [List.nil_append, List.cons_append, List.cons.injEq] at h
      exact absurd (h.1 ▸ List.mem_cons_self _ _) h1
    | cons x l2 =>
      simp only [List.cons_append, List.cons.injEq] at h
      obtain ⟨hl, hc⟩ := ih l2 (fun hm => h1 (List.mem_cons_of_mem _ hm))
        (fun hm => h2 (List.mem_cons_of_mem _ hm)) h.2
      exact ⟨by rw [h.1, hl], hc⟩

/-- The id derivation is injective on owners that contain no colon. -/
theorem id_inj_of_no_colon (Owner1 Code1 Owner2 Code2 : GoString)
    (h1 : ch ':' ∉ Owner1) (h2 : ch ':' ∉ Owner2)
    (h : Owner1 ++ utf8 ":" ++ Code1 = Owner2 ++ utf8 ":" ++ Code2) :
    Owner1 = Owner2 ∧ Code1 = Code2 := by
  have hc : utf8 ":" = [ch ':'] := rfl
  rw [hc] at h
  simp only [List.append_assoc, List.singleton_append] at h
  exact append_sep_inj (ch ':') _ _ _ _ h1 h2 h

/-! ## One invocation after another -/

/-- Reading, in the next invocation, a key that holds the encoding of a record: when the
read does not fail it returns the record with its strings made valid UTF-8. -/
theorem ReadAsset_next (ctx : Stub) (faults : Faults) (id : GoString) (asset : Asset)
    (hg : faults.getErr id = none) (hl : ctx.state.lookup id = some (encode asset))
    (hv : InInt64 asset.Value) :
    ReadAsset (ctx.next faults) id = (.ok asset.replaceInvalid, ctx.next faults) :=
  ReadAsset_of_encode (ctx.next faults) id asset hg hl hv

theorem ReadAsset_of_getErr (ctx : Stub) (id : GoString) (e : Error)
    (h : ctx.getErr id = some e) :
    ReadAsset ctx id = (.error (utf8 "failed to read from world state: " ++ e), ctx) := by
  simp [-List.append_assoc, ReadAsset, GetState, h]

/-- Reading, in the next invocation, when the read fails. -/
theorem ReadAsset_next_fails (ctx : Stub) (faults : Faults) (id : GoString) (e : Error)
    (hg : faults.getErr id = some e) :
    ReadAsset (ctx.next faults) id =
      (.error (utf8 "failed to read from world state: " ++ e), ctx.next faults) :=
  ReadAsset_of_getErr (ctx.next faults) id e hg

/-- The existence check of the next invocation, when its read does not fail. -/
theorem AssetExists_next (ctx : Stub) (faults : Faults) (id : GoString)
    (hg : faults.getErr id = none) :
    AssetExists (ctx.next faults) id = (.ok (ctx.state.lookup id).isSome, ctx.next faults) :=
  AssetExists_of_read (ctx.next faults) id hg

/-- The existence check of the next invocation, when its read fails. -/
theorem AssetExists_next_fails (ctx : Stub) (faults : Faults) (id : GoString) (e : Error)
    (hg : faults.getErr id = some e) :
    AssetExists (ctx.next faults) id =
      (.error (utf8 "failed to read from world state: " ++ e), ctx.next faults) :=
  AssetExists_of_getErr (ctx.next faults) id e hg

/-- An `UpdateAsset` whose read finds a value and whose write does not fail: it succeeds and
binds the id to the encoding of the record built from the arguments. -/
theorem UpdateAsset_run (ctx : Stub) (Owner Status Type_ Department Code : GoString)
    (Value : Int) (Date : GoString) (prior : Bytes)
    (hread : ctx.getErr (Owner ++ utf8 ":" ++ Code) = none)
    (hprior : ctx.state.lookup (Owner ++ utf8 ":" ++ Code) = some prior)
    (hwrite : ctx.putErr (Owner ++ utf8 ":" ++ Code) (encode ⟨Owner ++ utf8 ":" ++ Code,
      Owner, Status, Type_, Department, Code, Value, Date⟩) = none) :
    (UpdateAsset ctx Owner Status Type_ Department Code Value Date).1 = .ok () ∧
    (UpdateAsset ctx Owner Status Type_ Department Code Value Date).2.state.lookup
        (Owner ++ utf8 ":" ++ Code) =
      some (encode ⟨Owner ++ utf8 ":" ++ Code, Owner, Status, Type_, Department, Code, Value,
        Date⟩) := by
  rw [UpdateAsset_of_present ctx _ _ _ _ _ _ _ prior hread hprior, PutState_of_write _ _ _ hwrite]
  exact ⟨rfl, AList.lookup_insert _⟩

/-- On a store whose read of the derived id fails, `CreateAsset` returns the error of the
read and leaves the stub as it was. -/
theorem CreateAsset_of_getErr (ctx : Stub) (Owner Status Type_ Department Code : GoString)
    (Value : Int) (Date : GoString) (e : Error)
    (h : ctx.getErr (Owner ++ utf8 ":" ++ Code) = some e) :
    CreateAsset ctx Owner Status Type_ Department Code Value Date =
      (.error (utf8 "failed to read from world state: " ++ e), ctx) := by
  simp [-List.append_assoc, CreateAsset, AssetExists_of_getErr _ _ _ h]

/-- On a store whose read of the derived id fails, `UpdateAsset` returns the error of the
read and leaves the stub as it was. -/
theorem UpdateAsset_of_getErr (ctx : Stub) (Owner Status Type_ Department Code : GoString)
    (Value : Int) (Date : GoString) (e : Error)
    (h : ctx.getErr (Owner ++ utf8 ":" ++ Code) = some e) :
    UpdateAsset ctx Owner Status Type_ Department Code Value Date =
      (.error (utf8 "failed to read from world state: " ++ e), ctx) := by
  simp [-List.append_assoc, UpdateAsset, AssetExists_of_getErr _ _ _ h]

/-- On a store whose read of the id fails, `DeleteAsset` returns the error of the read and
leaves the stub as it was. -/
theorem DeleteAsset_of_getErr (ctx : Stub) (id : GoString) (e : Error)
    (h : ctx.getErr id = some e) :
    DeleteAsset ctx id = (.error (utf8 "failed to read from world state: " ++ e), ctx) := by
  simp [-List.append_assoc, DeleteAsset, AssetExists_of_getErr _ _ _ h]

/-! ## The claims -/

/-- C1: on a store whose read of the derived id `Owner:Code` succeeds and finds nothing,
`CreateAsset` with Type `Сделка` and any Status other than `Первичная договоренность`
returns the error `статус актива <id> не соответсвует правилам`, and the stub is left
exactly as it was: no write is issued. -/
theorem C1_deal_status_rejected (ctx : Stub) (Owner Status Department Code : GoString)
    (Value : Int) (Date : GoString)
    (hread : ctx.getErr (Owner ++ utf8 ":" ++ Code) = none)
    (habsent : ctx.state.lookup (Owner ++ utf8 ":" ++ Code) = none)
    (hstatus : Status ≠ utf8 "Первичная договоренность") :
    CreateAsset ctx Owner Status (utf8 "Сделка") Department Code Value Date =
      (.error (utf8 "статус актива " ++ (Owner ++ utf8 ":" ++ Code) ++
        utf8 " не соответсвует правилам"), ctx) := by
  simp [-List.append_assoc, CreateAsset, AssetExists_of_read _ _ hread, habsent, hstatus]

/-- C1 at the empty store, for a deal created with the status of a stored good. -/
theorem C1_deal_status_rejected_witness :
    CreateAsset Stub.empty (utf8 "Склад") (utf8 "Готов к продаже") (utf8 "Сделка")
        (utf8 "Склад") (utf8 "М2") 60 (utf8 "02.04.2023 09:01") =
      (.error (utf8 "статус актива " ++ (utf8 "Склад" ++ utf8 ":" ++ utf8 "М2") ++
        utf8 " не соответсвует правилам"), Stub.empty) :=
  C1_deal_status_rejected Stub.empty (utf8 "Склад") (utf8 "Готов к продаже") (utf8 "Склад")
    (utf8 "М2") 60 (utf8 "02.04.2023 09:01") rfl rfl (by decide)

/-- C2, as stated, fails, in two ways. For the Owner `a\xff`, which is no valid UTF-8, on
the store with no entries in which no call fails, `CreateAsset` succeeds, and `ReadAsset`
of the derived id then returns a record whose Owner is `a` followed by U+FFFD, not the Owner
supplied, and whose ID is not the id. And after a successful `CreateAsset`, a `ReadAsset`
whose read of the store fails returns the error of the read, not the record. -/
theorem C2_counterexample :
    (CreateAsset Stub.empty invalidText (utf8 "s") (utf8 "t") (utf8 "d") (utf8 "b") 1
      (utf8 "x")).1 = .ok () ∧
    (ReadAsset ((CreateAsset Stub.empty invalidText (utf8 "s") (utf8 "t") (utf8 "d") (utf8 "b")
        1 (utf8 "x")).2.next noFaults) (invalidText ++ utf8 ":" ++ utf8 "b")).1 =
      .ok ⟨replacedText ++ utf8 ":" ++ utf8 "b", replacedText, utf8 "s", utf8 "t", utf8 "d",
        utf8 "b", 1, utf8 "x"⟩ ∧
    replacedText ≠ invalidText ∧
    replacedText ++ utf8 ":" ++ utf8 "b" ≠ invalidText ++ utf8 ":" ++ utf8 "b" ∧
    (CreateAsset Stub.empty (utf8 "a") (utf8 "s") (utf8 "t") (utf8 "d") (utf8 "b") 1
      (utf8 "x")).1 = .ok () ∧
    (ReadAsset ((CreateAsset Stub.empty (utf8 "a") (utf8 "s") (utf8 "t") (utf8 "d") (utf8 "b") 1
        (utf8 "x")).2.next readsFail) (utf8 "a" ++ utf8 ":" ++ utf8 "b")).1 =
      .error (utf8 "failed to read from world state: " ++ boom) := by
  refine ⟨rfl, ?_, by decide, by decide, rfl, rfl⟩
  have hc : (CreateAsset Stub.empty invalidText (utf8 "s") (utf8 "t") (utf8 "d") (utf8 "b") 1
      (utf8 "x")).1 = .ok () := rfl
  rw [ReadAsset_next _ noFaults _ _ rfl (CreateAsset_stored _ _ _ _ _ _ _ _ hc) (by decide)]
  rfl

/-- C2, amended: if `CreateAsset` succeeds, then a `ReadAsset` of the derived id
`Owner:Code` on the resulting store whose read of the store does not fail succeeds and
returns the record built from the arguments with every byte of its strings that is no valid
UTF-8 replaced by U+FFFD: for arguments that are valid UTF-8 it returns the record whose ID
is the derived id and whose other seven fields are the arguments supplied (`Value` being a
Go `int`). A `ReadAsset` whose read fails with `e` returns
`failed to read from world state: <e>`. -/
theorem C2_create_then_read (ctx : Stub) (Owner Status Type_ Department Code : GoString)
    (Value : Int) (Date : GoString) (hv : InInt64 Value)
    (h : (CreateAsset ctx Owner Status Type_ Department Code Value Date).1 = .ok ())
    (faults : Faults) :
    (faults.getErr (Owner ++ utf8 ":" ++ Code) = none →
      (ReadAsset ((CreateAsset ctx Owner Status Type_ Department Code Value Date).2.next faults)
          (Owner ++ utf8 ":" ++ Code)).1 =
        .ok (Asset.replaceInvalid ⟨Owner ++ utf8 ":" ++ Code, Owner, Status, Type_, Department,
          Code, Value, Date⟩) ∧
      (ValidUTF8 Owner → ValidUTF8 Status → ValidUTF8 Type_ → ValidUTF8 Department →
        ValidUTF8 Code → ValidUTF8 Date →
        (ReadAsset ((CreateAsset ctx Owner Status Type_ Department Code Value Date).2.next
            faults) (Owner ++ utf8 ":" ++ Code)).1 =
          .ok ⟨Owner ++ utf8 ":" ++ Code, Owner, Status, Type_, Department, Code, Value,
            Date⟩)) ∧
    (∀ e, faults.getErr (Owner ++ utf8 ":" ++ Code) = some e →
      (ReadAsset ((CreateAsset ctx Owner Status Type_ Department Code Value Date).2.next faults)
          (Owner ++ utf8 ":" ++ Code)).1 =
        .error (utf8 "failed to read from world state: " ++ e)) := by
  have hread : ∀ hg : faults.getErr (Owner ++ utf8 ":" ++ Code) = none,
      (ReadAsset ((CreateAsset ctx Owner Status Type_ Department Code Value Date).2.next faults)
          (Owner ++ utf8 ":" ++ Code)).1 =
        .ok (Asset.replaceInvalid ⟨Owner ++ utf8 ":" ++ Code, Owner, Status, Type_, Department,
          Code, Value, Date⟩) := by
    intro hg
    rw [ReadAsset_next _ faults _ _ hg (CreateAsset_stored _ _ _ _ _ _ _ _ h) hv]
  refine ⟨fun hg => ⟨hread hg, fun h1 h2 h3 h4 h5 h6 => ?_⟩, fun e he => ?_⟩
  · rw [hread hg, Asset.replaceInvalid_eq_self _ (record_valid _ _ _ _ _ _ _ h1 h2 h3 h4 h5 h6)]
  · rw [ReadAsset_next_fails _ faults _ e he]

/-- C2 (amended) at the empty store, for the example record of the specification: what a
read that does not fail returns, and what a read that fails returns. -/
theorem C2_create_then_read_witness :
    (ReadAsset ((CreateAsset Stub.empty (utf8 "Склад") (utf8 "Готов к продаже")
        (utf8 "Хранение") (utf8 "Склад") (utf8 "М2") 60 (utf8 "02.04.2023 09:01")).2.next
        noFaults) (utf8 "Склад" ++ utf8 ":" ++ utf8 "М2")).1 =
      .ok ⟨utf8 "Склад" ++ utf8 ":" ++ utf8 "М2", utf8 "Склад", utf8 "Готов к продаже",
        utf8 "Хранение", utf8 "Склад", utf8 "М2", 60, utf8 "02.04.2023 09:01"⟩ ∧
    (ReadAsset ((CreateAsset Stub.empty (utf8 "Склад") (utf8 "Готов к продаже")
        (utf8 "Хранение") (utf8 "Склад") (utf8 "М2") 60 (utf8 "02.04.2023 09:01")).2.next
        readsFail) (utf8 "Склад" ++ utf8 ":" ++ utf8 "М2")).1 =
      .error (utf8 "failed to read from world state: " ++ boom) :=
  ⟨((C2_create_then_read Stub.empty (utf8 "Склад") (utf8 "Готов к продаже") (utf8 "Хранение")
      (utf8 "Склад") (utf8 "М2") 60 (utf8 "02.04.2023 09:01") (by decide) rfl noFaults).1
      rfl).2 (by decide) (by decide) (by decide) (by decide) (by decide) (by decide),
    (C2_create_then_read Stub.empty (utf8 "Склад") (utf8 "Готов к продаже") (utf8 "Хранение")
      (utf8 "Склад") (utf8 "М2") 60 (utf8 "02.04.2023 09:01") (by decide) rfl readsFail).2
      boom rfl⟩

/-- C3, as stated, fails: on a store that holds a value under `a:b` but whose read fails,
`CreateAsset` returns the read error, not the error `the asset a:b already exists`. -/
theorem C3_counterexample :
    unreadableStub.state.lookup (utf8 "a" ++ utf8 ":" ++ utf8 "b") = some (utf8 "x") ∧
    (CreateAsset unreadableStub (utf8 "a") (utf8 "s") (utf8 "t") (utf8 "d") (utf8 "b") 1
      (utf8 "x")).1 = .error (utf8 "failed to read from world state: boom") ∧
    (CreateAsset unreadableStub (utf8 "a") (utf8 "s") (utf8 "t") (utf8 "d") (utf8 "b") 1
      (utf8 "x")).1 ≠
      .error (utf8 "the asset " ++ (utf8 "a" ++ utf8 ":" ++ utf8 "b") ++
        utf8 " already exists") := by
  refine ⟨rfl, rfl, ?_⟩
  have h : (CreateAsset unreadableStub (utf8 "a") (utf8 "s") (utf8 "t") (utf8 "d") (utf8 "b") 1
      (utf8 "x")).1 = .error (utf8 "failed to read from world state: boom") := rfl
  rw [h]
  intro hc
  exact absurd (Except.error.inj hc) (by decide)

/-- C3, amended: on a store whose read of the derived id `Owner:Code` succeeds and finds a
value, `CreateAsset` returns the error `the asset <id> already exists` for every Status,
Type, Department, Value and Date, a deal with a non-conforming status included, and
leaves the stub as it was. -/
theorem C3_existing_id_rejected (ctx : Stub) (Owner Status Type_ Department Code : GoString)
    (Value : Int) (Date : GoString) (v : Bytes)
    (hread : ctx.getErr (Owner ++ utf8 ":" ++ Code) = none)
    (hpresent : ctx.state.lookup (Owner ++ utf8 ":" ++ Code) = some v) :
    CreateAsset ctx Owner Status Type_ Department Code Value Date =
      (.error (utf8 "the asset " ++ (Owner ++ utf8 ":" ++ Code) ++ utf8 " already exists"),
        ctx) := by
  simp [-List.append_assoc, CreateAsset, AssetExists_of_read _ _ hread, hpresent]

/-- C3 (amended) at a store holding `a:b`, for a deal with a non-conforming status. -/
theorem C3_existing_id_rejected_witness :
    CreateAsset occupiedStub (utf8 "a") (utf8 "Закрыта") (utf8 "Сделка") (utf8 "d") (utf8 "b")
        1 (utf8 "x") =
      (.error (utf8 "the asset " ++ (utf8 "a" ++ utf8 ":" ++ utf8 "b") ++
        utf8 " already exists"), occupiedStub) :=
  C3_existing_id_rejected occupiedStub (utf8 "a") (utf8 "Закрыта") (utf8 "Сделка") (utf8 "d")
    (utf8 "b") 1 (utf8 "x") (utf8 "x") rfl rfl

/-- C4, as stated, fails: `CreateAsset` with Type `Сделка` and Status
`Первичная договоренность` does not succeed on a store that already holds the id (it
returns `the asset a:b already exists`), nor on a store whose read or write fails. -/
theorem C4_counterexample :
    (CreateAsset occupiedStub (utf8 "a") (utf8 "Первичная договоренность") (utf8 "Сделка")
      (utf8 "d") (utf8 "b") 1 (utf8 "x")).1 = .error (utf8 "the asset a:b already exists") ∧
    (CreateAsset unreadableEmptyStub (utf8 "a") (utf8 "Первичная договоренность")
      (utf8 "Сделка") (utf8 "d") (utf8 "b") 1 (utf8 "x")).1 =
      .error (utf8 "failed to read from world state: boom") ∧
    (CreateAsset unwritableEmptyStub (utf8 "a") (utf8 "Первичная договоренность")
      (utf8 "Сделка") (utf8 "d") (utf8 "b") 1 (utf8 "x")).1 = .error (utf8 "boom") :=
  ⟨rfl, rfl, rfl⟩

/-- C4, amended: on a store whose read of the derived id `Owner:Code` succeeds and finds
nothing and whose write under that id does not fail, `CreateAsset` with Type `Сделка` and
Status `Первичная договоренность` succeeds, for every Owner, Department, Code, Value and
Date. -/
theorem C4_deal_initial_accepted (ctx : Stub) (Owner Department Code : GoString) (Value : Int)
    (Date : GoString)
    (hread : ctx.getErr (Owner ++ utf8 ":" ++ Code) = none)
    (habsent : ctx.state.lookup (Owner ++ utf8 ":" ++ Code) = none)
    (hwrite : ∀ value, ctx.putErr (Owner ++ utf8 ":" ++ Code) value = none) :
    (CreateAsset ctx Owner (utf8 "Первичная договоренность") (utf8 "Сделка") Department Code
      Value Date).1 = .ok () := by
  exact CreateAsset_succeeds ctx Owner _ _ Department Code Value Date hread habsent
    (fun h => h.2 rfl) hwrite

/-- C4 (amended) at the empty store in which no call fails. -/
theorem C4_deal_initial_accepted_witness :
    (CreateAsset Stub.empty (utf8 "a") (utf8 "Первичная договоренность") (utf8 "Сделка")
      (utf8 "d") (utf8 "b") 1 (utf8 "x")).1 = .ok () :=
  C4_deal_initial_accepted Stub.empty (utf8 "a") (utf8 "d") (utf8 "b") 1 (utf8 "x") rfl rfl
    (fun _ => rfl)

/-- C5, as stated, fails: on a store with no entries whose read fails, `ReadAsset`,
`DeleteAsset` and `UpdateAsset` return the read error, not `the asset a:b does not
exist`. -/
theorem C5_counterexample :
    unreadableEmptyStub.state.lookup (utf8 "a:b") = none ∧
    (ReadAsset unreadableEmptyStub (utf8 "a:b")).1 =
      .error (utf8 "failed to read from world state: boom") ∧
    (DeleteAsset unreadableEmptyStub (utf8 "a:b")).1 =
      .error (utf8 "failed to read from world state: boom") ∧
    (UpdateAsset unreadableEmptyStub (utf8 "a") (utf8 "s") (utf8 "t") (utf8 "d") (utf8 "b") 1
      (utf8 "x")).1 = .error (utf8 "failed to read from world state: boom") ∧
    utf8 "failed to read from world state: boom" ≠ utf8 "the asset a:b does not exist" :=
  ⟨rfl, rfl, rfl, rfl, by decide⟩

/-- C5, amended: on a store whose read of `id` succeeds and finds nothing, `ReadAsset` and
`DeleteAsset` return the error `the asset <id> does not exist`; and on a store whose read of
the derived id `Owner:Code` succeeds and finds nothing, so does `UpdateAsset`, for any
arguments. In each case the stub is left as it was. -/
theorem C5_missing_id_not_found (ctx : Stub) (id : GoString)
    (Owner Status Type_ Department Code : GoString) (Value : Int) (Date : GoString) :
    (ctx.getErr id = none → ctx.state.lookup id = none →
      ReadAsset ctx id = (.error (utf8 "the asset " ++ id ++ utf8 " does not exist"), ctx) ∧
      DeleteAsset ctx id =
        (.error (utf8 "the asset " ++ id ++ utf8 " does not exist"), ctx)) ∧
    (ctx.getErr (Owner ++ utf8 ":" ++ Code) = none →
      ctx.state.lookup (Owner ++ utf8 ":" ++ Code) = none →
      UpdateAsset ctx Owner Status Type_ Department Code Value Date =
        (.error (utf8 "the asset " ++ (Owner ++ utf8 ":" ++ Code) ++ utf8 " does not exist"),
          ctx)) := by
  refine ⟨fun hread habsent => ⟨?_, ?_⟩, fun hread habsent => ?_⟩
  · simp [-List.append_assoc, ReadAsset, GetState, hread, habsent]
  · simp [-List.append_assoc, DeleteAsset, AssetExists_of_read _ _ hread, habsent]
  · simp [-List.append_assoc, UpdateAsset, AssetExists_of_read _ _ hread, habsent]

/-- C5 (amended) at a store with no entries in which only `abc` can be read, for the id
`abc`, and at the empty store in which no call fails, for an update of `a:b`. -/
theorem C5_missing_id_not_found_witness :
    (ReadAsset onlyAbcReadableStub (utf8 "abc") =
        (.error (utf8 "the asset " ++ utf8 "abc" ++ utf8 " does not exist"),
          onlyAbcReadableStub) ∧
      DeleteAsset onlyAbcReadableStub (utf8 "abc") =
        (.error (utf8 "the asset " ++ utf8 "abc" ++ utf8 " does not exist"),
          onlyAbcReadableStub)) ∧
    UpdateAsset Stub.empty (utf8 "a") (utf8 "s") (utf8 "t") (utf8 "d") (utf8 "b") 1 (utf8 "x") =
      (.error (utf8 "the asset " ++ (utf8 "a" ++ utf8 ":" ++ utf8 "b") ++
        utf8 " does not exist"), Stub.empty) :=
  ⟨(C5_missing_id_not_found onlyAbcReadableStub (utf8 "abc") (utf8 "a") (utf8 "s") (utf8 "t")
      (utf8 "d") (utf8 "b") 1 (utf8 "x")).1 rfl rfl,
    (C5_missing_id_not_found Stub.empty (utf8 "abc") (utf8 "a") (utf8 "s") (utf8 "t")
      (utf8 "d") (utf8 "b") 1 (utf8 "x")).2 rfl rfl⟩

/-- C6, as stated, fails, in two ways. On a store holding a value under `a:b`, an
`UpdateAsset` with the Status `a\xff`, which is no valid UTF-8, succeeds, and `ReadAsset`
then returns a record whose Status is `a` followed by U+FFFD, not the Status supplied. And
after a successful `UpdateAsset`, a `ReadAsset` whose read of the store fails returns the
error of the read, not the record. -/
theorem C6_counterexample :
    occupiedStub.state.lookup (utf8 "a" ++ utf8 ":" ++ utf8 "b") = some (utf8 "x") ∧
    (UpdateAsset occupiedStub (utf8 "a") invalidText (utf8 "t") (utf8 "d") (utf8 "b") 1
      (utf8 "x")).1 = .ok () ∧
    (ReadAsset ((UpdateAsset occupiedStub (utf8 "a") invalidText (utf8 "t") (utf8 "d")
        (utf8 "b") 1 (utf8 "x")).2.next noFaults) (utf8 "a" ++ utf8 ":" ++ utf8 "b")).1 =
      .ok ⟨utf8 "a" ++ utf8 ":" ++ utf8 "b", utf8 "a", replacedText, utf8 "t", utf8 "d",
        utf8 "b", 1, utf8 "x"⟩ ∧
    replacedText ≠ invalidText ∧
    (UpdateAsset occupiedStub (utf8 "a") (utf8 "s") (utf8 "t") (utf8 "d") (utf8 "b") 1
      (utf8 "x")).1 = .ok () ∧
    (ReadAsset ((UpdateAsset occupiedStub (utf8 "a") (utf8 "s") (utf8 "t") (utf8 "d")
        (utf8 "b") 1 (utf8 "x")).2.next readsFail) (utf8 "a" ++ utf8 ":" ++ utf8 "b")).1 =
      .error (utf8 "failed to read from world state: " ++ boom) := by
  refine ⟨rfl, rfl, ?_, by decide, rfl, rfl⟩
  have hu : (UpdateAsset occupiedStub (utf8 "a") invalidText (utf8 "t") (utf8 "d") (utf8 "b") 1
      (utf8 "x")).1 = .ok () := rfl
  rw [ReadAsset_next _ noFaults _ _ rfl (UpdateAsset_stored _ _ _ _ _ _ _ _ hu) (by decide)]
  rfl

/-- C6, amended: on a store holding any value `prior` under the derived id `Owner:Code`,
after a successful `UpdateAsset` a `ReadAsset` of that id whose read of the store does not
fail returns the record built from the arguments supplied with every byte of its strings
that is no valid UTF-8 replaced by U+FFFD, whatever `prior` is: for arguments that are valid
UTF-8 it returns exactly the record built from them (ID the derived id, and the seven
fields; `Value` being a Go `int`). A `ReadAsset` whose read fails with `e` returns
`failed to read from world state: <e>`. -/
theorem C6_update_then_read (ctx : Stub) (Owner Status Type_ Department Code : GoString)
    (Value : Int) (Date : GoString) (prior : Bytes)
    (hprior : ctx.state.lookup (Owner ++ utf8 ":" ++ Code) = some prior) (hv : InInt64 Value)
    (h : (UpdateAsset ctx Owner Status Type_ Department Code Value Date).1 = .ok ())
    (faults : Faults) :
    (faults.getErr (Owner ++ utf8 ":" ++ Code) = none →
      (ReadAsset ((UpdateAsset ctx Owner Status Type_ Department Code Value Date).2.next faults)
          (Owner ++ utf8 ":" ++ Code)).1 =
        .ok (Asset.replaceInvalid ⟨Owner ++ utf8 ":" ++ Code, Owner, Status, Type_, Department,
          Code, Value, Date⟩) ∧
      (ValidUTF8 Owner → ValidUTF8 Status → ValidUTF8 Type_ → ValidUTF8 Department →
        ValidUTF8 Code → ValidUTF8 Date →
        (ReadAsset ((UpdateAsset ctx Owner Status Type_ Department Code Value Date).2.next
            faults) (Owner ++ utf8 ":" ++ Code)).1 =
          .ok ⟨Owner ++ utf8 ":" ++ Code, Owner, Status, Type_, Department, Code, Value,
            Date⟩)) ∧
    (∀ e, faults.getErr (Owner ++ utf8 ":" ++ Code) = some e →
      (ReadAsset ((UpdateAsset ctx Owner Status Type_ Department Code Value Date).2.next faults)
          (Owner ++ utf8 ":" ++ Code)).1 =
        .error (utf8 "failed to read from world state: " ++ e)) := by
  have _ := hprior
  have hread : ∀ hg : faults.getErr (Owner ++ utf8 ":" ++ Code) = none,
      (ReadAsset ((UpdateAsset ctx Owner Status Type_ Department Code Value Date).2.next faults)
          (Owner ++ utf8 ":" ++ Code)).1 =
        .ok (Asset.replaceInvalid ⟨Owner ++ utf8 ":" ++ Code, Owner, Status, Type_, Department,
          Code, Value, Date⟩) := by
    intro hg
    rw [ReadAsset_next _ faults _ _ hg (UpdateAsset_stored _ _ _ _ _ _ _ _ h) hv]
  refine ⟨fun hg => ⟨hread hg, fun h1 h2 h3 h4 h5 h6 => ?_⟩, fun e he => ?_⟩
  · rw [hread hg, Asset.replaceInvalid_eq_self _ (record_valid _ _ _ _ _ _ _ h1 h2 h3 h4 h5 h6)]
  · rw [ReadAsset_next_fails _ faults _ e he]

/-- C6 (amended) at a store holding a value under `a:b` that is no encoding of a record:
what a read that does not fail returns, and what a read that fails returns. -/
theorem C6_update_then_read_witness :
    (ReadAsset ((UpdateAsset occupiedStub (utf8 "a") (utf8 "s") (utf8 "t") (utf8 "d")
        (utf8 "b") (-7) (utf8 "x")).2.next noFaults) (utf8 "a" ++ utf8 ":" ++ utf8 "b")).1 =
      .ok ⟨utf8 "a" ++ utf8 ":" ++ utf8 "b", utf8 "a", utf8 "s", utf8 "t", utf8 "d", utf8 "b",
        -7, utf8 "x"⟩ ∧
    (ReadAsset ((UpdateAsset occupiedStub (utf8 "a") (utf8 "s") (utf8 "t") (utf8 "d")
        (utf8 "b") (-7) (utf8 "x")).2.next readsFail) (utf8 "a" ++ utf8 ":" ++ utf8 "b")).1 =
      .error (utf8 "failed to read from world state: " ++ boom) :=
  ⟨((C6_update_then_read occupiedStub (utf8 "a") (utf8 "s") (utf8 "t") (utf8 "d") (utf8 "b")
      (-7) (utf8 "x") (utf8 "x") rfl (by decide) rfl noFaults).1 rfl).2
      (by decide) (by decide) (by decide) (by decide) (by decide) (by decide),
    (C6_update_then_read occupiedStub (utf8 "a") (utf8 "s") (utf8 "t") (utf8 "d") (utf8 "b")
      (-7) (utf8 "x") (utf8 "x") rfl (by decide) rfl readsFail).2 boom rfl⟩

/-- C7, as stated, fails: on a store holding a value under `a:b` whose write fails, or
whose read fails, `UpdateAsset` with Type `Сделка` does not succeed; and where it succeeds
with the Status `a\xff`, which is no valid UTF-8, the stored record decodes to a record
whose Status is `a` followed by U+FFFD, not that Status. -/
theorem C7_counterexample :
    unwritableStub.state.lookup (utf8 "a" ++ utf8 ":" ++ utf8 "b") = some (utf8 "x") ∧
    (UpdateAsset unwritableStub (utf8 "a") (utf8 "Закрыта") (utf8 "Сделка") (utf8 "d")
      (utf8 "b") 1 (utf8 "x")).1 = .error (utf8 "boom") ∧
    unreadableStub.state.lookup (utf8 "a" ++ utf8 ":" ++ utf8 "b") = some (utf8 "x") ∧
    (UpdateAsset unreadableStub (utf8 "a") (utf8 "Закрыта") (utf8 "Сделка") (utf8 "d")
      (utf8 "b") 1 (utf8 "x")).1 = .error (utf8 "failed to read from world state: boom") ∧
    (UpdateAsset occupiedStub (utf8 "a") invalidText (utf8 "Сделка") (utf8 "d") (utf8 "b") 1
      (utf8 "x")).1 = .ok () ∧
    (UpdateAsset occupiedStub (utf8 "a") invalidText (utf8 "Сделка") (utf8 "d") (utf8 "b") 1
      (utf8 "x")).2.state.lookup (utf8 "a" ++ utf8 ":" ++ utf8 "b") =
      some (encode ⟨utf8 "a" ++ utf8 ":" ++ utf8 "b", utf8 "a", invalidText, utf8 "Сделка",
        utf8 "d", utf8 "b", 1, utf8 "x"⟩) ∧
    jsonUnmarshal (encode ⟨utf8 "a" ++ utf8 ":" ++ utf8 "b", utf8 "a", invalidText,
        utf8 "Сделка", utf8 "d", utf8 "b", 1, utf8 "x"⟩) Asset.zero =
      .ok ⟨utf8 "a" ++ utf8 ":" ++ utf8 "b", utf8 "a", replacedText, utf8 "Сделка", utf8 "d",
        utf8 "b", 1, utf8 "x"⟩ ∧
    replacedText ≠ invalidText := by
  refine ⟨rfl, rfl, rfl, rfl, rfl, UpdateAsset_stored _ _ _ _ _ _ _ _ rfl, ?_, by decide⟩
  rw [unmarshal_encode _ (by decide)]
  rfl

/-- C7, amended: `UpdateAsset` does not apply the deal/status rule. On a store that holds
a value under the derived id `Owner:Code`, whose read of that id succeeds and whose write
of the new record under it does not fail, `UpdateAsset` with Type `Сделка` succeeds for
every Status; the value then stored under the id is the encoding of the record built from
the arguments, which decodes to a record of Type `Сделка` whose Status is that Status with
every byte that is no valid UTF-8 replaced by U+FFFD, so that Status itself when it is
valid UTF-8; and a `ReadAsset` of the id whose read does not fail returns that record.
Hence a deal with a non-initial status is reached by `CreateAsset` followed by
`UpdateAsset`: on the empty store `CreateAsset` of the deal with the initial status
succeeds, and an `UpdateAsset` after it whose read and write do not fail succeeds and
stores the record with the new Status. -/
theorem C7_update_skips_status_rule (ctx : Stub) (Owner Status Department Code : GoString)
    (Value : Int) (Date : GoString) (prior : Bytes)
    (hread : ctx.getErr (Owner ++ utf8 ":" ++ Code) = none)
    (hprior : ctx.state.lookup (Owner ++ utf8 ":" ++ Code) = some prior)
    (hwrite : ctx.putErr (Owner ++ utf8 ":" ++ Code) (encode ⟨Owner ++ utf8 ":" ++ Code,
      Owner, Status, utf8 "Сделка", Department, Code, Value, Date⟩) = none)
    (hv : InInt64 Value) :
    ((UpdateAsset ctx Owner Status (utf8 "Сделка") Department Code Value Date).1 = .ok () ∧
      (UpdateAsset ctx Owner Status (utf8 "Сделка") Department Code Value Date).2.state.lookup
          (Owner ++ utf8 ":" ++ Code) =
        some (encode ⟨Owner ++ utf8 ":" ++ Code, Owner, Status, utf8 "Сделка", Department,
          Code, Value, Date⟩)) ∧
    (∃ a, jsonUnmarshal (encode ⟨Owner ++ utf8 ":" ++ Code, Owner, Status, utf8 "Сделка",
        Department, Code, Value, Date⟩) Asset.zero = .ok a ∧
      a.Type_ = utf8 "Сделка" ∧ a.Status = replaceInvalid Status ∧
      (ValidUTF8 Status → a.Status = Status) ∧
      ∀ faults : Faults, faults.getErr (Owner ++ utf8 ":" ++ Code) = none →
        (ReadAsset ((UpdateAsset ctx Owner Status (utf8 "Сделка") Department Code Value
          Date).2.next faults) (Owner ++ utf8 ":" ++ Code)).1 = .ok a) ∧
    ((CreateAsset Stub.empty Owner (utf8 "Первичная договоренность") (utf8 "Сделка")
        Department Code Value Date).1 = .ok () ∧
      ∀ faults : Faults, faults.getErr (Owner ++ utf8 ":" ++ Code) = none →
        faults.putErr (Owner ++ utf8 ":" ++ Code) (encode ⟨Owner ++ utf8 ":" ++ Code, Owner,
          Status, utf8 "Сделка", Department, Code, Value, Date⟩) = none →
        (UpdateAsset ((CreateAsset Stub.empty Owner (utf8 "Первичная договоренность")
          (utf8 "Сделка") Department Code Value Date).2.next faults) Owner Status
          (utf8 "Сделка") Department Code Value Date).1 = .ok () ∧
        (UpdateAsset ((CreateAsset Stub.empty Owner (utf8 "Первичная договоренность")
          (utf8 "Сделка") Department Code Value Date).2.next faults) Owner Status
          (utf8 "Сделка") Department Code Value Date).2.state.lookup
            (Owner ++ utf8 ":" ++ Code) =
          some (encode ⟨Owner ++ utf8 ":" ++ Code, Owner, Status, utf8 "Сделка", Department,
            Code, Value, Date⟩)) := by
  have hrun := UpdateAsset_run ctx Owner Status (utf8 "Сделка") Department Code Value Date
    prior hread hprior hwrite
  refine ⟨hrun, ⟨_, unmarshal_encode _ hv, ?_, rfl, ?_, ?_⟩, ?_, ?_⟩
  · exact replaceInvalid_of_valid (utf8 "Сделка") (by decide)
  · intro hs
    exact replaceInvalid_of_valid Status hs
  · intro faults hg
    rw [ReadAsset_next _ faults _ _ hg hrun.2 hv]
  · exact CreateAsset_succeeds Stub.empty Owner _ _ Department Code Value Date rfl rfl
      (fun h => h.2 rfl) (fun _ => rfl)
  · intro faults hg hw
    have hc : (CreateAsset Stub.empty Owner (utf8 "Первичная договоренность") (utf8 "Сделка")
        Department Code Value Date).1 = .ok () :=
      CreateAsset_succeeds Stub.empty Owner _ _ Department Code Value Date rfl rfl
        (fun h => h.2 rfl) (fun _ => rfl)
    exact UpdateAsset_run _ Owner Status (utf8 "Сделка") Department Code Value Date _ hg
      (CreateAsset_stored _ _ _ _ _ _ _ _ hc) hw

/-- C7 (amended) at a store holding `a:b`, for a deal updated to a non-initial status. -/
theorem C7_update_skips_status_rule_witness :
    (UpdateAsset occupiedStub (utf8 "a") (utf8 "Закрыта") (utf8 "Сделка") (utf8 "d") (utf8 "b")
      1 (utf8 "x")).1 = .ok () ∧
    (UpdateAsset occupiedStub (utf8 "a") (utf8 "Закрыта") (utf8 "Сделка") (utf8 "d") (utf8 "b")
      1 (utf8 "x")).2.state.lookup (utf8 "a" ++ utf8 ":" ++ utf8 "b") =
      some (encode ⟨utf8 "a" ++ utf8 ":" ++ utf8 "b", utf8 "a", utf8 "Закрыта", utf8 "Сделка",
        utf8 "d", utf8 "b", 1, utf8 "x"⟩) :=
  (C7_update_skips_status_rule occupiedStub (utf8 "a") (utf8 "Закрыта") (utf8 "d") (utf8 "b")
    1 (utf8 "x") (utf8 "x") rfl rfl rfl (by decide)).1

/-- C8, as stated, fails: after a successful `CreateAsset`, and after a successful
`DeleteAsset`, an `AssetExists` whose read of the store fails returns the error of the
read, neither true nor false. -/
theorem C8_counterexample :
    (CreateAsset Stub.empty (utf8 "a") (utf8 "s") (utf8 "t") (utf8 "d") (utf8 "b") 1
      (utf8 "x")).1 = .ok () ∧
    (AssetExists ((CreateAsset Stub.empty (utf8 "a") (utf8 "s") (utf8 "t") (utf8 "d")
        (utf8 "b") 1 (utf8 "x")).2.next readsFail) (utf8 "a" ++ utf8 ":" ++ utf8 "b")).1 =
      .error (utf8 "failed to read from world state: " ++ boom) ∧
    (DeleteAsset occupiedStub (utf8 "a:b")).1 = .ok () ∧
    (AssetExists ((DeleteAsset occupiedStub (utf8 "a:b")).2.next readsFail) (utf8 "a:b")).1 =
      .error (utf8 "failed to read from world state: " ++ boom) :=
  ⟨rfl, rfl, rfl, rfl⟩

/-- C8, amended: after a successful `CreateAsset` whose derived id is `Owner:Code`, an
`AssetExists` of that id whose read of the store does not fail returns true; after a
successful `DeleteAsset` of `id`, an `AssetExists` of `id` whose read does not fail returns
false. An `AssetExists` whose read fails with `e` returns
`failed to read from world state: <e>`. -/
theorem C8_exists_after_create_and_delete (ctx : Stub)
    (Owner Status Type_ Department Code : GoString) (Value : Int) (Date : GoString)
    (id : GoString) (faults : Faults) :
    ((CreateAsset ctx Owner Status Type_ Department Code Value Date).1 = .ok () →
      (faults.getErr (Owner ++ utf8 ":" ++ Code) = none →
        (AssetExists ((CreateAsset ctx Owner Status Type_ Department Code Value Date).2.next
          faults) (Owner ++ utf8 ":" ++ Code)).1 = .ok true) ∧
      (∀ e, faults.getErr (Owner ++ utf8 ":" ++ Code) = some e →
        (AssetExists ((CreateAsset ctx Owner Status Type_ Department Code Value Date).2.next
          faults) (Owner ++ utf8 ":" ++ Code)).1 =
            .error (utf8 "failed to read from world state: " ++ e))) ∧
    ((DeleteAsset ctx id).1 = .ok () →
      (faults.getErr id = none →
        (AssetExists ((DeleteAsset ctx id).2.next faults) id).1 = .ok false) ∧
      (∀ e, faults.getErr id = some e →
        (AssetExists ((DeleteAsset ctx id).2.next faults) id).1 =
          .error (utf8 "failed to read from world state: " ++ e))) := by
  refine ⟨fun hcreate => ⟨fun hg => ?_, fun e he => ?_⟩,
    fun hdelete => ⟨fun hg => ?_, fun e he => ?_⟩⟩
  · rw [AssetExists_next _ faults _ hg, CreateAsset_stored _ _ _ _ _ _ _ _ hcreate]
    rfl
  · rw [AssetExists_next_fails _ faults _ e he]
  · rw [AssetExists_next _ faults _ hg, DeleteAsset_removed _ _ hdelete]
    rfl
  · rw [AssetExists_next_fails _ faults _ e he]

/-- C8 (amended) for a creation on the empty store and a deletion on a store holding
`a:b`, each followed by a read that does not fail and by a read that fails. -/
theorem C8_exists_after_create_and_delete_witness :
    ((AssetExists ((CreateAsset Stub.empty (utf8 "a") (utf8 "s") (utf8 "t") (utf8 "d")
        (utf8 "b") 1 (utf8 "x")).2.next noFaults) (utf8 "a" ++ utf8 ":" ++ utf8 "b")).1 =
      .ok true ∧
    (AssetExists ((DeleteAsset occupiedStub (utf8 "a:b")).2.next noFaults) (utf8 "a:b")).1 =
      .ok false) ∧
    (AssetExists ((CreateAsset Stub.empty (utf8 "a") (utf8 "s") (utf8 "t") (utf8 "d")
        (utf8 "b") 1 (utf8 "x")).2.next readsFail) (utf8 "a" ++ utf8 ":" ++ utf8 "b")).1 =
      .error (utf8 "failed to read from world state: " ++ boom) ∧
    (AssetExists ((DeleteAsset occupiedStub (utf8 "a:b")).2.next readsFail) (utf8 "a:b")).1 =
      .error (utf8 "failed to read from world state: " ++ boom) :=
  ⟨⟨((C8_exists_after_create_and_delete Stub.empty (utf8 "a") (utf8 "s") (utf8 "t") (utf8 "d")
      (utf8 "b") 1 (utf8 "x") (utf8 "a:b") noFaults).1 rfl).1 rfl,
    ((C8_exists_after_create_and_delete occupiedStub (utf8 "a") (utf8 "s") (utf8 "t")
      (utf8 "d") (utf8 "b") 1 (utf8 "x") (utf8 "a:b") noFaults).2 rfl).1 rfl⟩,
    ((C8_exists_after_create_and_delete Stub.empty (utf8 "a") (utf8 "s") (utf8 "t") (utf8 "d")
      (utf8 "b") 1 (utf8 "x") (utf8 "a:b") readsFail).1 rfl).2 boom rfl,
    ((C8_exists_after_create_and_delete occupiedStub (utf8 "a") (utf8 "s") (utf8 "t")
      (utf8 "d") (utf8 "b") 1 (utf8 "x") (utf8 "a:b") readsFail).2 rfl).2 boom rfl⟩

/-- C9, as stated, fails: on the store with no entries `InitLedger` succeeds, and a
`GetAllAssets` after it whose range scan cannot be opened, or whose iterator fails at a
step, returns that error, not the seed records. And on the store with no entries
`GetAllAssets` succeeds with the empty list and `CreateAsset` succeeds, yet a
`GetAllAssets` after it whose range scan cannot be opened returns the error and no list
that is one longer. -/
theorem C9_counterexample :
    Stub.empty.state = ∅ ∧ (InitLedger Stub.empty).1 = .ok () ∧
    (GetAllAssets ((InitLedger Stub.empty).2.next scanFails)).1 = .error boom ∧
    (GetAllAssets ((InitLedger Stub.empty).2.next stepsFail)).1 = .error boom ∧
    (GetAllAssets Stub.empty).1 = .ok [] ∧
    (CreateAsset Stub.empty (utf8 "a") (utf8 "s") (utf8 "t") (utf8 "d") (utf8 "b") 1
      (utf8 "x")).1 = .ok () ∧
    (GetAllAssets ((CreateAsset Stub.empty (utf8 "a") (utf8 "s") (utf8 "t") (utf8 "d")
      (utf8 "b") 1 (utf8 "x")).2.next scanFails)).1 = .error boom :=
  ⟨rfl, rfl, rfl, rfl, rfl, rfl, rfl⟩

/-- C9, amended: starting from a store with no entries, after a successful `InitLedger`, a
`GetAllAssets` whose range scan opens and whose iterator fails at no step returns exactly
the ten seed records as a set: a duplicate-free list that is a permutation of them. And
for every store on which `GetAllAssets` succeeds with a list `l`: after any successful
`CreateAsset` (of a `Value` that is a Go `int`), every `GetAllAssets` that succeeds
returns a list one longer than `l`, and it does succeed whenever its range scan opens and
its iterator fails at no step; after any successful `DeleteAsset`, every `GetAllAssets`
that succeeds returns a list one shorter than `l`, and it does succeed whenever its range
scan opens and its iterator fails at no step. -/
theorem C9_listing (ctx : Stub) (faults : Faults) (l : List Asset) :
    (ctx.state = ∅ → (InitLedger ctx).1 = .ok () →
      scanRuns ((InitLedger ctx).2.next faults) →
      ∃ r, (GetAllAssets ((InitLedger ctx).2.next faults)).1 = .ok r ∧ r.Perm seedAssets ∧
        r.Nodup) ∧
    ((GetAllAssets ctx).1 = .ok l →
      (∀ (faults1 : Faults) (Owner Status Type_ Department Code : GoString) (Value : Int)
        (Date : GoString), InInt64 Value →
        (CreateAsset (ctx.next faults1) Owner Status Type_ Department Code Value Date).1 =
          .ok () →
        ∀ faults2 : Faults,
          (∀ l1, (GetAllAssets ((CreateAsset (ctx.next faults1) Owner Status Type_ Department
              Code Value Date).2.next faults2)).1 = .ok l1 → l1.length = l.length + 1) ∧
          (scanRuns ((CreateAsset (ctx.next faults1) Owner Status Type_ Department Code Value
              Date).2.next faults2) →
            ∃ l1, (GetAllAssets ((CreateAsset (ctx.next faults1) Owner Status Type_
              Department Code Value Date).2.next faults2)).1 = .ok l1 ∧
              l1.length = l.length + 1)) ∧
      (∀ (faults1 : Faults) (id : GoString),
        (DeleteAsset (ctx.next faults1) id).1 = .ok () →
        ∀ faults2 : Faults,
          (∀ l1, (GetAllAssets ((DeleteAsset (ctx.next faults1) id).2.next faults2)).1 =
            .ok l1 → l1.length + 1 = l.length) ∧
          (scanRuns ((DeleteAsset (ctx.next faults1) id).2.next faults2) →
            ∃ l1, (GetAllAssets ((DeleteAsset (ctx.next faults1) id).2.next faults2)).1 =
              .ok l1 ∧ l1.length + 1 = l.length))) := by
  refine ⟨fun hempty hinit hrun => ?_, fun hall => ⟨?_, ?_⟩⟩
  · have hnd : (seedAssets.map Asset.ID).Nodup := by decide
    obtain ⟨r, hr, hp⟩ := GetAllAssets_after_initLoop ctx seedAssets hempty hinit faults hrun
      hnd (by decide)
    exact ⟨r, hr, hp, hp.nodup_iff.2 (List.Nodup.of_map Asset.ID hnd)⟩
  · intro faults1 Owner Status Type_ Department Code Value Date hv h faults2
    obtain ⟨h1, h2⟩ := GetAllAssets_after_create ctx l hall faults1 Owner Status Type_
      Department Code Value Date hv h faults2
    refine ⟨h1, fun hr => ?_⟩
    obtain ⟨l1, hl1⟩ := h2 hr
    exact ⟨l1, hl1, h1 l1 hl1⟩
  · intro faults1 id h faults2
    obtain ⟨h1, h2⟩ := GetAllAssets_after_delete ctx l hall faults1 id h faults2
    refine ⟨h1, fun hr => ?_⟩
    obtain ⟨l1, hl1⟩ := h2 hr
    exact ⟨l1, hl1, h1 l1 hl1⟩

/-- C9 (amended): the listing after seeding the empty store, the listing after a creation
on the empty store, and the listing after a deletion on a store holding one record, no
call failing. -/
theorem C9_listing_witness :
    (∃ r, (GetAllAssets ((InitLedger Stub.empty).2.next noFaults)).1 = .ok r ∧
      r.Perm seedAssets ∧ r.Nodup) ∧
    (∃ l1, (GetAllAssets ((CreateAsset (Stub.empty.next noFaults) (utf8 "a") (utf8 "s")
      (utf8 "t") (utf8 "d") (utf8 "b") 1 (utf8 "x")).2.next noFaults)).1 = .ok l1 ∧
      l1.length = ([] : List Asset).length + 1) ∧
    ∃ l1, (GetAllAssets ((DeleteAsset (sampleStub.next noFaults) (utf8 "a:b")).2.next
      noFaults)).1 = .ok l1 ∧ l1.length + 1 = [sampleAsset].length :=
  ⟨(C9_listing Stub.empty noFaults []).1 rfl rfl ⟨rfl, fun _ _ => rfl⟩,
    ((((C9_listing Stub.empty noFaults []).2 rfl).1 noFaults (utf8 "a") (utf8 "s") (utf8 "t")
      (utf8 "d") (utf8 "b") 1 (utf8 "x") (by decide) rfl) noFaults).2 ⟨rfl, fun _ _ => rfl⟩,
    ((((C9_listing sampleStub noFaults [sampleAsset]).2 rfl).2 noFaults (utf8 "a:b") rfl)
      noFaults).2 ⟨rfl, fun _ _ => rfl⟩⟩

/-- C10, as stated, fails: for the record whose Owner is `a\xff`, which is no valid UTF-8,
`json.Marshal` succeeds and `json.Unmarshal` of what it wrote yields a record whose Owner is
`a` followed by U+FFFD, not the record itself. -/
theorem C10_counterexample :
    jsonUnmarshal (encode ⟨utf8 "a:b", invalidText, utf8 "s", utf8 "t", utf8 "d", utf8 "b", 1,
        utf8 "x"⟩) Asset.zero =
      .ok ⟨utf8 "a:b", replacedText, utf8 "s", utf8 "t", utf8 "d", utf8 "b", 1, utf8 "x"⟩ ∧
    jsonMarshal ⟨utf8 "a:b", invalidText, utf8 "s", utf8 "t", utf8 "d", utf8 "b", 1,
        utf8 "x"⟩ =
      .ok (encode ⟨utf8 "a:b", invalidText, utf8 "s", utf8 "t", utf8 "d", utf8 "b", 1,
        utf8 "x"⟩) ∧
    replacedText ≠ invalidText := by
  refine ⟨?_, rfl, by decide⟩
  rw [unmarshal_encode _ (by decide)]
  rfl

/-- C10, amended: for every `Asset` record (any byte strings, and any `Value` that is a Go
`int`), `json.Marshal` succeeds and `json.Unmarshal` of what it wrote into a fresh `Asset`
succeeds and yields the record with every byte of its strings that is no valid UTF-8
replaced by U+FFFD: it yields the record itself if and only if its seven strings are valid
UTF-8. What `json.Marshal` wrote is one JSON object whose keys are exactly `ID`, `Owner`,
`Status`, `Type`, `Department`, `Code`, `Value`, `Date`. -/
theorem C10_wire_round_trip (asset : Asset) (hv : InInt64 asset.Value) :
    ∃ bytes, jsonMarshal asset = .ok bytes ∧
      jsonUnmarshal bytes Asset.zero = .ok asset.replaceInvalid ∧
      (jsonUnmarshal bytes Asset.zero = .ok asset ↔ asset.Valid) ∧
      ∃ kvs, parseJson bytes = some (.obj kvs) ∧
        kvs.map Prod.fst = fieldNames.map utf8 := by
  refine ⟨_, rfl, unmarshal_marshal_replaceInvalid asset _ hv rfl, ?_, assetMembers asset,
    parseJson_marshal asset _ rfl, rfl⟩
  rw [unmarshal_marshal_replaceInvalid asset _ hv rfl]
  constructor
  · intro h
    exact Asset.valid_of_replaceInvalid_eq asset (Except.ok.inj h)
  · intro h
    rw [Asset.replaceInvalid_eq_self asset h]

/-- C10 (amended) at the first seed record. -/
theorem C10_wire_round_trip_witness :
    ∃ bytes, jsonMarshal ⟨utf8 "Склад:М2", utf8 "Склад", utf8 "Готов к продаже",
        utf8 "Хранение", utf8 "Склад", utf8 "М2", 60, utf8 "02.04.2023 09:01"⟩ = .ok bytes ∧
      jsonUnmarshal bytes Asset.zero = .ok (Asset.replaceInvalid ⟨utf8 "Склад:М2", utf8 "Склад",
        utf8 "Готов к продаже", utf8 "Хранение", utf8 "Склад", utf8 "М2", 60,
        utf8 "02.04.2023 09:01"⟩) ∧
      (jsonUnmarshal bytes Asset.zero = .ok ⟨utf8 "Склад:М2", utf8 "Склад",
        utf8 "Готов к продаже", utf8 "Хранение", utf8 "Склад", utf8 "М2", 60,
        utf8 "02.04.2023 09:01"⟩ ↔ Asset.Valid ⟨utf8 "Склад:М2", utf8 "Склад",
        utf8 "Готов к продаже", utf8 "Хранение", utf8 "Склад", utf8 "М2", 60,
        utf8 "02.04.2023 09:01"⟩) ∧
      ∃ kvs, parseJson bytes = some (.obj kvs) ∧
        kvs.map Prod.fst = fieldNames.map utf8 :=
  C10_wire_round_trip ⟨utf8 "Склад:М2", utf8 "Склад", utf8 "Готов к продаже", utf8 "Хранение",
    utf8 "Склад", utf8 "М2", 60, utf8 "02.04.2023 09:01"⟩ (by decide)

/-- C11, as stated, fails: on a store that returns a present but zero-length value for
`a:b`, `ReadAsset` fails with the decode error of an empty input, not with
`the asset a:b does not exist`, and `AssetExists` returns true. -/
theorem C11_counterexample :
    GetState emptyValueStub (utf8 "a:b") = .ok (some []) ∧
    (ReadAsset emptyValueStub (utf8 "a:b")).1 = .error (utf8 "unexpected end of JSON input") ∧
    (AssetExists emptyValueStub (utf8 "a:b")).1 = .ok true :=
  ⟨rfl, rfl, rfl⟩

/-- C11, amended: only a nil value is treated as absent. For every id for which the store
returns no value, `ReadAsset` fails with `the asset <id> does not exist` and `AssetExists`
returns false; for every id for which the store returns a present but zero-length value,
`ReadAsset` fails with the decode error `unexpected end of JSON input` and `AssetExists`
returns true. -/
theorem C11_nil_is_absent_empty_is_not (ctx : Stub) (id : GoString)
    (hnil : GetState ctx id = .ok none)
    (ctx1 : Stub) (id1 : GoString) (hempty : GetState ctx1 id1 = .ok (some [])) :
    (ReadAsset ctx id = (.error (utf8 "the asset " ++ id ++ utf8 " does not exist"), ctx) ∧
      AssetExists ctx id = (.ok false, ctx)) ∧
    (ReadAsset ctx1 id1 = (.error (utf8 "unexpected end of JSON input"), ctx1) ∧
      AssetExists ctx1 id1 = (.ok true, ctx1)) := by
  refine ⟨⟨?_, ?_⟩, ?_, ?_⟩
  · simp [-List.append_assoc, ReadAsset, hnil]
  · simp [AssetExists, hnil]
  · have h : jsonUnmarshal [] Asset.zero = .error (utf8 "unexpected end of JSON input") := rfl
    simp [ReadAsset, hempty, h]
  · simp [AssetExists, hempty]

/-- C11 (amended) at the empty store and at a store holding an empty value under `a:b`. -/
theorem C11_nil_is_absent_empty_is_not_witness :
    (ReadAsset Stub.empty (utf8 "a:b") =
        (.error (utf8 "the asset " ++ utf8 "a:b" ++ utf8 " does not exist"), Stub.empty) ∧
      AssetExists Stub.empty (utf8 "a:b") = (.ok false, Stub.empty)) ∧
    (ReadAsset emptyValueStub (utf8 "a:b") =
        (.error (utf8 "unexpected end of JSON input"), emptyValueStub) ∧
      AssetExists emptyValueStub (utf8 "a:b") = (.ok true, emptyValueStub)) :=
  C11_nil_is_absent_empty_is_not Stub.empty (utf8 "a:b") rfl emptyValueStub (utf8 "a:b") rfl

/-- C12: `InitLedger` writes the seed records in their listed order and stops at the first
failing write. If the seed list is `pre`, then `a`, then `post`, the writes of `pre` do not
fail and the write of `a` fails with `e`, then `InitLedger` returns the error
`failed to put to world state. <e>`, the world state is the old one with the records of
`pre` written (each is found under its key: no rollback), and the calls made are the writes
of `pre` and the failed write of `a`, in order, and nothing after. If no write fails,
`InitLedger` succeeds, all ten records are found under their keys, and the calls made are
the ten writes in order. -/
theorem C12_initLedger_stops_at_first_failure (ctx : Stub) (pre : List Asset) (a : Asset)
    (post : List Asset) (e : Error) (hsplit : seedAssets = pre ++ a :: post)
    (hpre : ∀ b ∈ pre, ctx.putErr b.ID (encode b) = none)
    (hfail : ctx.putErr a.ID (encode a) = some e)
    (ctx1 : Stub) (hall : ∀ b ∈ seedAssets, ctx1.putErr b.ID (encode b) = none) :
    ((InitLedger ctx).1 = .error (utf8 "failed to put to world state. " ++ e) ∧
      (InitLedger ctx).2.state = writeAll ctx.state pre ∧
      (∀ b ∈ pre, (InitLedger ctx).2.state.lookup b.ID = some (encode b)) ∧
      (InitLedger ctx).2.calls = ctx.calls ++ (pre ++ [a]).map putCall) ∧
    ((InitLedger ctx1).1 = .ok () ∧
      (∀ b ∈ seedAssets, (InitLedger ctx1).2.state.lookup b.ID = some (encode b)) ∧
      (InitLedger ctx1).2.calls = ctx1.calls ++ seedAssets.map putCall) := by
  have hnd : (seedAssets.map Asset.ID).Nodup := by decide
  constructor
  · have hrun : InitLedger ctx = (.error (utf8 "failed to put to world state. " ++ e),
        { ctx with state := writeAll ctx.state pre,
                   calls := ctx.calls ++ (pre ++ [a]).map putCall }) := by
      unfold InitLedger
      rw [hsplit]
      exact initLoop_fail ctx pre a post e hpre hfail
    have hndpre : (pre.map Asset.ID).Nodup := by
      rw [hsplit, List.map_append] at hnd
      exact (List.nodup_append.1 hnd).1
    rw [hrun]
    exact ⟨rfl, rfl, fun b hb => lookup_writeAll_of_mem _ _ hndpre b hb, rfl⟩
  · have hrun : InitLedger ctx1 = (.ok (),
        { ctx1 with state := writeAll ctx1.state seedAssets,
                    calls := ctx1.calls ++ seedAssets.map putCall }) :=
      initLoop_all ctx1 seedAssets hall
    rw [hrun]
    exact ⟨rfl, fun b hb => lookup_writeAll_of_mem _ _ hnd b hb, rfl⟩

/-- C12 at a store whose third seed write fails, and at the store in which no call fails. -/
theorem C12_initLedger_stops_at_first_failure_witness :
    ((InitLedger failThirdStub).1 = .error (utf8 "failed to put to world state. " ++ boom) ∧
      (InitLedger failThirdStub).2.calls =
        failThirdStub.calls ++ (seedAssets.take 2 ++ [(⟨utf8 "Склад:М2а", utf8 "Склад",
          utf8 "Готов к продаже", utf8 "Хранение", utf8 "Склад", utf8 "М2а", 20,
          utf8 "02.04.2023 09:08"⟩ : Asset)]).map putCall) ∧
    (InitLedger Stub.empty).1 = .ok () :=
  have h := C12_initLedger_stops_at_first_failure failThirdStub (seedAssets.take 2)
    (⟨utf8 "Склад:М2а", utf8 "Склад", utf8 "Готов к продаже", utf8 "Хранение", utf8 "Склад",
      utf8 "М2а", 20, utf8 "02.04.2023 09:08"⟩ : Asset) (seedAssets.drop 3) boom rfl
    (by decide) rfl Stub.empty (fun _ _ => rfl)
  ⟨⟨h.1.1, h.1.2.2.2⟩, h.2.1⟩

/-- C13, as stated, fails: a failed read is not returned as it is but behind the prefix
`failed to read from world state: `, and a failed write of `InitLedger` behind the prefix
`failed to put to world state. `. -/
theorem C13_counterexample :
    unreadableEmptyStub.getErr (utf8 "a:b") = some (utf8 "boom") ∧
    (ReadAsset unreadableEmptyStub (utf8 "a:b")).1 =
      .error (utf8 "failed to read from world state: boom") ∧
    (AssetExists unreadableEmptyStub (utf8 "a:b")).1 =
      .error (utf8 "failed to read from world state: boom") ∧
    unwritableEmptyStub.putErr (utf8 "Склад:М2") [] = some (utf8 "boom") ∧
    (InitLedger unwritableEmptyStub).1 = .error (utf8 "failed to put to world state. boom") ∧
    utf8 "failed to read from world state: boom" ≠ utf8 "boom" ∧
    utf8 "failed to put to world state. boom" ≠ utf8 "boom" :=
  ⟨rfl, rfl, rfl, rfl, rfl, by decide, by decide⟩

/-- C13, amended: every error raised by the store is surfaced to the caller, as it is or
behind a fixed prefix. When a read fails with `e`, `ReadAsset`, `AssetExists`,
`DeleteAsset`, `CreateAsset` and `UpdateAsset` return `failed to read from world state: <e>`.
When the write of `CreateAsset` or `UpdateAsset`, the delete of `DeleteAsset`, the opening
of the range scan or a step of the iterator of `GetAllAssets` fails with `e`, the operation
returns exactly `e`. When a write of `InitLedger` fails with `e`, it returns
`failed to put to world state. <e>`. -/
theorem C13_store_errors_surface (ctx : Stub) (e : Error) :
    (∀ id : GoString, ctx.getErr id = some e →
      (ReadAsset ctx id).1 = .error (utf8 "failed to read from world state: " ++ e) ∧
      (AssetExists ctx id).1 = .error (utf8 "failed to read from world state: " ++ e) ∧
      (DeleteAsset ctx id).1 = .error (utf8 "failed to read from world state: " ++ e)) ∧
    (∀ (Owner Status Type_ Department Code : GoString) (Value : Int) (Date : GoString),
      ctx.getErr (Owner ++ utf8 ":" ++ Code) = some e →
      (CreateAsset ctx Owner Status Type_ Department Code Value Date).1 =
        .error (utf8 "failed to read from world state: " ++ e) ∧
      (UpdateAsset ctx Owner Status Type_ Department Code Value Date).1 =
        .error (utf8 "failed to read from world state: " ++ e)) ∧
    (∀ (Owner Status Type_ Department Code : GoString) (Value : Int) (Date : GoString),
      ctx.getErr (Owner ++ utf8 ":" ++ Code) = none →
      ctx.state.lookup (Owner ++ utf8 ":" ++ Code) = none →
      ¬ (Type_ = utf8 "Сделка" ∧ Status ≠ utf8 "Первичная договоренность") →
      ctx.putErr (Owner ++ utf8 ":" ++ Code) (encode ⟨Owner ++ utf8 ":" ++ Code, Owner,
        Status, Type_, Department, Code, Value, Date⟩) = some e →
      (CreateAsset ctx Owner Status Type_ Department Code Value Date).1 = .error e) ∧
    (∀ (Owner Status Type_ Department Code : GoString) (Value : Int) (Date : GoString)
      (prior : Bytes), ctx.getErr (Owner ++ utf8 ":" ++ Code) = none →
      ctx.state.lookup (Owner ++ utf8 ":" ++ Code) = some prior →
      ctx.putErr (Owner ++ utf8 ":" ++ Code) (encode ⟨Owner ++ utf8 ":" ++ Code, Owner,
        Status, Type_, Department, Code, Value, Date⟩) = some e →
      (UpdateAsset ctx Owner Status Type_ Department Code Value Date).1 = .error e) ∧
    (∀ (id : GoString) (prior : Bytes), ctx.getErr id = none →
      ctx.state.lookup id = some prior → ctx.delErr id = some e →
      (DeleteAsset ctx id).1 = .error e) ∧
    (ctx.rangeErr = some e → (GetAllAssets ctx).1 = .error e) ∧
    (∀ (pre : List (Sigma fun _ : GoString => Bytes)) (x : Sigma fun _ : GoString => Bytes)
      (post : List (Sigma fun _ : GoString => Bytes)), ctx.rangeErr = none →
      scanOrder ctx = pre ++ x :: post → (∀ y ∈ pre, entryGood ctx y) →
      ctx.nextErr x.1 = some e → (GetAllAssets ctx).1 = .error e) ∧
    (∀ (pre : List Asset) (a : Asset) (post : List Asset), seedAssets = pre ++ a :: post →
      (∀ b ∈ pre, ctx.putErr b.ID (encode b) = none) → ctx.putErr a.ID (encode a) = some e →
      (InitLedger ctx).1 = .error (utf8 "failed to put to world state. " ++ e)) := by
  refine ⟨?_, ?_, ?_, ?_, ?_, ?_, ?_, ?_⟩
  · intro id h
    refine ⟨?_, ?_, ?_⟩
    · rw [ReadAsset_of_getErr _ _ _ h]
    · rw [AssetExists_of_getErr _ _ _ h]
    · simp [-List.append_assoc, DeleteAsset, AssetExists_of_getErr _ _ _ h]
  · intro Owner Status Type_ Department Code Value Date h
    constructor
    · simp [-List.append_assoc, CreateAsset, AssetExists_of_getErr _ _ _ h]
    · simp [-List.append_assoc, UpdateAsset, AssetExists_of_getErr _ _ _ h]
  · intro Owner Status Type_ Department Code Value Date hr ha hrule hp
    rw [CreateAsset_of_absent ctx _ _ _ _ _ _ _ hr ha hrule]
    simp only [PutState, hp]
  · intro Owner Status Type_ Department Code Value Date prior hr ha hp
    rw [UpdateAsset_of_present ctx _ _ _ _ _ _ _ prior hr ha]
    simp only [PutState, hp]
  · intro id prior hr ha hd
    simp only [DeleteAsset, AssetExists_of_read _ _ hr, ha, Option.isSome_some, DelState, hd]
  · intro h
    simp [GetAllAssets, GetStateByRange, h]
  · intro pre x post hr hsplit hpre hx
    rw [GetAllAssets_eq_scanLoop ctx hr, hsplit]
    exact scanLoop_step_error ctx pre x post e [] hpre hx
  · intro pre a post hsplit hpre hfail
    unfold InitLedger
    rw [hsplit, initLoop_fail ctx pre a post e hpre hfail]

/-- C13 (amended) at a store whose reads fail with `boom`, for the read of `a:b`. -/
theorem C13_store_errors_surface_witness :
    (ReadAsset unreadableEmptyStub (utf8 "a:b")).1 =
      .error (utf8 "failed to read from world state: " ++ boom) :=
  ((C13_store_errors_surface unreadableEmptyStub boom).1 (utf8 "a:b") rfl).1

/-- C14: each single-record operation touches at most its own key. For every key `k` other
than the id of the operation, the value under `k` is the same before and after
`CreateAsset`, `UpdateAsset` and `DeleteAsset`, whether they succeed or fail; a successful
`CreateAsset` or `UpdateAsset` makes exactly one store mutation, the write of the encoded
record under its id, a successful `DeleteAsset` exactly one, the delete of its id; and
`ReadAsset`, `AssetExists` and `GetAllAssets` leave the whole stub as it was. -/
theorem C14_frame (ctx : Stub) (Owner Status Type_ Department Code : GoString) (Value : Int)
    (Date : GoString) (id k : GoString) :
    (k ≠ Owner ++ utf8 ":" ++ Code →
      (CreateAsset ctx Owner Status Type_ Department Code Value Date).2.state.lookup k =
        ctx.state.lookup k ∧
      (UpdateAsset ctx Owner Status Type_ Department Code Value Date).2.state.lookup k =
        ctx.state.lookup k) ∧
    (k ≠ id → (DeleteAsset ctx id).2.state.lookup k = ctx.state.lookup k) ∧
    ((CreateAsset ctx Owner Status Type_ Department Code Value Date).1 = .ok () →
      (CreateAsset ctx Owner Status Type_ Department Code Value Date).2.calls =
        ctx.calls ++ [.put (Owner ++ utf8 ":" ++ Code) (encode ⟨Owner ++ utf8 ":" ++ Code,
          Owner, Status, Type_, Department, Code, Value, Date⟩)]) ∧
    ((UpdateAsset ctx Owner Status Type_ Department Code Value Date).1 = .ok () →
      (UpdateAsset ctx Owner Status Type_ Department Code Value Date).2.calls =
        ctx.calls ++ [.put (Owner ++ utf8 ":" ++ Code) (encode ⟨Owner ++ utf8 ":" ++ Code,
          Owner, Status, Type_, Department, Code, Value, Date⟩)]) ∧
    ((DeleteAsset ctx id).1 = .ok () →
      (DeleteAsset ctx id).2.calls = ctx.calls ++ [.del id]) ∧
    (ReadAsset ctx id).2 = ctx ∧ (AssetExists ctx id).2 = ctx ∧ (GetAllAssets ctx).2 = ctx := by
  refine ⟨fun hk => ⟨?_, ?_⟩, fun hk => ?_, fun h => ?_, fun h => ?_, fun h => ?_,
    ReadAsset_stub ctx id, AssetExists_stub ctx id, GetAllAssets_stub ctx⟩
  · rcases CreateAsset_cases ctx Owner Status Type_ Department Code Value Date with
      ⟨e, h⟩ | ⟨e, h⟩ | h <;> rw [h]
    exact AList.lookup_insert_ne hk
  · rcases UpdateAsset_cases ctx Owner Status Type_ Department Code Value Date with
      ⟨e, h⟩ | ⟨e, h⟩ | h <;> rw [h]
    exact AList.lookup_insert_ne hk
  · rcases DeleteAsset_cases ctx id with ⟨e, h⟩ | ⟨e, h⟩ | h <;> rw [h]
    exact AList.lookup_erase_ne hk
  · rcases CreateAsset_cases ctx Owner Status Type_ Department Code Value Date with
      ⟨e, h1⟩ | ⟨e, h1⟩ | h1
    · rw [h1] at h; cases h
    · rw [h1] at h; cases h
    · rw [h1]
  · rcases UpdateAsset_cases ctx Owner Status Type_ Department Code Value Date with
      ⟨e, h1⟩ | ⟨e, h1⟩ | h1
    · rw [h1] at h; cases h
    · rw [h1] at h; cases h
    · rw [h1]
  · rcases DeleteAsset_cases ctx id with ⟨e, h1⟩ | ⟨e, h1⟩ | h1
    · rw [h1] at h; cases h
    · rw [h1] at h; cases h
    · rw [h1]

/-- C14 at a store holding `a:b`: creating, updating or deleting `c:d` leaves `a:b`. -/
theorem C14_frame_witness :
    ((CreateAsset occupiedStub (utf8 "c") (utf8 "s") (utf8 "t") (utf8 "d") (utf8 "d") 1
        (utf8 "x")).2.state.lookup (utf8 "a:b") = occupiedStub.state.lookup (utf8 "a:b") ∧
      (UpdateAsset occupiedStub (utf8 "c") (utf8 "s") (utf8 "t") (utf8 "d") (utf8 "d") 1
        (utf8 "x")).2.state.lookup (utf8 "a:b") = occupiedStub.state.lookup (utf8 "a:b")) ∧
    (DeleteAsset occupiedStub (utf8 "c:d")).2.state.lookup (utf8 "a:b") =
      occupiedStub.state.lookup (utf8 "a:b") :=
  have h := C14_frame occupiedStub (utf8 "c") (utf8 "s") (utf8 "t") (utf8 "d") (utf8 "d") 1
    (utf8 "x") (utf8 "c:d") (utf8 "a:b")
  ⟨h.1 (by decide), h.2.1 (by decide)⟩

/-- C15: failures are atomic. Whenever `CreateAsset`, `UpdateAsset`, `DeleteAsset`,
`ReadAsset`, `AssetExists` or `GetAllAssets` returns an error, the world state after the
call is the world state before it (a failed store call leaving the world state as it
was). -/
theorem C15_failures_atomic (ctx : Stub) (Owner Status Type_ Department Code : GoString)
    (Value : Int) (Date : GoString) (id : GoString) (e : Error) :
    ((CreateAsset ctx Owner Status Type_ Department Code Value Date).1 = .error e →
      (CreateAsset ctx Owner Status Type_ Department Code Value Date).2.state = ctx.state) ∧
    ((UpdateAsset ctx Owner Status Type_ Department Code Value Date).1 = .error e →
      (UpdateAsset ctx Owner Status Type_ Department Code Value Date).2.state = ctx.state) ∧
    ((DeleteAsset ctx id).1 = .error e → (DeleteAsset ctx id).2.state = ctx.state) ∧
    ((ReadAsset ctx id).1 = .error e → (ReadAsset ctx id).2.state = ctx.state) ∧
    ((AssetExists ctx id).1 = .error e → (AssetExists ctx id).2.state = ctx.state) ∧
    ((GetAllAssets ctx).1 = .error e → (GetAllAssets ctx).2.state = ctx.state) := by
  refine ⟨fun h => ?_, fun h => ?_, fun h => ?_, fun _ => by rw [ReadAsset_stub],
    fun _ => by rw [AssetExists_stub], fun _ => by rw [GetAllAssets_stub]⟩
  · rcases CreateAsset_cases ctx Owner Status Type_ Department Code Value Date with
      ⟨e1, h1⟩ | ⟨e1, h1⟩ | h1
    · rw [h1]
    · rw [h1]
    · rw [h1] at h; cases h
  · rcases UpdateAsset_cases ctx Owner Status Type_ Department Code Value Date with
      ⟨e1, h1⟩ | ⟨e1, h1⟩ | h1
    · rw [h1]
    · rw [h1]
    · rw [h1] at h; cases h
  · rcases DeleteAsset_cases ctx id with ⟨e1, h1⟩ | ⟨e1, h1⟩ | h1
    · rw [h1]
    · rw [h1]
    · rw [h1] at h; cases h

/-- C15 at a store whose writes fail, for a creation that reaches its write. -/
theorem C15_failures_atomic_witness :
    (CreateAsset unwritableEmptyStub (utf8 "a") (utf8 "s") (utf8 "t") (utf8 "d") (utf8 "b") 1
      (utf8 "x")).2.state = unwritableEmptyStub.state :=
  (C15_failures_atomic unwritableEmptyStub (utf8 "a") (utf8 "s") (utf8 "t") (utf8 "d")
    (utf8 "b") 1 (utf8 "x") (utf8 "a:b") boom).1 rfl

/-- C16, as stated, fails: on a store whose one value decodes but whose range scan cannot
be opened, `GetAllAssets` returns the error of the scan and no list. -/
theorem C16_counterexample :
    unscannableOccupiedStub.state.entries = [⟨utf8 "a:b", encode sampleAsset⟩] ∧
    jsonUnmarshal (encode sampleAsset) Asset.zero = .ok sampleAsset ∧
    (GetAllAssets unscannableOccupiedStub).1 = .error (utf8 "boom") :=
  ⟨rfl, unmarshal_marshal _ _ (by decide) (by decide) rfl, rfl⟩

/-- C16, amended: `GetAllAssets` scans the whole namespace (start key `""` and end key
`""`). If the range scan cannot be opened it returns the error of the scan. If it is
opened, the iterator has one step for each entry of the world state, and `GetAllAssets`
returns a list `r` exactly when every step returns an entry whose value decodes; `r` then
has one record per step, in the order of the steps, the i-th record being the decoding of
the value of the i-th step. If some step fails, or returns a value that does not decode, it
returns an error and no list. -/
theorem C16_listing_in_scan_order (ctx : Stub) :
    (∀ e, ctx.rangeErr = some e → (GetAllAssets ctx).1 = .error e) ∧
    (∀ it, GetStateByRange ctx (utf8 "") (utf8 "") = .ok it →
      (∃ es : List (Sigma fun _ : GoString => Bytes), es.Perm ctx.state.entries ∧
        it = es.map (iterStep ctx)) ∧
      (∀ r, (GetAllAssets ctx).1 = .ok r ↔ List.Forall₂ stepDecodes it r) ∧
      ((∀ x ∈ it, ∃ a, stepDecodes x a) →
        ∃ r, (GetAllAssets ctx).1 = .ok r ∧ List.Forall₂ stepDecodes it r) ∧
      ((∃ x ∈ it, ¬ ∃ a, stepDecodes x a) → ∃ e, (GetAllAssets ctx).1 = .error e)) := by
  constructor
  · intro e h
    simp [GetAllAssets, GetStateByRange, h]
  · intro it hscan
    have hrun : (GetAllAssets ctx).1 = scanLoop it [] := by simp [GetAllAssets, hscan]
    have hiff : ∀ r, (GetAllAssets ctx).1 = .ok r ↔ List.Forall₂ stepDecodes it r := by
      intro r
      rw [hrun, scanLoop_ok_iff_forall2]
      simp
    refine ⟨?_, hiff, ?_, ?_⟩
    · refine ⟨scanOrder ctx, scanOrder_perm ctx, ?_⟩
      unfold GetStateByRange at hscan
      cases hr : ctx.rangeErr with
      | some e => simp [hr] at hscan
      | none =>
        simp only [hr, Except.ok.injEq] at hscan
        rw [← hscan]
        rfl
    · intro hall
      obtain ⟨r, hr⟩ := forall2_stepDecodes_of_all it hall
      exact ⟨r, (hiff r).2 hr, hr⟩
    · rintro ⟨x, hx, hbad⟩
      cases hres : (GetAllAssets ctx).1 with
      | error e => exact ⟨e, rfl⟩
      | ok r => exact absurd (all_of_forall2_stepDecodes it r ((hiff r).1 hres) x hx) hbad

/-- C16 (amended) at a store whose one value is no encoding of a record: no list. -/
theorem C16_listing_in_scan_order_witness :
    ∃ e, (GetAllAssets occupiedStub).1 = .error e :=
  ((C16_listing_in_scan_order occupiedStub).2 [.ok (utf8 "a:b", utf8 "x")] rfl).2.2.2
    ⟨_, List.mem_cons_self _ _, fun ⟨_, _, hq, hd⟩ => by
      cases hq
      have h : jsonUnmarshal (utf8 "x") Asset.zero =
          .error (utf8 "invalid character in JSON input") := rfl
      rw [h] at hd
      cases hd⟩

/-- C17: on a store whose reads and writes do not fail, `CreateAsset` succeeds if and only
if the derived id `Owner:Code` is absent from the store and it is not the case that Type is
`Сделка` while Status differs from `Первичная договоренность`. In particular, with the id
absent, every Type other than `Сделка` is accepted with every Status, and every integer
Value is accepted. -/
theorem C17_create_succeeds_iff (ctx : Stub) (hreads : ∀ key, ctx.getErr key = none)
    (hwrites : ∀ key value, ctx.putErr key value = none)
    (Owner Status Type_ Department Code : GoString) (Value : Int) (Date : GoString) :
    ((CreateAsset ctx Owner Status Type_ Department Code Value Date).1 = .ok () ↔
      ctx.state.lookup (Owner ++ utf8 ":" ++ Code) = none ∧
        ¬ (Type_ = utf8 "Сделка" ∧ Status ≠ utf8 "Первичная договоренность")) ∧
    (ctx.state.lookup (Owner ++ utf8 ":" ++ Code) = none → Type_ ≠ utf8 "Сделка" →
      ∀ (anyStatus : GoString) (anyValue : Int),
        (CreateAsset ctx Owner anyStatus Type_ Department Code anyValue Date).1 = .ok ()) := by
  constructor
  · constructor
    · intro h
      obtain ⟨-, hl, hr, -⟩ := CreateAsset_ok _ _ _ _ _ _ _ _ h
      exact ⟨hl, hr⟩
    · rintro ⟨hl, hr⟩
      exact CreateAsset_succeeds ctx Owner Status Type_ Department Code Value Date
        (hreads _) hl hr (hwrites _)
  · intro hl ht anyStatus anyValue
    exact CreateAsset_succeeds ctx Owner anyStatus Type_ Department Code anyValue Date
      (hreads _) hl (fun h => ht h.1) (hwrites _)

/-- C17 at the empty store in which no call fails, for a stored good of negative value. -/
theorem C17_create_succeeds_iff_witness :
    (CreateAsset Stub.empty (utf8 "Склад") (utf8 "Любой") (utf8 "Хранение") (utf8 "Склад")
      (utf8 "М2") (-5) (utf8 "x")).1 = .ok () :=
  ((C17_create_succeeds_iff Stub.empty (fun _ => rfl) (fun _ _ => rfl) (utf8 "Склад")
    (utf8 "Любой") (utf8 "Хранение") (utf8 "Склад") (utf8 "М2") (-5) (utf8 "x")).1).2
    ⟨rfl, by decide⟩

/-- The seed records are Go `int`s and valid UTF-8, and the ID of each is its
`Owner:Code`. -/
theorem seedAssets_wellFormed :
    ∀ a ∈ seedAssets, InInt64 a.Value ∧ ValidUTF8 a.Owner ∧ ValidUTF8 a.Code ∧
      a.ID = a.Owner ++ utf8 ":" ++ a.Code := by
  decide

/-- Every reachable world state has the key/ID invariant. -/
theorem Reachable.keyIdInvariant (ctx : Stub) (h : Reachable ctx) : KeyIdInvariant ctx.state := by
  induction h with
  | start ctx h =>
    intro k v hk
    rw [h] at hk
    simp at hk
  | next ctx faults _ ih => exact ih
  | initLedger ctx _ ih =>
    obtain ⟨pre, hpre, hst⟩ := initLoop_state_prefix ctx seedAssets
    have : (InitLedger ctx).2.state = writeAll ctx.state pre := hst
    rw [this]
    exact KeyIdInvariant_writeAll _ _ ih (fun a ha => seedAssets_wellFormed a (hpre.subset ha))
  | createAsset ctx Owner Status Type_ Department Code Value Date hv ho hc _ ih =>
    rcases CreateAsset_cases ctx Owner Status Type_ Department Code Value Date with
      ⟨e, h1⟩ | ⟨e, h1⟩ | h1
    · rw [h1]; exact ih
    · rw [h1]; exact ih
    · rw [h1]
      exact KeyIdInvariant_insert ctx.state
        ⟨Owner ++ utf8 ":" ++ Code, Owner, Status, Type_, Department, Code, Value, Date⟩ ih hv
        ho hc rfl
  | updateAsset ctx Owner Status Type_ Department Code Value Date hv ho hc _ ih =>
    rcases UpdateAsset_cases ctx Owner Status Type_ Department Code Value Date with
      ⟨e, h1⟩ | ⟨e, h1⟩ | h1
    · rw [h1]; exact ih
    · rw [h1]; exact ih
    · rw [h1]
      exact KeyIdInvariant_insert ctx.state
        ⟨Owner ++ utf8 ":" ++ Code, Owner, Status, Type_, Department, Code, Value, Date⟩ ih hv
        ho hc rfl
  | deleteAsset ctx id _ ih =>
    rcases DeleteAsset_cases ctx id with ⟨e, h1⟩ | ⟨e, h1⟩ | h1
    · rw [h1]; exact ih
    · rw [h1]; exact ih
    · rw [h1]
      exact KeyIdInvariant_erase ctx.state id ih

/-- C18, as stated, fails: on the store with no entries in which no call fails,
`CreateAsset` with the Owner `a\xff`, which is no valid UTF-8, and the Code `b` succeeds,
and the value it stores under the key `a\xff:b` decodes to a record whose ID is `a`,
U+FFFD, `:b`, which is not the key. -/
theorem C18_counterexample :
    (CreateAsset Stub.empty invalidText (utf8 "s") (utf8 "t") (utf8 "d") (utf8 "b") 1
      (utf8 "x")).1 = .ok () ∧
    (CreateAsset Stub.empty invalidText (utf8 "s") (utf8 "t") (utf8 "d") (utf8 "b") 1
      (utf8 "x")).2.state.lookup (invalidText ++ utf8 ":" ++ utf8 "b") =
      some (encode ⟨invalidText ++ utf8 ":" ++ utf8 "b", invalidText, utf8 "s", utf8 "t",
        utf8 "d", utf8 "b", 1, utf8 "x"⟩) ∧
    jsonUnmarshal (encode ⟨invalidText ++ utf8 ":" ++ utf8 "b", invalidText, utf8 "s",
        utf8 "t", utf8 "d", utf8 "b", 1, utf8 "x"⟩) Asset.zero =
      .ok ⟨replacedText ++ utf8 ":" ++ utf8 "b", replacedText, utf8 "s", utf8 "t", utf8 "d",
        utf8 "b", 1, utf8 "x"⟩ ∧
    replacedText ++ utf8 ":" ++ utf8 "b" ≠ invalidText ++ utf8 ":" ++ utf8 "b" := by
  refine ⟨rfl, CreateAsset_stored _ _ _ _ _ _ _ _ rfl, ?_, by decide⟩
  rw [unmarshal_encode _ (by decide)]
  rfl

/-- C18, amended: in every store reached from a store with no entries by any finite
sequence of `InitLedger`, `CreateAsset`, `UpdateAsset` and `DeleteAsset` calls whose
`Owner` and `Code` arguments are valid UTF-8, whatever the calls return and whichever store
calls fail, every value stored under a key `k` decodes to an `Asset` whose ID is `k` and is
its own `Owner:Code`; and each of the ten seed records has its literal ID equal to its
`Owner:Code`, the ten IDs being pairwise distinct. -/
theorem C18_key_id_invariant (ctx : Stub) (h : Reachable ctx) :
    (∀ k v, ctx.state.lookup k = some v →
      ∃ a, jsonUnmarshal v Asset.zero = .ok a ∧ a.ID = k ∧
        a.ID = a.Owner ++ utf8 ":" ++ a.Code) ∧
    (∀ a ∈ seedAssets, a.ID = a.Owner ++ utf8 ":" ++ a.Code) ∧
    (seedAssets.map Asset.ID).Nodup :=
  ⟨Reachable.keyIdInvariant ctx h, fun a ha => (seedAssets_wellFormed a ha).2.2.2, by decide⟩

/-- C18 (amended) at the store reached from the empty store by seeding, a creation, an
update whose write fails, an update and a deletion, for the key `a:b`. -/
theorem C18_key_id_invariant_witness :
    (DeleteAsset (UpdateAsset ((UpdateAsset ((CreateAsset (InitLedger Stub.empty).2 (utf8 "a")
        (utf8 "s") (utf8 "t") (utf8 "d") (utf8 "b") 1 (utf8 "x")).2.next writesFail) (utf8 "a")
        (utf8 "s1") (utf8 "t") (utf8 "d") (utf8 "b") 3 (utf8 "z")).2.next noFaults) (utf8 "a")
        (utf8 "s2") (utf8 "t") (utf8 "d") (utf8 "b") 2 (utf8 "y")).2
        (utf8 "Склад:М2")).2.state.lookup (utf8 "a:b") =
      some (encode ⟨utf8 "a:b", utf8 "a", utf8 "s2", utf8 "t", utf8 "d", utf8 "b", 2,
        utf8 "y"⟩) ∧
    ∃ a, jsonUnmarshal (encode ⟨utf8 "a:b", utf8 "a", utf8 "s2", utf8 "t", utf8 "d", utf8 "b",
        2, utf8 "y"⟩) Asset.zero = .ok a ∧
      a.ID = utf8 "a:b" ∧ a.ID = a.Owner ++ utf8 ":" ++ a.Code :=
  ⟨rfl, (C18_key_id_invariant _
    (Reachable.deleteAsset _ (utf8 "Склад:М2")
      (Reachable.updateAsset _ (utf8 "a") (utf8 "s2") (utf8 "t") (utf8 "d") (utf8 "b") 2
        (utf8 "y") (by decide) (by decide) (by decide)
        (Reachable.next _ noFaults
          (Reachable.updateAsset _ (utf8 "a") (utf8 "s1") (utf8 "t") (utf8 "d") (utf8 "b") 3
            (utf8 "z") (by decide) (by decide) (by decide)
            (Reachable.next _ writesFail
              (Reachable.createAsset _ (utf8 "a") (utf8 "s") (utf8 "t") (utf8 "d") (utf8 "b")
                1 (utf8 "x") (by decide) (by decide) (by decide)
                (Reachable.initLedger _ (Reachable.start Stub.empty rfl))))))))).1
    (utf8 "a:b") _ rfl⟩

/-- C19: `InitLedger` performs no existence check and is idempotent. On every store whose
writes do not fail, whatever it holds, `InitLedger` succeeds; afterwards each of the ten
seed keys holds the encoding of its seed record, which decodes to that record, whatever was
stored there before; every key that is no seed key holds what it held; and a second
`InitLedger` succeeds too and leaves the world state exactly as the first left it, be it
run on the same stub or on that of a later invocation whose writes do not fail. -/
theorem C19_initLedger_idempotent (ctx : Stub)
    (hwrites : ∀ key value, ctx.putErr key value = none) :
    (InitLedger ctx).1 = .ok () ∧
    (∀ a ∈ seedAssets, (InitLedger ctx).2.state.lookup a.ID = some (encode a) ∧
      jsonUnmarshal (encode a) Asset.zero = .ok a) ∧
    (∀ k, k ∉ seedAssets.map Asset.ID →
      (InitLedger ctx).2.state.lookup k = ctx.state.lookup k) ∧
    (InitLedger (InitLedger ctx).2).1 = .ok () ∧
    (InitLedger (InitLedger ctx).2).2.state = (InitLedger ctx).2.state ∧
    (∀ faults : Faults, (∀ key value, faults.putErr key value = none) →
      (InitLedger ((InitLedger ctx).2.next faults)).1 = .ok () ∧
      (InitLedger ((InitLedger ctx).2.next faults)).2.state = (InitLedger ctx).2.state) := by
  have hnd : (seedAssets.map Asset.ID).Nodup := by decide
  have hval : ∀ a ∈ seedAssets, InInt64 a.Value ∧ a.Valid := by decide
  have hrun : ∀ c : Stub, (∀ key value, c.putErr key value = none) →
      InitLedger c = (.ok (), { c with state := writeAll c.state seedAssets,
                                       calls := c.calls ++ seedAssets.map putCall }) :=
    fun c hc => initLoop_all c seedAssets (fun b _ => hc _ _)
  have h1 := hrun ctx hwrites
  have h2 := hrun (InitLedger ctx).2 (by rw [h1]; exact hwrites)
  refine ⟨by rw [h1], ?_, ?_, by rw [h2], ?_, ?_⟩
  · intro a ha
    rw [h1]
    exact ⟨lookup_writeAll_of_mem _ _ hnd a ha,
      unmarshal_marshal a _ (hval a ha).1 (hval a ha).2 (encode_eq a)⟩
  · intro k hk
    rw [h1]
    exact lookup_writeAll_of_not_mem _ _ k hk
  · rw [h2, h1]
    exact writeAll_writeAll seedAssets ctx.state hnd
  · intro faults hf
    have h3 := hrun ((InitLedger ctx).2.next faults) hf
    rw [h3, h1]
    exact ⟨rfl, writeAll_writeAll seedAssets ctx.state hnd⟩

/-- C19 at a store that holds a value under `a:b` and in which no call fails. -/
theorem C19_initLedger_idempotent_witness :
    (InitLedger occupiedStub).1 = .ok () ∧
    (InitLedger (InitLedger occupiedStub).2).2.state = (InitLedger occupiedStub).2.state :=
  have h := C19_initLedger_idempotent occupiedStub (fun _ _ => rfl)
  ⟨h.1, h.2.2.2.2.1⟩

/-- C20, as stated, fails: after a successful `CreateAsset` for the pair (`a:b`, `c`), a
`CreateAsset` for the pair (`a`, `b:c`) whose read of the store fails returns the error of
the read, not `the asset a:b:c already exists`. -/
theorem C20_counterexample :
    (CreateAsset Stub.empty (utf8 "a:b") (utf8 "s") (utf8 "t") (utf8 "d") (utf8 "c") 1
      (utf8 "x")).1 = .ok () ∧
    (CreateAsset ((CreateAsset Stub.empty (utf8 "a:b") (utf8 "s") (utf8 "t") (utf8 "d")
      (utf8 "c") 1 (utf8 "x")).2.next readsFail) (utf8 "a") (utf8 "s2") (utf8 "t2") (utf8 "d2")
      (utf8 "b:c") 2 (utf8 "y")).1 = .error (utf8 "failed to read from world state: boom") ∧
    utf8 "failed to read from world state: boom" ≠ utf8 "the asset a:b:c already exists" :=
  ⟨rfl, rfl, by decide⟩

/-- C20, amended: the derivation `id = Owner:Code` is not injective: the distinct pairs
(`a:b`, `c`) and (`a`, `b:c`) have the same id. So, on every store, after a successful
`CreateAsset` for the first pair: a `CreateAsset` for the second pair whose read of the
store does not fail fails with `the asset <id> already exists`, and an `UpdateAsset` for the
second pair whose read does not fail passes its existence check and writes under the key of
the first pair's record; if that write does not fail it succeeds and the key, which held
the encoding of the first pair's record, holds the encoding of the second pair's, which a
`ReadAsset` whose read does not fail returns (with every byte that is no valid UTF-8
replaced by U+FFFD, so exactly for valid arguments). If the read of the second `CreateAsset`
or `UpdateAsset` fails with `e`, it returns `failed to read from world state: <e>`.
Restricted to owners that contain no colon, the derivation is injective. -/
theorem C20_id_derivation_not_injective (ctx : Stub)
    (Status1 Type1 Department1 Date1 Status2 Type2 Department2 Date2 : GoString)
    (Value1 Value2 : Int) (hv : InInt64 Value2)
    (hcreate : (CreateAsset ctx (utf8 "a:b") Status1 Type1 Department1 (utf8 "c") Value1
      Date1).1 = .ok ())
    (faults : Faults) :
    ((utf8 "a:b", utf8 "c") : GoString × GoString) ≠ (utf8 "a", utf8 "b:c") ∧
    utf8 "a:b" ++ utf8 ":" ++ utf8 "c" = utf8 "a" ++ utf8 ":" ++ utf8 "b:c" ∧
    (faults.getErr (utf8 "a" ++ utf8 ":" ++ utf8 "b:c") = none →
      CreateAsset ((CreateAsset ctx (utf8 "a:b") Status1 Type1 Department1 (utf8 "c") Value1
          Date1).2.next faults) (utf8 "a") Status2 Type2 Department2 (utf8 "b:c") Value2
          Date2 =
        (.error (utf8 "the asset " ++ (utf8 "a" ++ utf8 ":" ++ utf8 "b:c") ++
          utf8 " already exists"),
          (CreateAsset ctx (utf8 "a:b") Status1 Type1 Department1 (utf8 "c") Value1
            Date1).2.next faults) ∧
      UpdateAsset ((CreateAsset ctx (utf8 "a:b") Status1 Type1 Department1 (utf8 "c") Value1
          Date1).2.next faults) (utf8 "a") Status2 Type2 Department2 (utf8 "b:c") Value2
          Date2 =
        PutState ((CreateAsset ctx (utf8 "a:b") Status1 Type1 Department1 (utf8 "c") Value1
          Date1).2.next faults) (utf8 "a:b" ++ utf8 ":" ++ utf8 "c")
          (encode ⟨utf8 "a" ++ utf8 ":" ++ utf8 "b:c", utf8 "a", Status2, Type2, Department2,
            utf8 "b:c", Value2, Date2⟩) ∧
      (faults.putErr (utf8 "a" ++ utf8 ":" ++ utf8 "b:c")
          (encode ⟨utf8 "a" ++ utf8 ":" ++ utf8 "b:c", utf8 "a", Status2, Type2, Department2,
            utf8 "b:c", Value2, Date2⟩) = none →
        (UpdateAsset ((CreateAsset ctx (utf8 "a:b") Status1 Type1 Department1 (utf8 "c")
          Value1 Date1).2.next faults) (utf8 "a") Status2 Type2 Department2 (utf8 "b:c")
          Value2 Date2).1 = .ok () ∧
        (CreateAsset ctx (utf8 "a:b") Status1 Type1 Department1 (utf8 "c") Value1
          Date1).2.state.lookup (utf8 "a:b" ++ utf8 ":" ++ utf8 "c") =
          some (encode ⟨utf8 "a:b" ++ utf8 ":" ++ utf8 "c", utf8 "a:b", Status1, Type1,
            Department1, utf8 "c", Value1, Date1⟩) ∧
        (UpdateAsset ((CreateAsset ctx (utf8 "a:b") Status1 Type1 Department1 (utf8 "c")
          Value1 Date1).2.next faults) (utf8 "a") Status2 Type2 Department2 (utf8 "b:c")
          Value2 Date2).2.state.lookup (utf8 "a:b" ++ utf8 ":" ++ utf8 "c") =
          some (encode ⟨utf8 "a" ++ utf8 ":" ++ utf8 "b:c", utf8 "a", Status2, Type2,
            Department2, utf8 "b:c", Value2, Date2⟩) ∧
        ∀ faults1 : Faults, faults1.getErr (utf8 "a:b" ++ utf8 ":" ++ utf8 "c") = none →
          (ReadAsset ((UpdateAsset ((CreateAsset ctx (utf8 "a:b") Status1 Type1 Department1
            (utf8 "c") Value1 Date1).2.next faults) (utf8 "a") Status2 Type2 Department2
            (utf8 "b:c") Value2 Date2).2.next faults1)
            (utf8 "a:b" ++ utf8 ":" ++ utf8 "c")).1 =
            .ok (Asset.replaceInvalid ⟨utf8 "a" ++ utf8 ":" ++ utf8 "b:c", utf8 "a", Status2,
              Type2, Department2, utf8 "b:c", Value2, Date2⟩) ∧
          (ValidUTF8 Status2 → ValidUTF8 Type2 → ValidUTF8 Department2 → ValidUTF8 Date2 →
            (ReadAsset ((UpdateAsset ((CreateAsset ctx (utf8 "a:b") Status1 Type1 Department1
              (utf8 "c") Value1 Date1).2.next faults) (utf8 "a") Status2 Type2 Department2
              (utf8 "b:c") Value2 Date2).2.next faults1)
              (utf8 "a:b" ++ utf8 ":" ++ utf8 "c")).1 =
              .ok ⟨utf8 "a" ++ utf8 ":" ++ utf8 "b:c", utf8 "a", Status2, Type2, Department2,
                utf8 "b:c", Value2, Date2⟩))) ∧
    (∀ e, faults.getErr (utf8 "a" ++ utf8 ":" ++ utf8 "b:c") = some e →
      (CreateAsset ((CreateAsset ctx (utf8 "a:b") Status1 Type1 Department1 (utf8 "c") Value1
          Date1).2.next faults) (utf8 "a") Status2 Type2 Department2 (utf8 "b:c") Value2
          Date2).1 = .error (utf8 "failed to read from world state: " ++ e) ∧
      (UpdateAsset ((CreateAsset ctx (utf8 "a:b") Status1 Type1 Department1 (utf8 "c") Value1
          Date1).2.next faults) (utf8 "a") Status2 Type2 Department2 (utf8 "b:c") Value2
          Date2).1 = .error (utf8 "failed to read from world state: " ++ e)) ∧
    (∀ Owner1 Code1 Owner2 Code2 : GoString, ch ':' ∉ Owner1 → ch ':' ∉ Owner2 →
      Owner1 ++ utf8 ":" ++ Code1 = Owner2 ++ utf8 ":" ++ Code2 →
      Owner1 = Owner2 ∧ Code1 = Code2) := by
  have hid : utf8 "a" ++ utf8 ":" ++ utf8 "b:c" = utf8 "a:b" ++ utf8 ":" ++ utf8 "c" := by
    decide
  have hst := CreateAsset_stored _ _ _ _ _ _ _ _ hcreate
  refine ⟨by decide, by decide, ?_, ?_, id_inj_of_no_colon⟩
  · intro hg
    have hl : ((CreateAsset ctx (utf8 "a:b") Status1 Type1 Department1 (utf8 "c") Value1
        Date1).2.next faults).state.lookup (utf8 "a" ++ utf8 ":" ++ utf8 "b:c") =
        some (encode ⟨utf8 "a:b" ++ utf8 ":" ++ utf8 "c", utf8 "a:b", Status1, Type1,
          Department1, utf8 "c", Value1, Date1⟩) := by
      rw [hid]; exact hst
    have hg1 : ((CreateAsset ctx (utf8 "a:b") Status1 Type1 Department1 (utf8 "c") Value1
        Date1).2.next faults).getErr (utf8 "a" ++ utf8 ":" ++ utf8 "b:c") = none := hg
    refine ⟨CreateAsset_of_present _ _ _ _ _ _ _ _ _ hg1 hl, ?_, ?_⟩
    · rw [UpdateAsset_of_present _ _ _ _ _ _ _ _ _ hg1 hl, hid]
    · intro hw
      have hrun := UpdateAsset_run _ (utf8 "a") Status2 Type2 Department2 (utf8 "b:c") Value2
        Date2 _ hg1 hl hw
      refine ⟨hrun.1, hst, by rw [← hid]; exact hrun.2, ?_⟩
      intro faults1 hg2
      rw [← hid] at hg2 ⊢
      have hread := ReadAsset_next _ faults1 _ _ hg2 hrun.2 hv
      refine ⟨by rw [hread], ?_⟩
      intro h1 h2 h3 h4
      rw [hread, Asset.replaceInvalid_eq_self _ (record_valid _ _ _ _ _ _ _ (by decide) h1 h2 h3
        (by decide) h4)]
  · intro e he
    have he1 : ((CreateAsset ctx (utf8 "a:b") Status1 Type1 Department1 (utf8 "c") Value1
        Date1).2.next faults).getErr (utf8 "a" ++ utf8 ":" ++ utf8 "b:c") = some e := he
    constructor
    · rw [CreateAsset_of_getErr _ _ _ _ _ _ _ _ e he1]
    · rw [UpdateAsset_of_getErr _ _ _ _ _ _ _ _ e he1]

/-- C20 (amended) at the empty store: a second creation and a second update in which no
call fails, and a second creation whose read fails. -/
theorem C20_id_derivation_not_injective_witness :
    CreateAsset ((CreateAsset Stub.empty (utf8 "a:b") (utf8 "s") (utf8 "t") (utf8 "d")
        (utf8 "c") 1 (utf8 "x")).2.next noFaults) (utf8 "a") (utf8 "s2") (utf8 "t2") (utf8 "d2")
        (utf8 "b:c") 2 (utf8 "y") =
      (.error (utf8 "the asset " ++ (utf8 "a" ++ utf8 ":" ++ utf8 "b:c") ++
        utf8 " already exists"),
        (CreateAsset Stub.empty (utf8 "a:b") (utf8 "s") (utf8 "t") (utf8 "d") (utf8 "c") 1
          (utf8 "x")).2.next noFaults) ∧
    (UpdateAsset ((CreateAsset Stub.empty (utf8 "a:b") (utf8 "s") (utf8 "t") (utf8 "d")
        (utf8 "c") 1 (utf8 "x")).2.next noFaults) (utf8 "a") (utf8 "s2") (utf8 "t2") (utf8 "d2")
        (utf8 "b:c") 2 (utf8 "y")).1 = .ok () ∧
    (CreateAsset ((CreateAsset Stub.empty (utf8 "a:b") (utf8 "s") (utf8 "t") (utf8 "d")
        (utf8 "c") 1 (utf8 "x")).2.next readsFail) (utf8 "a") (utf8 "s2") (utf8 "t2") (utf8 "d2")
        (utf8 "b:c") 2 (utf8 "y")).1 =
      .error (utf8 "failed to read from world state: " ++ boom) :=
  ⟨((C20_id_derivation_not_injective Stub.empty (utf8 "s") (utf8 "t") (utf8 "d") (utf8 "x")
      (utf8 "s2") (utf8 "t2") (utf8 "d2") (utf8 "y") 1 2 (by decide) rfl noFaults).2.2.1 rfl).1,
    ((((C20_id_derivation_not_injective Stub.empty (utf8 "s") (utf8 "t") (utf8 "d") (utf8 "x")
      (utf8 "s2") (utf8 "t2") (utf8 "d2") (utf8 "y") 1 2 (by decide) rfl noFaults).2.2.1
      rfl).2.2) rfl).1,
    ((C20_id_derivation_not_injective Stub.empty (utf8 "s") (utf8 "t") (utf8 "d") (utf8 "x")
      (utf8 "s2") (utf8 "t2") (utf8 "d2") (utf8 "y") 1 2 (by decide) rfl readsFail).2.2.2.1
      boom rfl).1⟩

end Atcc
